import Mathlib

/-!
Verification of the core model of the `vintergatan` Tentai-Show generator.

This file gives a shallow embedding in Lean 4 of the data model and the
operations of `src/model/{position,border,rectangle,galaxy,universe,board,
board_error,objective}.rs`, and settles the frozen claims about them.

Modelling conventions:
* Rust `i32` coordinates are embedded as `Int` (no claim depends on 32-bit
  overflow).
* Rust `HashSet<Position>` is embedded as `Finset Position`; folds over hash
  sets that compute order-independent results (min/max bounds) are embedded by
  those results directly.
* `petgraph::UnGraphMap` is embedded as a `Finset (Position × Position)` with
  membership tested in both orientations; the node set of a `Universe` or
  `Board` graph is embedded as the `width × height` grid (the node set that
  `Universe::new`/`Board::new` construct).
* The random generator is embedded as an oracle `Rng` producing an arbitrary
  stream of naturals; `gen_range(0..n)` takes the next value modulo `n`.
  Quantifying over all oracles covers every behaviour of the seeded `StdRng`.
* Rust integer division/remainder truncate towards zero, so `Int.tdiv` and
  `Int.tmod` are used where parities and halves of centers are computed.
-/

set_option maxHeartbeats 4000000
set_option maxRecDepth 100000

namespace Vintergatan

/-- `Position` from `src/model/position.rs`: an integer row/column pair. -/
structure Position where
  row : Int
  column : Int
deriving DecidableEq, Repr

namespace Position

/-- `Position::ZERO`. -/
def ZERO : Position := ⟨0, 0⟩

instance : Inhabited Position := ⟨ZERO⟩

/-- `Position::up`. -/
def up (p : Position) : Position := ⟨p.row - 1, p.column⟩

/-- `Position::right`. -/
def right (p : Position) : Position := ⟨p.row, p.column + 1⟩

/-- `Position::down`. -/
def down (p : Position) : Position := ⟨p.row + 1, p.column⟩

/-- `Position::left`. -/
def left (p : Position) : Position := ⟨p.row, p.column - 1⟩

/-- `Position::adjacent`: `vec![up, right, down, left]`. -/
def adjacent (p : Position) : List Position := [p.up, p.right, p.down, p.left]

/-- `Position::is_adjacent_to`: the L1 distance is exactly 1. -/
def isAdjacentTo (p q : Position) : Prop :=
  (p.row - q.row).natAbs + (p.column - q.column).natAbs = 1

instance (p q : Position) : Decidable (p.isAdjacentTo q) := by
  unfold isAdjacentTo; infer_instance

/-- The lexicographic (row, column) key realising the derived `Ord`
of the Rust `Position`. -/
def toLexPair (p : Position) : Int ×ₗ Int := toLex (p.row, p.column)

theorem toLexPair_injective : Function.Injective toLexPair := by
  intro p q h
  cases p; cases q
  simpa [toLexPair, Prod.ext_iff] using h

instance linearOrderAux : LinearOrder Position :=
  LinearOrder.lift' toLexPair toLexPair_injective

end Position

/-- The list of integers `a, a+1, …, b-1` (the Rust range `a..b`). -/
def rangeInt (a b : Int) : List Int :=
  (List.range (b - a).toNat).map (fun i : Nat => a + (i : Int))

/-- `Rectangle` from `src/model/rectangle.rs`: half-open row/column ranges. -/
structure Rectangle where
  min_row : Int
  max_row : Int
  min_column : Int
  max_column : Int
deriving DecidableEq, Repr

namespace Rectangle

/-- Rust `Default` derive: all fields zero. -/
instance : Inhabited Rectangle := ⟨⟨0, 0, 0, 0⟩⟩

/-- `Rectangle::width`. -/
def width (r : Rectangle) : Int := r.max_column - r.min_column

/-- `Rectangle::height`. -/
def height (r : Rectangle) : Int := r.max_row - r.min_row

/-- `Rectangle::area`. -/
def area (r : Rectangle) : Int := r.width * r.height

/-- `Rectangle::top_left`. -/
def top_left (r : Rectangle) : Position := ⟨r.min_row, r.min_column⟩

/-- `Rectangle::top_right`. -/
def top_right (r : Rectangle) : Position := ⟨r.min_row, r.max_column⟩

/-- `Rectangle::bottom_left`. -/
def bottom_left (r : Rectangle) : Position := ⟨r.max_row, r.min_column⟩

/-- `Rectangle::bottom_right`. -/
def bottom_right (r : Rectangle) : Position := ⟨r.max_row, r.max_column⟩

/-- `Rectangle::corners`. -/
def corners (r : Rectangle) : List Position :=
  if r.min_row = r.max_row ∧ r.min_column = r.max_column then
    [r.top_left]
  else if r.min_row = r.max_row ∨ r.min_column = r.max_column then
    [r.top_left, r.bottom_right]
  else
    [r.top_left, r.top_right, r.bottom_left, r.bottom_right]

/-- `Rectangle::positions`: row-major enumeration of the cells. -/
def positions (r : Rectangle) : List Position :=
  (rangeInt r.min_row r.max_row).flatMap
    (fun row => (rangeInt r.min_column r.max_column).map (fun col => ⟨row, col⟩))

end Rectangle

/-! ### Reachability closure

`petgraph`'s DFS/BFS searches are embedded as an iterated one-step closure of
a neighbour function, with enough fuel to reach the fixed point. -/

/-- One closure step: add all neighbours of current members. -/
def closureStep (nbrs : Position → Finset Position) (s : Finset Position) : Finset Position :=
  s ∪ s.biUnion nbrs

/-- Iterated closure. -/
def closureIter (nbrs : Position → Finset Position) : Nat → Finset Position → Finset Position
  | 0, s => s
  | n + 1, s => closureIter nbrs n (closureStep nbrs s)

/-- A set closed under the neighbour function. -/
def IsClosed (nbrs : Position → Finset Position) (s : Finset Position) : Prop :=
  ∀ x ∈ s, nbrs x ⊆ s

/-- `Galaxy` from `src/model/galaxy.rs`: a finite set of positions. -/
structure Galaxy where
  positions : Finset Position
deriving DecidableEq

namespace Galaxy

/-- `Galaxy::new`. -/
def new : Galaxy := ⟨∅⟩

instance : Inhabited Galaxy := ⟨new⟩

/-- `Galaxy::size`. -/
def size (g : Galaxy) : Nat := g.positions.card

/-- `Galaxy::bounding_rectangle`: the fold over the hash set computes exactly
the componentwise min/max bounds (inclusive), independent of iteration
order; the empty set gives the `Default` rectangle. -/
def bounding_rectangle (g : Galaxy) : Rectangle :=
  if h : g.positions.Nonempty then
    { min_row := (g.positions.image Position.row).min' (h.image Position.row)
      max_row := (g.positions.image Position.row).max' (h.image Position.row)
      min_column := (g.positions.image Position.column).min' (h.image Position.column)
      max_column := (g.positions.image Position.column).max' (h.image Position.column) }
  else default

/-- `Galaxy::center`: half-cell coordinates from the bounding rectangle. -/
def center (g : Galaxy) : Position :=
  let rect := g.bounding_rectangle
  ⟨rect.min_row + rect.max_row, rect.min_column + rect.max_column⟩

/-- `Galaxy::mirror_position`. -/
def mirror_position (g : Galaxy) (p : Position) : Position :=
  let c := g.center
  ⟨c.row - p.row, c.column - p.column⟩

/-- `Galaxy::contains_position`. -/
def contains_position (g : Galaxy) (p : Position) : Prop := p ∈ g.positions

instance (g : Galaxy) (p : Position) : Decidable (g.contains_position p) := by
  unfold contains_position; infer_instance

/-- `Galaxy::is_symmetric`. -/
def is_symmetric (g : Galaxy) : Prop :=
  ∀ p ∈ g.positions, g.mirror_position p ∈ g.positions

instance (g : Galaxy) : Decidable g.is_symmetric := by
  unfold is_symmetric; infer_instance

/-- Neighbours of `x` inside the cell set `s` (the edges of the graph that
`Galaxy::is_connected` builds). -/
def adjNbrsIn (s : Finset Position) (x : Position) : Finset Position :=
  s.filter (fun q => q ∈ x.adjacent)

/-- The members of `s` reachable from `p` through 4-adjacency inside `s`. -/
def reachIn (s : Finset Position) (p : Position) : Finset Position :=
  closureIter (adjNbrsIn s) (s.card + 1) {p}

/-- `Galaxy::is_connected`: one connected component (empty sets count as
connected, matching the early return in the source). -/
def is_connected (g : Galaxy) : Prop :=
  if h : g.positions.Nonempty then
    g.positions ⊆ reachIn g.positions (g.positions.min' h)
  else True

instance (g : Galaxy) : Decidable g.is_connected := by
  unfold is_connected
  split <;> infer_instance

/-- `Galaxy::is_empty`. -/
def is_empty (g : Galaxy) : Prop := g.positions = ∅

instance (g : Galaxy) : Decidable g.is_empty := by
  unfold is_empty; infer_instance

/-- `Galaxy::contains_center`: the 1, 2 or 4 cells around the half-cell center
(Rust `%` and `/` truncate towards zero, hence `tmod`/`tdiv`). -/
def contains_center (g : Galaxy) : Prop :=
  let c := g.center
  let rows := if c.row.tmod 2 = 0 then [c.row.tdiv 2] else [c.row.tdiv 2, c.row.tdiv 2 + 1]
  let columns :=
    if c.column.tmod 2 = 0 then [c.column.tdiv 2] else [c.column.tdiv 2, c.column.tdiv 2 + 1]
  ∀ r ∈ rows, ∀ col ∈ columns, (⟨r, col⟩ : Position) ∈ g.positions

instance (g : Galaxy) : Decidable g.contains_center := by
  unfold contains_center; infer_instance

/-- `Galaxy::is_valid`. -/
def is_valid (g : Galaxy) : Prop :=
  ¬g.is_empty ∧ g.contains_center ∧ g.is_connected ∧ g.is_symmetric

instance (g : Galaxy) : Decidable g.is_valid := by
  unfold is_valid; infer_instance

/-- `Galaxy::is_empty_or_valid`. -/
def is_empty_or_valid (g : Galaxy) : Prop := g.is_empty ∨ g.is_valid

instance (g : Galaxy) : Decidable g.is_empty_or_valid := by
  unfold is_empty_or_valid; infer_instance

/-- `Galaxy::with_position`. -/
def with_position (g : Galaxy) (p : Position) : Galaxy := ⟨insert p g.positions⟩

/-- `Galaxy::remove_position`. -/
def remove_position (g : Galaxy) (p : Position) : Galaxy := ⟨g.positions.erase p⟩

/-! #### `Galaxy::rectangles_internal`

The largest-rectangle step of the greedy decomposition.  The Rust vectors
`height`, `left`, `right` (indexed by `col - min_col`) are embedded as
functions `Int → Int` applied at `col - min_col`. -/

/-- One column of the heights scan: `height[index] += 1` or `= 0`. -/
def heightsStep (P : Finset Position) (row min_col : Int) (h : Int → Int) (col : Int) :
    Int → Int :=
  fun i =>
    if i = col - min_col then
      if (⟨row, col⟩ : Position) ∈ P then h (col - min_col) + 1 else 0
    else h i

/-- The first per-row column scan: update the stacked heights. -/
def updateHeights (P : Finset Position) (row min_col max_col : Int) (hts : Int → Int) :
    Int → Int :=
  (rangeInt min_col max_col).foldl (heightsStep P row min_col) hts

/-- One column of the lefts scan, carrying `current_left`. -/
def leftsStep (P : Finset Position) (row min_col : Int) (st : (Int → Int) × Int) (col : Int) :
    (Int → Int) × Int :=
  let lefts := st.1
  let current_left := st.2
  if (⟨row, col⟩ : Position) ∈ P then
    ((fun i => if i = col - min_col then max (lefts (col - min_col)) current_left else lefts i),
      current_left)
  else
    ((fun i => if i = col - min_col then 0 else lefts i), col + 1)

/-- The second per-row column scan: update the left extents, carrying
`current_left`. -/
def updateLefts (P : Finset Position) (row min_col max_col : Int) (lf : Int → Int) :
    Int → Int :=
  ((rangeInt min_col max_col).foldl (leftsStep P row min_col) (lf, min_col)).1

/-- One column of the rights scan, carrying `current_right`. -/
def rightsStep (P : Finset Position) (row min_col max_col : Int) (st : (Int → Int) × Int)
    (col : Int) : (Int → Int) × Int :=
  let rights := st.1
  let current_right := st.2
  if (⟨row, col⟩ : Position) ∈ P then
    ((fun i => if i = col - min_col then min (rights (col - min_col)) current_right else rights i),
      current_right)
  else
    ((fun i => if i = col - min_col then max_col else rights i), col)

/-- The third per-row column scan (right to left): update the right extents,
carrying `current_right`. -/
def updateRights (P : Finset Position) (row min_col max_col : Int) (rt : Int → Int) :
    Int → Int :=
  ((rangeInt min_col max_col).reverse.foldl (rightsStep P row min_col max_col) (rt, max_col)).1

/-- One column of the candidate scan: keep the larger rectangle. -/
def bestStep (row min_col : Int) (hts lf rt : Int → Int) (best : Rectangle) (col : Int) :
    Rectangle :=
  let index := col - min_col
  let rect : Rectangle := ⟨row - hts index + 1, row + 1, lf index, rt index⟩
  if best.area < rect.area then rect else best

/-- The fourth per-row column scan: keep the largest candidate rectangle. -/
def bestAtRow (row min_col max_col : Int) (hts lf rt : Int → Int) (best : Rectangle) :
    Rectangle :=
  (rangeInt min_col max_col).foldl (bestStep row min_col hts lf rt) best

/-- One row of the row loop of `rectangles_internal`. -/
def rowStep (P : Finset Position) (min_col max_col : Int)
    (st : (Int → Int) × (Int → Int) × (Int → Int) × Rectangle) (row : Int) :
    (Int → Int) × (Int → Int) × (Int → Int) × Rectangle :=
  let hts := updateHeights P row min_col max_col st.1
  let lf := updateLefts P row min_col max_col st.2.1
  let rt := updateRights P row min_col max_col st.2.2.1
  let best := bestAtRow row min_col max_col hts lf rt st.2.2.2
  (hts, lf, rt, best)

/-- The row loop of `rectangles_internal`: the largest axis-aligned rectangle
inside `P` (ties resolved to the earliest candidate, like the source). -/
def maxRectangle (P : Finset Position) (min_row max_row min_col max_col : Int) : Rectangle :=
  ((rangeInt min_row max_row).foldl (rowStep P min_col max_col)
    ((fun _ => 0), (fun _ => min_col), (fun _ => max_col), default)).2.2.2

/-- Proof scaffolding: the invariant of the histogram state after processing
rows up to `row` — heights are non-negative and every candidate span
`(row - height, row] × [left, right)` lies inside `P`. -/
def RowInv (P : Finset Position) (min_col max_col : Int) (hts lf rt : Int → Int)
    (row : Int) : Prop :=
  (∀ i, 0 ≤ hts i) ∧
    ∀ col, min_col ≤ col → col < max_col →
      ∀ r', row - hts (col - min_col) < r' → r' ≤ row →
        ∀ c', lf (col - min_col) ≤ c' → c' < rt (col - min_col) →
          (⟨r', c'⟩ : Position) ∈ P

/-- Proof scaffolding: the kept rectangle lies inside `P` and has
non-negative height. -/
def BestInv (P : Finset Position) (best : Rectangle) : Prop :=
  (∀ p ∈ best.positions, p ∈ P) ∧ best.min_row ≤ best.max_row

/-- `Galaxy::rectangles_internal`.  The Rust recursion terminates because each
step removes at least one cell; here it runs on a fuel initialised to the cell
count, which the lemmas show is enough. -/
def rectangles_internal : Nat → Finset Position → List Rectangle
  | 0, _ => []
  | fuel + 1, positions =>
    if h : positions.Nonempty then
      let min_col := (positions.image Position.column).min' (h.image Position.column)
      let min_row := (positions.image Position.row).min' (h.image Position.row)
      let max_col := (positions.image Position.column).max' (h.image Position.column) + 1
      let max_row := (positions.image Position.row).max' (h.image Position.row) + 1
      let max_rectangle := maxRectangle positions min_row max_row min_col max_col
      rectangles_internal fuel (positions \ max_rectangle.positions.toFinset) ++ [max_rectangle]
    else []

/-- `Galaxy::rectangles`. -/
def rectangles (g : Galaxy) : List Rectangle :=
  rectangles_internal g.positions.card g.positions

end Galaxy

/-- `Border` from `src/model/border.rs`: a canonicalised unordered pair. -/
structure Border where
  p1 : Position
  p2 : Position
deriving DecidableEq, Repr

namespace Border

/-- `Border::new`: order the two endpoints by the derived lexicographic order. -/
def new (p1 p2 : Position) : Border := if p1 ≤ p2 then ⟨p1, p2⟩ else ⟨p2, p1⟩

/-- `Border::is_vertical`. -/
def is_vertical (b : Border) : Prop := b.p1.row = b.p2.row

instance (b : Border) : Decidable b.is_vertical := by
  unfold is_vertical; infer_instance

end Border

/-- `CenterPlacement` from `src/model/position.rs`. -/
inductive CenterPlacement where
  | Center : Position → CenterPlacement
  | VerticalBorder : Border → CenterPlacement
  | HorizontalBorder : Border → CenterPlacement
  | Intersection : Rectangle → CenterPlacement
deriving DecidableEq

/-- `CenterPlacement::get_positions`. -/
def CenterPlacement.get_positions : CenterPlacement → List Position
  | .Center p => [p]
  | .VerticalBorder b => [b.p1, b.p2]
  | .HorizontalBorder b => [b.p1, b.p2]
  | .Intersection r => r.corners

/-- `Position::get_center_placement` (Rust `/` and `%` truncate, hence
`tdiv`/`tmod`). -/
def Position.get_center_placement (p : Position) : CenterPlacement :=
  let r1 := p.row.tdiv 2
  let c1 := p.column.tdiv 2
  if p.row.tmod 2 = 0 then
    if p.column.tmod 2 = 0 then
      .Center ⟨r1, c1⟩
    else
      .VerticalBorder (Border.new ⟨r1, c1⟩ ⟨r1, c1 + 1⟩)
  else
    if p.column.tmod 2 = 0 then
      .HorizontalBorder (Border.new ⟨r1, c1⟩ ⟨r1 + 1, c1⟩)
    else
      .Intersection ⟨r1, r1 + 1, c1, c1 + 1⟩

/-- The row-major list of the `width × height` grid cells (`get_positions`). -/
def gridList (width height : Nat) : List Position :=
  (rangeInt 0 height).flatMap
    (fun row => (rangeInt 0 width).map (fun col => ⟨row, col⟩))

/-- The grid cells as a `Finset`. -/
def gridFinset (width height : Nat) : Finset Position := (gridList width height).toFinset

/-- Neighbours of `x` along the edges of an undirected graph stored as ordered
pairs (both orientations count, like `UnGraphMap`). -/
def edgeNbrs (E : Finset (Position × Position)) (x : Position) : Finset Position :=
  ((E.filter (fun e => e.1 = x)).image Prod.snd) ∪
    ((E.filter (fun e => e.2 = x)).image Prod.fst)

/-- All endpoints of the edges. -/
def edgeVerts (E : Finset (Position × Position)) : Finset Position :=
  E.image Prod.fst ∪ E.image Prod.snd

/-- The vertices reachable from `p` along edges of `E` (the DFS of
`Universe::get_galaxy`). -/
def reachEdges (E : Finset (Position × Position)) (p : Position) : Finset Position :=
  closureIter (edgeNbrs E) (insert p (edgeVerts E)).card {p}

/-- `Universe` from `src/model/universe.rs`.  The node set of the graph is
embedded implicitly as the `width × height` grid — the node set built by
`Universe::new`, the only constructor the generator uses. -/
structure Universe where
  width : Nat
  height : Nat
  graph : Finset (Position × Position)
deriving DecidableEq

namespace Universe

/-- `Universe::new`: grid nodes, no edges. -/
def new (width height : Nat) : Universe := ⟨width, height, ∅⟩

/-- `Universe::is_inside` (`graph.contains_node`, i.e. grid membership). -/
def is_inside (U : Universe) (p : Position) : Prop :=
  0 ≤ p.row ∧ p.row < (U.height : Int) ∧ 0 ≤ p.column ∧ p.column < (U.width : Int)

instance (U : Universe) (p : Position) : Decidable (U.is_inside p) := by
  unfold is_inside; infer_instance

/-- `Universe::are_neighbours`. -/
def are_neighbours (U : Universe) (p1 p2 : Position) : Prop :=
  (p1, p2) ∈ U.graph ∨ (p2, p1) ∈ U.graph

instance (U : Universe) (p1 p2 : Position) : Decidable (U.are_neighbours p1 p2) := by
  unfold are_neighbours; infer_instance

/-- `UnGraphMap::add_edge` (noop when the undirected edge already exists). -/
def addEdge (U : Universe) (p1 p2 : Position) : Universe :=
  if U.are_neighbours p1 p2 then U else ⟨U.width, U.height, insert (p1, p2) U.graph⟩

/-- `UnGraphMap::remove_edge`. -/
def removeEdge (U : Universe) (p1 p2 : Position) : Universe :=
  ⟨U.width, U.height, (U.graph.erase (p1, p2)).erase (p2, p1)⟩

/-- `Universe::adjacent_positions`: `vec![left, up, right, down]` filtered to
the grid. -/
def adjacent_positions (U : Universe) (p : Position) : List Position :=
  [p.left, p.up, p.right, p.down].filter (fun q => decide (U.is_inside q))

/-- `Universe::adjacent_non_neighbours`. -/
def adjacent_non_neighbours (U : Universe) (p : Position) : List Position :=
  (U.adjacent_positions p).filter (fun q => decide (¬U.are_neighbours p q))

/-- `Universe::get_galaxy`: DFS from `p` through the graph. -/
def get_galaxy (U : Universe) (p : Position) : Galaxy := ⟨reachEdges U.graph p⟩

/-- The loop of `Universe::get_galaxies`, popping the least remaining cell.
Fuel (initialised to the number of cells) stands in for the termination
measure; the lemmas show it never runs out. -/
def getGalaxiesAux (U : Universe) : Nat → Finset Position → List Galaxy
  | 0, _ => []
  | fuel + 1, remaining =>
    if h : remaining.Nonempty then
      let p := remaining.min' h
      let galaxy := U.get_galaxy p
      galaxy :: getGalaxiesAux U fuel (remaining \ galaxy.positions)
    else []

/-- `Universe::get_galaxies`. -/
def get_galaxies (U : Universe) : List Galaxy :=
  getGalaxiesAux U (gridFinset U.width U.height).card (gridFinset U.width U.height)

/-- `Universe::is_valid`. -/
def is_valid (U : Universe) : Prop := ∀ g ∈ U.get_galaxies, g.is_valid

instance (U : Universe) : Decidable U.is_valid := by
  unfold is_valid; infer_instance

/-- `Universe::remove_all_neighbours`. -/
def remove_all_neighbours (U : Universe) (p : Position) : Universe :=
  (U.adjacent_positions p).foldl (fun u q => u.removeEdge p q) U

/-- `Universe::make_neighbours`. -/
def make_neighbours (U : Universe) (p1 p2 : Position) : Universe :=
  let g1 := U.get_galaxy p1
  (U.adjacent_positions p2).foldl
    (fun u q => if g1.contains_position q then u.addEdge p2 q else u.removeEdge p2 q) U

/-- The loop body of `Universe::remove_positions_from_galaxy`, carrying the
mutated universe and the shrinking copy `g`; the early `return` after a
dissolution is the first branch. -/
def removePositionsAux (galaxy : Galaxy) : List Position → Universe → Galaxy → Universe
  | [], U, _ => U
  | p :: rest, U, g =>
    let U1 := U.remove_all_neighbours p
    let g1 := g.remove_position p
    let st :=
      if ¬g1.is_symmetric then
        let p2 := galaxy.mirror_position p
        (U1.remove_all_neighbours p2, g1.remove_position p2)
      else (U1, g1)
    if ¬st.2.is_empty_or_valid then
      (st.2.positions.sort (· ≤ ·)).foldl (fun u q => u.remove_all_neighbours q) st.1
    else
      removePositionsAux galaxy rest st.1 st.2

/-- `Universe::remove_positions_from_galaxy` (the debug assertion is a
precondition, not behaviour). -/
def remove_positions_from_galaxy (U : Universe) (galaxy : Galaxy) (ps : List Position) :
    Universe :=
  removePositionsAux galaxy ps U galaxy

/-- `Universe::get_score`. -/
def get_score (U : Universe) : Int :=
  let score1 :=
    (rangeInt 1 (U.height : Int)).foldl
      (fun acc row =>
        let st :=
          (rangeInt 0 (U.width : Int)).foldl
            (fun st col =>
              let upP : Position := ⟨row - 1, col⟩
              let downP : Position := ⟨row, col⟩
              if U.are_neighbours upP downP then (st.1 + st.2 ^ 2, 0) else (st.1, st.2 + 1))
            (acc, (0 : Int))
        st.1 + st.2 ^ 2)
      (0 : Int)
  let score2 :=
    (rangeInt 1 (U.width : Int)).foldl
      (fun acc col =>
        let st :=
          (rangeInt 0 (U.height : Int)).foldl
            (fun st row =>
              let leftP : Position := ⟨row, col - 1⟩
              let rightP : Position := ⟨row, col⟩
              if U.are_neighbours leftP rightP then (st.1 + st.2 ^ 2, 0) else (st.1, st.2 + 1))
            (acc, (0 : Int))
        st.1 + st.2 ^ 2)
      (0 : Int)
  let score3 :=
    U.get_galaxies.foldl
      (fun acc g => g.rectangles.foldl (fun a r => a + r.area ^ 2) acc) (0 : Int)
  score1 + score2 + score3

end Universe

/-- The random generator, embedded as an oracle stream of naturals with a
cursor; `gen_range(0..n)` reads the next value modulo `n`.  Quantifying over
all oracles covers every state of the seeded `StdRng`. -/
structure Rng where
  gen : Nat → Nat
  idx : Nat

/-- Draw `gen_range(0..n)`. -/
def Rng.next (r : Rng) (n : Nat) : Nat × Rng :=
  (r.gen r.idx % n, ⟨r.gen, r.idx + 1⟩)

namespace Universe

/-- `Position::random` (row drawn first, then column). -/
def random_position (U : Universe) (rng : Rng) : Position × Rng :=
  let a := rng.next U.height
  let b := a.2.next U.width
  (⟨(a.1 : Int), (b.1 : Int)⟩, b.2)

/-- `SliceRandom::choose`: none on an empty slice (no draw), otherwise a
uniform index. -/
def chooseFrom (l : List Position) (rng : Rng) : Option Position × Rng :=
  if l.isEmpty then (none, rng)
  else
    let a := rng.next l.length
    (l.get? a.1, a.2)

/-- `Universe::generate_step`: returns the mutated universe, the success flag,
and the advanced generator. -/
def generate_step (U : Universe) (rng : Rng) : Universe × Bool × Rng :=
  let pr := U.random_position rng
  let p1 := pr.1
  let ch := chooseFrom (U.adjacent_non_neighbours p1) pr.2
  match ch.1 with
  | none => (U, false, ch.2)
  | some p2 =>
    let g1 := U.get_galaxy p1
    let g1_with_p2 := g1.with_position p2
    if g1_with_p2.is_symmetric then
      let g2 := U.get_galaxy p2
      let U1 := U.remove_positions_from_galaxy g2 [p2]
      let U2 := U1.make_neighbours p1 p2
      (U2, true, ch.2)
    else
      let p3_candidates :=
        (if U.is_inside (g1.mirror_position p2) then [g1.mirror_position p2] else []) ++
          (U.adjacent_non_neighbours p2).filter
            (fun p3 => decide (g1_with_p2.with_position p3).is_symmetric)
      if p3_candidates.isEmpty then (U, false, ch.2)
      else
        let d := ch.2.next p3_candidates.length
        match p3_candidates.get? d.1 with
        | none => (U, false, d.2)
        | some p3 =>
          let g2 := U.get_galaxy p2
          let g3 := U.get_galaxy p3
          let U1 :=
            if g2 = g3 then U.remove_positions_from_galaxy g2 [p2, p3]
            else
              (U.remove_positions_from_galaxy g2 [p2]).remove_positions_from_galaxy g3 [p3]
          let U2 := U1.make_neighbours p1 p2
          let U3 := U2.make_neighbours p1 p3
          (U3, true, d.2)

/-- Rust `Iterator::min_by_key` (the first of equally minimal elements wins). -/
def argminFirstBy (f : Universe → Int) (l : List Universe) : Option Universe :=
  l.foldl
    (fun best u =>
      match best with
      | none => some u
      | some b => if f u < f b then some u else some b)
    none

/-- One iteration of the loop in `Universe::generate`: five branches, each
cloning the universe *before* running `generate_step` on the working universe
itself, then advancing to the lowest-score collected snapshot (or keeping the
working universe when no step succeeded). -/
def generateRound (U : Universe) (rng : Rng) : Universe × Rng :=
  let st :=
    (List.range 5).foldl
      (fun (st : Universe × List Universe × Rng) _ =>
        let u := st.1
        let next_universe := u
        let s := u.generate_step st.2.2
        (s.1, if s.2.1 then st.2.1 ++ [next_universe] else st.2.1, s.2.2))
      (U, [], rng)
  ((argminFirstBy Universe.get_score st.2.1).getD st.1, st.2.2)

/-- `Universe::generate` (the seed logging is dropped; the final
`assert!(universe.is_valid())` is not behaviour). -/
def generate (width height : Nat) (rng : Rng) : Universe :=
  ((List.range (width * height * 10)).foldl
    (fun (st : Universe × Rng) _ => generateRound st.1 st.2)
    (Universe.new width height, rng)).1

end Universe

/-- `GalaxyCenter` from `src/model/objective.rs`. -/
structure GalaxyCenter where
  position : Position
  size : Option Nat
deriving DecidableEq

/-- `Objective` from `src/model/objective.rs`. -/
structure Objective where
  centers : List GalaxyCenter
  walls : List Border

/-- `Objective::generate`. -/
def Objective.generate (U : Universe) : Objective :=
  { centers := U.get_galaxies.map (fun g => ⟨g.center, none⟩), walls := [] }

/-- `BoardError` from `src/model/board_error.rs`. -/
structure BoardError where
  dangling_borders : Finset Border
  incorrect_galaxy_sizes : Finset Position
  centerless_cells : Finset Position
  cut_centers : Finset Position
  asymmetric_centers : Finset Position
deriving DecidableEq

/-- `BoardError::is_error_free`. -/
def BoardError.is_error_free (e : BoardError) : Prop :=
  e.dangling_borders = ∅ ∧ e.incorrect_galaxy_sizes = ∅ ∧ e.centerless_cells = ∅ ∧
    e.asymmetric_centers = ∅ ∧ e.cut_centers = ∅

instance : Inhabited BoardError := ⟨⟨∅, ∅, ∅, ∅, ∅⟩⟩

/-- `Board` from `src/model/board.rs`: the same grid, edges are walls. -/
structure Board where
  width : Nat
  height : Nat
  graph : Finset (Position × Position)
deriving DecidableEq

namespace Board

/-- `Board::new`. -/
def new (width height : Nat) : Board := ⟨width, height, ∅⟩

/-- `Board::get_width`. -/
def get_width (B : Board) : Nat := B.width

/-- `Board::get_height` — the source reads the `width` field. -/
def get_height (B : Board) : Nat := B.width

/-- `Board::contains`. -/
def contains (B : Board) (p : Position) : Prop :=
  0 ≤ p.row ∧ p.row < (B.height : Int) ∧ 0 ≤ p.column ∧ p.column < (B.width : Int)

instance (B : Board) (p : Position) : Decidable (B.contains p) := by
  unfold contains; infer_instance

/-- `Board::is_wall`. -/
def is_wall (B : Board) (p1 p2 : Position) : Prop :=
  (p1, p2) ∈ B.graph ∨ (p2, p1) ∈ B.graph

instance (B : Board) (p1 p2 : Position) : Decidable (B.is_wall p1 p2) := by
  unfold is_wall; infer_instance

/-- `Board::is_active`. -/
def is_active (B : Board) (b : Border) : Prop := B.is_wall b.p1 b.p2

instance (B : Board) (b : Border) : Decidable (B.is_active b) := by
  unfold is_active; infer_instance

/-- `Board::get_borders` (collected as a set of canonical borders). -/
def get_borders (B : Board) : Finset Border :=
  B.graph.image (fun e => Border.new e.1 e.2)

/-- The no-wall neighbour relation of the BFS in `Board::get_galaxies`. -/
def boardNbrs (B : Board) (x : Position) : Finset Position :=
  x.adjacent.toFinset.filter (fun q => B.contains q ∧ ¬B.is_wall x q)

/-- The cells reachable from `p` without crossing a wall. -/
def componentOf (B : Board) (p : Position) : Finset Position :=
  closureIter (boardNbrs B) (insert p (gridFinset B.width B.height)).card {p}

/-- The loop of `Board::get_galaxies` popping the least remaining cell. -/
def getGalaxiesAux (B : Board) : Nat → Finset Position → List Galaxy
  | 0, _ => []
  | fuel + 1, remaining =>
    if h : remaining.Nonempty then
      let p := remaining.min' h
      let galaxy : Galaxy := ⟨B.componentOf p⟩
      galaxy :: getGalaxiesAux B fuel (remaining \ galaxy.positions)
    else []

/-- `Board::get_galaxies`. -/
def get_galaxies (B : Board) : List Galaxy :=
  getGalaxiesAux B (gridFinset B.width B.height).card (gridFinset B.width B.height)

/-- `Board::is_dangling`: the two early-return checks become a disjunction. -/
def is_dangling (B : Board) (border : Border) : Prop :=
  let p1 := border.p1
  let p2 := border.p2
  if border.is_vertical then
    (p1.row ≠ 0 ∧ ¬B.is_wall p1 p1.up ∧ ¬B.is_wall p1.up p2.up ∧ ¬B.is_wall p2.up p2) ∨
      (p1.row ≠ (B.height : Int) - 1 ∧ ¬B.is_wall p1 p1.down ∧
        ¬B.is_wall p1.down p2.down ∧ ¬B.is_wall p2.down p2)
  else
    (p1.column ≠ 0 ∧ ¬B.is_wall p1 p1.left ∧ ¬B.is_wall p1.left p2.left ∧
        ¬B.is_wall p2.left p2) ∨
      (p1.column ≠ (B.width : Int) - 1 ∧ ¬B.is_wall p1 p1.right ∧
        ¬B.is_wall p1.right p2.right ∧ ¬B.is_wall p2.right p2)

instance (B : Board) (b : Border) : Decidable (B.is_dangling b) := by
  unfold is_dangling
  infer_instance

/-- `Board::get_dangling_borders`. -/
def get_dangling_borders (B : Board) : Finset Border :=
  B.get_borders.filter (fun b => B.is_dangling b)

/-- `Board::is_center_cut`. -/
def is_center_cut (B : Board) (center : Position) : Prop :=
  match center.get_center_placement with
  | .Center _ => False
  | .VerticalBorder b => B.is_active b
  | .HorizontalBorder b => B.is_active b
  | .Intersection rect =>
    let top_left : Position := ⟨rect.min_row, rect.min_column⟩
    let top_right : Position := ⟨rect.min_row, rect.max_column⟩
    let bottom_left : Position := ⟨rect.max_row, rect.min_column⟩
    let bottom_right : Position := ⟨rect.max_row, rect.max_column⟩
    B.is_wall top_left top_right ∨ B.is_wall top_right bottom_right ∨
      B.is_wall bottom_right bottom_left ∨ B.is_wall top_left bottom_left

instance (B : Board) (c : Position) : Decidable (B.is_center_cut c) := by
  unfold is_center_cut
  generalize c.get_center_placement = cp
  cases cp <;> infer_instance

end Board

/-- The probe cell of a declared center (`some_position_around_center` in
`Board::compute_error`). -/
def probePosition (center : Position) : Position :=
  match center.get_center_placement with
  | .Center p => p
  | .VerticalBorder b => b.p1
  | .HorizontalBorder b => b.p1
  | .Intersection r => r.top_left

/-- The `galaxy_by_position` lookup: the first listed galaxy containing `p`
(the induced galaxies are disjoint, so at most one matches). -/
def findGalaxy (galaxies : List Galaxy) (p : Position) : Option Galaxy :=
  galaxies.find? (fun g => decide (p ∈ g.positions))

/-- `HashMap::insert`: replace the value of an existing key in place,
otherwise append. -/
def insertAssoc (m : List (Position × Galaxy)) (k : Position) (v : Galaxy) :
    List (Position × Galaxy) :=
  if m.any (fun e => decide (e.1 = k)) then
    m.map (fun e => if e.1 = k then (k, v) else e)
  else m ++ [(k, v)]

/-- `HashMap::get` over the association list (keys are unique by
construction). -/
def lookupAssoc (m : List (Position × Galaxy)) (k : Position) : Option Galaxy :=
  (m.find? (fun e => decide (e.1 = k))).map Prod.snd

/-- The `galaxy_by_objective_center` map; `none` when some probe cell lies in
no induced galaxy (where the source `unwrap` panics). -/
def galaxyByObjectiveCenter (galaxies : List Galaxy) (centers : List GalaxyCenter) :
    Option (List (Position × Galaxy)) :=
  centers.foldl
    (fun acc gc =>
      match acc with
      | none => none
      | some m =>
        match findGalaxy galaxies (probePosition gc.position) with
        | none => none
        | some g => some (insertAssoc m gc.position g))
    (some [])

/-- The report assembled by `Board::compute_error` once the
`galaxy_by_objective_center` map `gboc` has been built. -/
def computeErrorParts (B : Board) (objective : Objective)
    (gboc : List (Position × Galaxy)) : BoardError :=
  { dangling_borders := B.get_dangling_borders
    incorrect_galaxy_sizes :=
      (objective.centers.filterMap
        (fun gc =>
          match gc.size with
          | some size =>
            match lookupAssoc gboc gc.position with
            | some galaxy => if galaxy.size ≠ size then some gc.position else none
            | none => none
          | none => none)).toFinset
    centerless_cells :=
      (gridFinset B.width B.height).filter
        (fun p => p ∉ (gboc.map Prod.snd).foldl (fun acc g => acc ∪ g.positions) ∅)
    cut_centers :=
      ((objective.centers.filter (fun gc => decide (B.is_center_cut gc.position))).map
        (fun gc => gc.position)).toFinset
    asymmetric_centers :=
      (objective.centers.filterMap
        (fun gc =>
          match lookupAssoc gboc gc.position with
          | some galaxy =>
            if galaxy.center ≠ gc.position ∨ ¬galaxy.is_valid then some gc.position else none
          | none => none)).toFinset }

/-- `Board::compute_error`; `none` models the panic on a failed probe. -/
def Board.compute_error (B : Board) (objective : Objective) : Option BoardError :=
  match galaxyByObjectiveCenter B.get_galaxies objective.centers with
  | none => none
  | some gboc => some (computeErrorParts B objective gboc)

/-! ### Specification-side notions used to state the claims -/

/-- The graph's edges stay inside the grid: the spec's "nodes are exactly the
`W·H` cells". -/
def Universe.edges_in_grid (U : Universe) : Prop :=
  ∀ e ∈ U.graph, U.is_inside e.1 ∧ U.is_inside e.2

/-- Well-formed universe graph: every edge joins two adjacent in-grid cells
(all edges that `Universe`'s own operations create are of this shape). -/
def Universe.well_formed (U : Universe) : Prop :=
  ∀ e ∈ U.graph, U.is_inside e.1 ∧ U.is_inside e.2 ∧ e.1.isAdjacentTo e.2

instance (U : Universe) : Decidable U.edges_in_grid := by
  unfold Universe.edges_in_grid; infer_instance

instance (U : Universe) : Decidable U.well_formed := by
  unfold Universe.well_formed; infer_instance

/-- Adjacency-saturated universe graph: any two adjacent cells of the same
connected component are joined by an edge.  `Universe::new` produces a
saturated graph and every public mutation preserves saturation, so every
universe the program builds is saturated. -/
def Universe.saturated (U : Universe) : Prop :=
  ∀ p q : Position, p.isAdjacentTo q → q ∈ (U.get_galaxy p).positions →
    U.are_neighbours p q

/-- The finite reformulation of `Universe.saturated` used to check concrete
universes: only in-grid cells need to be examined. -/
def Universe.saturatedOnGrid (U : Universe) : Prop :=
  ∀ p ∈ gridFinset U.width U.height, ∀ q ∈ p.adjacent,
    q ∈ (U.get_galaxy p).positions → U.are_neighbours p q

instance (U : Universe) : Decidable U.saturatedOnGrid := by
  unfold Universe.saturatedOnGrid; infer_instance

/-- The board of the same dimensions whose walls are exactly the borders
between cells of distinct galaxies of `U` (claim C2). -/
def boardOfUniverse (U : Universe) : Board :=
  ⟨U.width, U.height,
    (gridFinset U.width U.height ×ˢ gridFinset U.width U.height).filter
      (fun e => e.1.isAdjacentTo e.2 ∧ e.2 ∉ (U.get_galaxy e.1).positions)⟩

/-- Spec notion (claim C4): the upper tip of a vertical wall is free when the
three wall segments that would meet the wall there are absent and the tip does
not lie on the outer frame. -/
def Board.vertUpperTipFree (B : Board) (b : Border) : Prop :=
  b.p1.row ≠ 0 ∧ ¬B.is_wall b.p1 b.p1.up ∧ ¬B.is_wall b.p1.up b.p2.up ∧
    ¬B.is_wall b.p2.up b.p2

/-- Spec notion (claim C4): the lower tip of a vertical wall is free. -/
def Board.vertLowerTipFree (B : Board) (b : Border) : Prop :=
  b.p1.row ≠ (B.height : Int) - 1 ∧ ¬B.is_wall b.p1 b.p1.down ∧
    ¬B.is_wall b.p1.down b.p2.down ∧ ¬B.is_wall b.p2.down b.p2

/-- Spec notion (claim C4): the left tip of a horizontal wall is free. -/
def Board.horizLeftTipFree (B : Board) (b : Border) : Prop :=
  b.p1.column ≠ 0 ∧ ¬B.is_wall b.p1 b.p1.left ∧ ¬B.is_wall b.p1.left b.p2.left ∧
    ¬B.is_wall b.p2.left b.p2

/-- Spec notion (claim C4): the right tip of a horizontal wall is free. -/
def Board.horizRightTipFree (B : Board) (b : Border) : Prop :=
  b.p1.column ≠ (B.width : Int) - 1 ∧ ¬B.is_wall b.p1 b.p1.right ∧
    ¬B.is_wall b.p1.right b.p2.right ∧ ¬B.is_wall b.p2.right b.p2

/-- Spec notion (claim C4): both outer tips of the wall are free. -/
def Board.bothTipsFree (B : Board) (b : Border) : Prop :=
  if b.is_vertical then B.vertUpperTipFree b ∧ B.vertLowerTipFree b
  else B.horizLeftTipFree b ∧ B.horizRightTipFree b

/-- Spec notion (claim C4 amended): at least one outer tip of the wall is
free. -/
def Board.someTipFree (B : Board) (b : Border) : Prop :=
  if b.is_vertical then B.vertUpperTipFree b ∨ B.vertLowerTipFree b
  else B.horizLeftTipFree b ∨ B.horizRightTipFree b

instance (B : Board) (b : Border) : Decidable (B.vertUpperTipFree b) := by
  unfold Board.vertUpperTipFree; infer_instance

instance (B : Board) (b : Border) : Decidable (B.vertLowerTipFree b) := by
  unfold Board.vertLowerTipFree; infer_instance

instance (B : Board) (b : Border) : Decidable (B.horizLeftTipFree b) := by
  unfold Board.horizLeftTipFree; infer_instance

instance (B : Board) (b : Border) : Decidable (B.horizRightTipFree b) := by
  unfold Board.horizRightTipFree; infer_instance

instance (B : Board) (b : Border) : Decidable (B.bothTipsFree b) := by
  unfold Board.bothTipsFree; infer_instance

instance (B : Board) (b : Border) : Decidable (B.someTipFree b) := by
  unfold Board.someTipFree; infer_instance

/-! ### Concrete inputs for counterexamples and witnesses -/

/-- The all-zero random oracle. -/
def rng0 : Rng := ⟨fun _ => 0, 0⟩

/-- A 3-wide, 2-high universe whose single component is the full 2×3 block,
connected as a path in the graph (valid component, but not saturated). -/
def cexUniverse : Universe :=
  ⟨3, 2,
    {((⟨0, 0⟩ : Position), (⟨0, 1⟩ : Position)), ((⟨0, 1⟩ : Position), (⟨0, 2⟩ : Position)),
      ((⟨0, 2⟩ : Position), (⟨1, 2⟩ : Position)), ((⟨1, 2⟩ : Position), (⟨1, 1⟩ : Position)),
      ((⟨1, 1⟩ : Position), (⟨1, 0⟩ : Position))}⟩

/-- A 3×3 board with the wall `{(1,0),(1,1)}` and the wall `{(0,0),(0,1)}`:
the first wall's upper tip meets the second wall, its lower tip is free. -/
def cexBoard : Board :=
  ⟨3, 3,
    {((⟨1, 0⟩ : Position), (⟨1, 1⟩ : Position)), ((⟨0, 0⟩ : Position), (⟨0, 1⟩ : Position))}⟩

/-- An objective for `cexBoard` with a single in-cell center, so that
`compute_error` does not panic. -/
def cexObjective : Objective := ⟨[⟨⟨2, 2⟩, none⟩], []⟩

/-- The wall `{(1,0),(1,1)}` of `cexBoard`. -/
def cexWall : Border := Border.new ⟨1, 0⟩ ⟨1, 1⟩

/-- The error report of `cexBoard` against `cexObjective`. -/
def cexError : BoardError := (cexBoard.compute_error cexObjective).getD default

/-! ## Lemmas: basic geometry -/

theorem Position.le_iff {p q : Position} :
    p ≤ q ↔ p.row < q.row ∨ (p.row = q.row ∧ p.column ≤ q.column) :=
  Prod.Lex.le_iff (p.row, p.column) (q.row, q.column)

theorem Position.lt_iff {p q : Position} :
    p < q ↔ p.row < q.row ∨ (p.row = q.row ∧ p.column < q.column) :=
  Prod.Lex.lt_iff (p.row, p.column) (q.row, q.column)

theorem Position.mem_adjacent_iff {p q : Position} :
    q ∈ p.adjacent ↔ q = p.up ∨ q = p.right ∨ q = p.down ∨ q = p.left := by
  simp [adjacent]

theorem Position.isAdjacentTo_iff_mem_adjacent {p q : Position} :
    p.isAdjacentTo q ↔ q ∈ p.adjacent := by
  obtain ⟨a, b⟩ := p
  obtain ⟨c, d⟩ := q
  simp only [isAdjacentTo, adjacent, up, right, down, left, List.mem_cons,
    List.not_mem_nil, or_false, Position.mk.injEq]
  omega

theorem Position.isAdjacentTo_comm {p q : Position} :
    p.isAdjacentTo q ↔ q.isAdjacentTo p := by
  unfold isAdjacentTo
  omega

theorem mem_rangeInt {a b x : Int} : x ∈ rangeInt a b ↔ a ≤ x ∧ x < b := by
  unfold rangeInt
  simp only [List.mem_map, List.mem_range]
  constructor
  · rintro ⟨i, hi, rfl⟩
    omega
  · intro h
    exact ⟨(x - a).toNat, by omega, by omega⟩

theorem mem_gridList {w h : Nat} {p : Position} :
    p ∈ gridList w h ↔ 0 ≤ p.row ∧ p.row < (h : Int) ∧ 0 ≤ p.column ∧ p.column < (w : Int) := by
  obtain ⟨a, b⟩ := p
  simp only [gridList, List.mem_flatMap, List.mem_map, mem_rangeInt, Position.mk.injEq]
  constructor
  · rintro ⟨r, hr, c, hc, rfl, rfl⟩
    exact ⟨hr.1, hr.2, hc.1, hc.2⟩
  · rintro ⟨h1, h2, h3, h4⟩
    exact ⟨a, ⟨h1, h2⟩, b, ⟨h3, h4⟩, rfl, rfl⟩

theorem mem_gridFinset {w h : Nat} {p : Position} :
    p ∈ gridFinset w h ↔ 0 ≤ p.row ∧ p.row < (h : Int) ∧ 0 ≤ p.column ∧ p.column < (w : Int) := by
  rw [gridFinset, List.mem_toFinset]
  exact mem_gridList

theorem Universe.is_inside_iff_mem_grid {U : Universe} {p : Position} :
    U.is_inside p ↔ p ∈ gridFinset U.width U.height := by
  rw [mem_gridFinset]
  rfl

theorem Rectangle.mem_positions {r : Rectangle} {p : Position} :
    p ∈ r.positions ↔
      r.min_row ≤ p.row ∧ p.row < r.max_row ∧ r.min_column ≤ p.column ∧
        p.column < r.max_column := by
  obtain ⟨a, b⟩ := p
  simp only [positions, List.mem_flatMap, List.mem_map, mem_rangeInt, Position.mk.injEq]
  constructor
  · rintro ⟨row, hrow, col, hcol, rfl, rfl⟩
    exact ⟨hrow.1, hrow.2, hcol.1, hcol.2⟩
  · rintro ⟨h1, h2, h3, h4⟩
    exact ⟨a, ⟨h1, h2⟩, b, ⟨h3, h4⟩, rfl, rfl⟩

/-! ## Lemmas: reachability closure -/

theorem subset_closureStep (nbrs : Position → Finset Position) (s : Finset Position) :
    s ⊆ closureStep nbrs s :=
  Finset.subset_union_left

theorem mem_closureStep {nbrs : Position → Finset Position} {s : Finset Position}
    {x : Position} :
    x ∈ closureStep nbrs s ↔ x ∈ s ∨ ∃ y ∈ s, x ∈ nbrs y := by
  simp [closureStep]

theorem isClosed_iff_closureStep_eq {nbrs : Position → Finset Position}
    {s : Finset Position} : IsClosed nbrs s ↔ closureStep nbrs s = s := by
  constructor
  · intro h
    apply Finset.Subset.antisymm
    · exact Finset.union_subset (Finset.Subset.refl s) (Finset.biUnion_subset.mpr h)
    · exact subset_closureStep nbrs s
  · intro h x hx y hy
    rw [← h]
    exact mem_closureStep.mpr (Or.inr ⟨x, hx, hy⟩)

theorem closureIter_succ (nbrs : Position → Finset Position) (n : Nat) (s : Finset Position) :
    closureIter nbrs (n + 1) s = closureStep nbrs (closureIter nbrs n s) := by
  induction n generalizing s with
  | zero => rfl
  | succ n ih =>
    show closureIter nbrs (n + 1) (closureStep nbrs s) = _
    rw [ih (closureStep nbrs s)]
    rfl

theorem subset_closureIter (nbrs : Position → Finset Position) (n : Nat) (s : Finset Position) :
    s ⊆ closureIter nbrs n s := by
  induction n generalizing s with
  | zero => exact Finset.Subset.refl s
  | succ n ih =>
    exact Finset.Subset.trans (subset_closureStep nbrs s) (ih (closureStep nbrs s))

theorem closureIter_of_closed {nbrs : Position → Finset Position} {s : Finset Position}
    (h : IsClosed nbrs s) (n : Nat) : closureIter nbrs n s = s := by
  induction n with
  | zero => rfl
  | succ n ih =>
    rw [closureIter_succ, ih, isClosed_iff_closureStep_eq.mp h]

theorem closureIter_subset_closed {nbrs : Position → Finset Position}
    {s t : Finset Position} (hst : s ⊆ t) (ht : IsClosed nbrs t) (n : Nat) :
    closureIter nbrs n s ⊆ t := by
  induction n generalizing s with
  | zero => exact hst
  | succ n ih =>
    apply ih
    exact Finset.union_subset hst
      (Finset.biUnion_subset.mpr (fun x hx => ht x (hst hx)))

theorem closureIter_closed_or_card (nbrs : Position → Finset Position) (n : Nat)
    (s : Finset Position) :
    IsClosed nbrs (closureIter nbrs n s) ∨ s.card + n ≤ (closureIter nbrs n s).card := by
  induction n generalizing s with
  | zero =>
    right
    show s.card + 0 ≤ s.card
    omega
  | succ n ih =>
    by_cases h : closureStep nbrs s = s
    · left
      have hcl : IsClosed nbrs s := isClosed_iff_closureStep_eq.mpr h
      rw [closureIter_of_closed hcl]
      exact hcl
    · rcases ih (closureStep nbrs s) with hc | hcard
      · left
        exact hc
      · right
        have hss : s ⊂ closureStep nbrs s :=
          Finset.ssubset_iff_subset_ne.mpr ⟨subset_closureStep nbrs s, fun he => h he.symm⟩
        have := Finset.card_lt_card hss
        show s.card + (n + 1) ≤ (closureIter nbrs n (closureStep nbrs s)).card
        omega

theorem closureIter_isClosed {nbrs : Position → Finset Position} {c : Finset Position}
    (hc : ∀ x, nbrs x ⊆ c) {s : Finset Position} {n : Nat} (hn : (s ∪ c).card ≤ n) :
    IsClosed nbrs (closureIter nbrs n s) := by
  rcases closureIter_closed_or_card nbrs n s with h | h
  · exact h
  · have htc : IsClosed nbrs (s ∪ c) := fun x _ =>
      Finset.Subset.trans (hc x) Finset.subset_union_right
    have hsub : closureIter nbrs n s ⊆ s ∪ c :=
      closureIter_subset_closed Finset.subset_union_left htc n
    have h1 : (closureIter nbrs n s).card ≤ (s ∪ c).card := Finset.card_le_card hsub
    have hs0 : s = ∅ := Finset.card_eq_zero.mp (by omega)
    subst hs0
    have : IsClosed nbrs (∅ : Finset Position) := by
      intro x hx
      simp at hx
    rw [closureIter_of_closed this]
    exact this

theorem closureIter_reachable {nbrs : Position → Finset Position} :
    ∀ (n : Nat) (s : Finset Position) (q : Position), q ∈ closureIter nbrs n s →
      ∃ x ∈ s, Relation.ReflTransGen (fun a b => b ∈ nbrs a) x q := by
  intro n
  induction n with
  | zero =>
    intro s q hq
    exact ⟨q, hq, Relation.ReflTransGen.refl⟩
  | succ n ih =>
    intro s q hq
    obtain ⟨x, hx, hxq⟩ := ih (closureStep nbrs s) q hq
    rcases mem_closureStep.mp hx with hxs | ⟨y, hy, hxy⟩
    · exact ⟨x, hxs, hxq⟩
    · exact ⟨y, hy, Relation.ReflTransGen.head hxy hxq⟩

theorem mem_closureIter_iff {nbrs : Position → Finset Position} {c : Finset Position}
    (hc : ∀ x, nbrs x ⊆ c) {p q : Position} {n : Nat} (hn : ({p} ∪ c).card ≤ n) :
    q ∈ closureIter nbrs n {p} ↔ Relation.ReflTransGen (fun a b => b ∈ nbrs a) p q := by
  constructor
  · intro hq
    obtain ⟨x, hx, hxq⟩ := closureIter_reachable n {p} q hq
    rw [Finset.mem_singleton] at hx
    subst hx
    exact hxq
  · intro h
    induction h with
    | refl => exact subset_closureIter nbrs n {p} (Finset.mem_singleton_self p)
    | tail hxy hmem ih =>
      exact closureIter_isClosed hc hn _ ih hmem

/-! ## Lemmas: galaxies of a universe -/

theorem mem_edgeNbrs {E : Finset (Position × Position)} {x y : Position} :
    y ∈ edgeNbrs E x ↔ (x, y) ∈ E ∨ (y, x) ∈ E := by
  unfold edgeNbrs
  simp only [Finset.mem_union, Finset.mem_image, Finset.mem_filter]
  constructor
  · rintro (⟨e, ⟨he, h1⟩, h2⟩ | ⟨e, ⟨he, h1⟩, h2⟩)
    · left
      obtain ⟨a, b⟩ := e
      cases h1
      cases h2
      exact he
    · right
      obtain ⟨a, b⟩ := e
      cases h1
      cases h2
      exact he
  · rintro (h | h)
    · exact Or.inl ⟨(x, y), ⟨h, rfl⟩, rfl⟩
    · exact Or.inr ⟨(y, x), ⟨h, rfl⟩, rfl⟩

theorem edgeNbrs_subset_edgeVerts (E : Finset (Position × Position)) (x : Position) :
    edgeNbrs E x ⊆ edgeVerts E := by
  intro y hy
  rcases mem_edgeNbrs.mp hy with h | h
  · exact Finset.mem_union_right _ (Finset.mem_image_of_mem Prod.snd h)
  · exact Finset.mem_union_left _ (Finset.mem_image_of_mem Prod.fst h)

theorem mem_reachEdges {E : Finset (Position × Position)} {p q : Position} :
    q ∈ reachEdges E p ↔
      Relation.ReflTransGen (fun a b => (a, b) ∈ E ∨ (b, a) ∈ E) p q := by
  unfold reachEdges
  rw [mem_closureIter_iff (edgeNbrs_subset_edgeVerts E) (by rw [Finset.insert_eq])]
  have hrel : (fun a b => b ∈ edgeNbrs E a) = fun a b => (a, b) ∈ E ∨ (b, a) ∈ E := by
    funext a b
    exact propext mem_edgeNbrs
  rw [hrel]

theorem Universe.mem_get_galaxy {U : Universe} {p q : Position} :
    q ∈ (U.get_galaxy p).positions ↔ Relation.ReflTransGen U.are_neighbours p q :=
  mem_reachEdges

theorem Universe.self_mem_get_galaxy (U : Universe) (p : Position) :
    p ∈ (U.get_galaxy p).positions :=
  Universe.mem_get_galaxy.mpr Relation.ReflTransGen.refl

theorem Universe.are_neighbours_comm {U : Universe} {p q : Position} :
    U.are_neighbours p q ↔ U.are_neighbours q p := by
  unfold Universe.are_neighbours
  tauto

theorem Universe.mem_get_galaxy_symm {U : Universe} {p q : Position}
    (h : q ∈ (U.get_galaxy p).positions) : p ∈ (U.get_galaxy q).positions := by
  rw [Universe.mem_get_galaxy] at h ⊢
  have hsym : Symmetric U.are_neighbours := fun a b hab =>
    Universe.are_neighbours_comm.mp hab
  exact (Relation.ReflTransGen.symmetric hsym) h

theorem Universe.get_galaxy_eq_of_mem {U : Universe} {p q : Position}
    (h : q ∈ (U.get_galaxy p).positions) : U.get_galaxy q = U.get_galaxy p := by
  have hsymm := Universe.mem_get_galaxy_symm h
  rw [Universe.mem_get_galaxy] at h hsymm
  unfold Universe.get_galaxy
  congr 1
  ext z
  rw [show ∀ a b : Position, (b ∈ reachEdges U.graph a ↔
      Relation.ReflTransGen U.are_neighbours a b) from fun a b => mem_reachEdges,
    show ∀ a b : Position, (b ∈ reachEdges U.graph a ↔
      Relation.ReflTransGen U.are_neighbours a b) from fun a b => mem_reachEdges]
  constructor
  · intro hz
    exact Relation.ReflTransGen.trans h hz
  · intro hz
    exact Relation.ReflTransGen.trans hsymm hz

theorem Universe.get_galaxy_subset_grid {U : Universe} (hwf : U.edges_in_grid)
    {p : Position} (hp : p ∈ gridFinset U.width U.height) :
    (U.get_galaxy p).positions ⊆ gridFinset U.width U.height := by
  intro q hq
  rw [Universe.mem_get_galaxy] at hq
  induction hq with
  | refl => exact hp
  | tail hxy hedge ih =>
    rcases hedge with he | he
    · exact Universe.is_inside_iff_mem_grid.mp (hwf _ he).2
    · exact Universe.is_inside_iff_mem_grid.mp (hwf _ he).1

/-! ## C9 — `Board::get_height` reads the `width` field -/

/-- Claim C9 (confirmed): for every `w` and `h`, `Board::new(w, h).get_height()`
returns `w`, the same value as `get_width()`, and equals the constructed height
exactly when `w = h`. -/
theorem C9_get_height_reads_width (w h : Nat) :
    (Board.new w h).get_height = w ∧
      (Board.new w h).get_height = (Board.new w h).get_width ∧
      ((Board.new w h).get_height = h ↔ w = h) :=
  ⟨rfl, rfl, Iff.rfl⟩

/-! ## C8 — corner deduplication of rectangles -/

/-- Claim C8 (counterexample): the 1×1-cell rectangle has width 1 and height 1
but `corners()` returns four corners, not one — deduplication does not happen
at unit dimensions. -/
theorem C8_counterexample :
    (Rectangle.mk 0 1 0 1).width = 1 ∧ (Rectangle.mk 0 1 0 1).height = 1 ∧
      (Rectangle.mk 0 1 0 1).corners.length = 4 := by
  refine ⟨rfl, rfl, ?_⟩
  decide

/-- Claim C8 (amended): `corners()` deduplicates exactly when a dimension is
degenerate (`min = max`, i.e. width or height zero): both degenerate gives one
corner, exactly one degenerate gives two, otherwise four; the returned corners
are always pairwise distinct. -/
theorem C8_amended_corners (r : Rectangle) :
    r.corners.Nodup ∧
      r.corners.length =
        (if r.min_row = r.max_row ∧ r.min_column = r.max_column then 1
          else if r.min_row = r.max_row ∨ r.min_column = r.max_column then 2
          else 4) := by
  unfold Rectangle.corners
  by_cases h1 : r.min_row = r.max_row <;> by_cases h2 : r.min_column = r.max_column <;>
    simp [h1, h2, Rectangle.top_left, Rectangle.top_right, Rectangle.bottom_left,
      Rectangle.bottom_right, Position.mk.injEq]

/-! ## C7 — `get_galaxies` is sorted by least cell -/

theorem Universe.getGalaxiesAux_succ (U : Universe) (fuel : Nat)
    (remaining : Finset Position) (h : remaining.Nonempty) :
    U.getGalaxiesAux (fuel + 1) remaining =
      U.get_galaxy (remaining.min' h) ::
        U.getGalaxiesAux fuel (remaining \ (U.get_galaxy (remaining.min' h)).positions) := by
  have hdef : U.getGalaxiesAux (fuel + 1) remaining =
      if h : remaining.Nonempty then
        U.get_galaxy (remaining.min' h) ::
          U.getGalaxiesAux fuel (remaining \ (U.get_galaxy (remaining.min' h)).positions)
      else [] := rfl
  rw [hdef, dif_pos h]

theorem Universe.getGalaxiesAux_of_empty (U : Universe) (fuel : Nat)
    (remaining : Finset Position) (h : ¬remaining.Nonempty) :
    U.getGalaxiesAux fuel remaining = [] := by
  cases fuel with
  | zero => rfl
  | succ fuel =>
    have hdef : U.getGalaxiesAux (fuel + 1) remaining =
        if h : remaining.Nonempty then
          U.get_galaxy (remaining.min' h) ::
            U.getGalaxiesAux fuel (remaining \ (U.get_galaxy (remaining.min' h)).positions)
        else [] := rfl
    rw [hdef, dif_neg h]

theorem Universe.getGalaxiesAux_spec (U : Universe) :
    ∀ (fuel : Nat) (remaining : Finset Position),
      (∀ p ∈ remaining, (U.get_galaxy p).positions ⊆ remaining) →
      (∀ g ∈ U.getGalaxiesAux fuel remaining, g.positions.Nonempty ∧ g.positions ⊆ remaining) ∧
        List.Pairwise
          (fun g₁ g₂ => ∀ (h₁ : g₁.positions.Nonempty) (h₂ : g₂.positions.Nonempty),
            g₁.positions.min' h₁ < g₂.positions.min' h₂)
          (U.getGalaxiesAux fuel remaining) := by
  intro fuel
  induction fuel with
  | zero =>
    intro remaining _
    constructor
    · intro g hg
      simp [Universe.getGalaxiesAux] at hg
    · simp [Universe.getGalaxiesAux]
  | succ fuel ih =>
    intro remaining hinv
    by_cases h : remaining.Nonempty
    · have hstep := U.getGalaxiesAux_succ fuel remaining h
      set p := remaining.min' h with hp
      set galaxy := U.get_galaxy p with hgal
      have hpmem : p ∈ remaining := remaining.min'_mem h
      have hgsub : galaxy.positions ⊆ remaining := hinv p hpmem
      have hinv2 : ∀ q ∈ remaining \ galaxy.positions,
          (U.get_galaxy q).positions ⊆ remaining \ galaxy.positions := by
        intro q hq
        rw [Finset.mem_sdiff] at hq
        intro x hx
        rw [Finset.mem_sdiff]
        refine ⟨hinv q hq.1 hx, ?_⟩
        intro hxg
        apply hq.2
        have h1 : U.get_galaxy x = U.get_galaxy q := Universe.get_galaxy_eq_of_mem hx
        have h2 : U.get_galaxy x = U.get_galaxy p := Universe.get_galaxy_eq_of_mem hxg
        have : q ∈ (U.get_galaxy p).positions := by
          rw [← h2, h1]
          exact Universe.self_mem_get_galaxy U q
        exact this
      obtain ⟨ihmem, ihpw⟩ := ih (remaining \ galaxy.positions) hinv2
      rw [hstep]
      constructor
      · intro g hg
        rcases List.mem_cons.mp hg with rfl | hg
        · exact ⟨⟨p, Universe.self_mem_get_galaxy U p⟩, hgsub⟩
        · obtain ⟨hne, hsub⟩ := ihmem g hg
          exact ⟨hne, Finset.Subset.trans hsub (Finset.sdiff_subset)⟩
      · rw [List.pairwise_cons]
        refine ⟨?_, ihpw⟩
        intro g' hg' h₁ h₂
        obtain ⟨hne', hsub'⟩ := ihmem g' hg'
        have hmin1 : galaxy.positions.min' h₁ = p := by
          apply le_antisymm
          · exact Finset.min'_le _ _ (Universe.self_mem_get_galaxy U p)
          · exact Finset.min'_le _ _ (hgsub (Finset.min'_mem _ h₁))
        rw [hmin1]
        have hmem2 := hsub' (Finset.min'_mem _ h₂)
        rw [Finset.mem_sdiff] at hmem2
        have hle : p ≤ g'.positions.min' h₂ := Finset.min'_le _ _ hmem2.1
        have hne2 : g'.positions.min' h₂ ≠ p := by
          intro hEq
          apply hmem2.2
          rw [hEq]
          exact Universe.self_mem_get_galaxy U p
        exact lt_of_le_of_ne hle (Ne.symm hne2)
    · rw [U.getGalaxiesAux_of_empty (fuel + 1) remaining h]
      constructor
      · intro g hg
        simp at hg
      · exact List.Pairwise.nil

/-- Claim C7 (confirmed): for every universe whose graph's nodes stay inside
the `W×H` grid (the data model of the spec), `get_galaxies()` returns
nonempty galaxies in strictly ascending order of each galaxy's least cell
under the row-major lexicographic order on (row, column). -/
theorem C7_get_galaxies_sorted (U : Universe) (hwf : U.edges_in_grid) :
    (∀ g ∈ U.get_galaxies, g.positions.Nonempty) ∧
      List.Pairwise
        (fun g₁ g₂ => ∀ (h₁ : g₁.positions.Nonempty) (h₂ : g₂.positions.Nonempty),
          g₁.positions.min' h₁ < g₂.positions.min' h₂)
        U.get_galaxies := by
  have hspec := U.getGalaxiesAux_spec (gridFinset U.width U.height).card
    (gridFinset U.width U.height)
    (fun p hp => Universe.get_galaxy_subset_grid hwf hp)
  exact ⟨fun g hg => (hspec.1 g hg).1, hspec.2⟩

/-- Claim C7 (witness): the sortedness theorem applied to a concrete
two-galaxy universe. -/
theorem C7_witness :
    (∀ g ∈ (⟨2, 1, {((⟨0, 0⟩ : Position), (⟨0, 1⟩ : Position))}⟩ : Universe).get_galaxies,
        g.positions.Nonempty) ∧
      List.Pairwise
        (fun g₁ g₂ => ∀ (h₁ : g₁.positions.Nonempty) (h₂ : g₂.positions.Nonempty),
          g₁.positions.min' h₁ < g₂.positions.min' h₂)
        (⟨2, 1, {((⟨0, 0⟩ : Position), (⟨0, 1⟩ : Position))}⟩ : Universe).get_galaxies :=
  C7_get_galaxies_sorted _ (by decide)

/-! ## C10 — generated objectives carry no size hints -/

theorem Board.compute_error_eq_some {B : Board} {o : Objective} {e : BoardError} :
    B.compute_error o = some e ↔
      ∃ gboc, galaxyByObjectiveCenter B.get_galaxies o.centers = some gboc ∧
        e = computeErrorParts B o gboc := by
  unfold Board.compute_error
  rcases galaxyByObjectiveCenter B.get_galaxies o.centers with _ | m
  · simp
  · simp [eq_comm]

/-- Claim C10 (confirmed): every center of `Objective::generate(U)` has
`size = None` and the walls list is empty; consequently `compute_error`
against a generated objective, whenever it returns, reports an empty
`incorrect_galaxy_sizes` set. -/
theorem C10_generated_objective_sizes (U : Universe) :
    (∀ gc ∈ (Objective.generate U).centers, gc.size = none) ∧
      (Objective.generate U).walls = [] ∧
      ∀ (B : Board) (e : BoardError),
        B.compute_error (Objective.generate U) = some e →
          e.incorrect_galaxy_sizes = ∅ := by
  refine ⟨?_, rfl, ?_⟩
  · intro gc hgc
    simp only [Objective.generate, List.mem_map] at hgc
    obtain ⟨g, _, rfl⟩ := hgc
    rfl
  · intro B e h
    obtain ⟨m, hm, rfl⟩ := Board.compute_error_eq_some.mp h
    show ((Objective.generate U).centers.filterMap _).toFinset = ∅
    have hnil : (Objective.generate U).centers.filterMap
        (fun gc =>
          match gc.size with
          | some size =>
            match lookupAssoc m gc.position with
            | some galaxy => if galaxy.size ≠ size then some gc.position else none
            | none => none
          | none => none) = [] := by
      rw [List.filterMap_eq_nil_iff]
      intro gc hgc
      simp only [Objective.generate, List.mem_map] at hgc
      obtain ⟨g, _, rfl⟩ := hgc
      rfl
    rw [hnil, List.toFinset_nil]

/-- Claim C10 (witness): the size part of the claim evaluated on the unit
universe and the unit board. -/
theorem C10_witness :
    ∃ e : BoardError,
      (Board.new 1 1).compute_error (Objective.generate (Universe.new 1 1)) = some e ∧
        e.incorrect_galaxy_sizes = ∅ := by
  cases hm : (Board.new 1 1).compute_error (Objective.generate (Universe.new 1 1)) with
  | none => exact absurd hm (by decide)
  | some e =>
    exact ⟨e, rfl, (C10_generated_objective_sizes (Universe.new 1 1)).2.2 (Board.new 1 1) e hm⟩

/-! ## C4 — dangling borders -/

theorem Board.is_dangling_iff_someTipFree (B : Board) (b : Border) :
    B.is_dangling b ↔ B.someTipFree b := by
  unfold Board.is_dangling Board.someTipFree Board.vertUpperTipFree Board.vertLowerTipFree
    Board.horizLeftTipFree Board.horizRightTipFree
  split <;> exact Iff.rfl

/-- Claim C4 (counterexample): on the 3×3 board with walls `{(1,0),(1,1)}` and
`{(0,0),(0,1)}`, `compute_error` lists `{(1,0),(1,1)}` as dangling although
its upper tip is not free (only the lower tip is): a wall with exactly one
free tip is reported, refuting the both-tips-free characterisation. -/
theorem C4_counterexample :
    cexBoard.compute_error cexObjective = some cexError ∧
      cexWall ∈ cexError.dangling_borders ∧
      ¬cexBoard.bothTipsFree cexWall ∧
      ¬cexBoard.vertUpperTipFree cexWall ∧ cexBoard.vertLowerTipFree cexWall := by
  refine ⟨by decide, by decide, by decide, by decide, by decide⟩

/-- Claim C4 (amended): `compute_error` lists a wall in `dangling_borders` iff
it is a current wall and **at least one** of its outer tips is free (a tip is
free when the three wall segments that would meet the wall there are absent
and the tip is not on the outer frame); in particular a wall with exactly one
free tip **is** reported as dangling. -/
theorem C4_amended_dangling (B : Board) (o : Objective) (e : BoardError)
    (h : B.compute_error o = some e) (b : Border) :
    (b ∈ e.dangling_borders ↔ b ∈ B.get_borders ∧ B.someTipFree b) ∧
      (B.someTipFree b ∧ ¬B.bothTipsFree b → B.is_dangling b) := by
  have hd : e.dangling_borders = B.get_dangling_borders := by
    obtain ⟨m, hm, rfl⟩ := Board.compute_error_eq_some.mp h
    rfl
  constructor
  · rw [hd]
    unfold Board.get_dangling_borders
    rw [Finset.mem_filter]
    rw [Board.is_dangling_iff_someTipFree]
  · intro hfree
    rw [Board.is_dangling_iff_someTipFree]
    exact hfree.1

/-- Claim C4 (witness): the amended characterisation applied to the concrete
board of the counterexample. -/
theorem C4_witness :
    (cexWall ∈ cexError.dangling_borders ↔
        cexWall ∈ cexBoard.get_borders ∧ cexBoard.someTipFree cexWall) ∧
      (cexBoard.someTipFree cexWall ∧ ¬cexBoard.bothTipsFree cexWall →
        cexBoard.is_dangling cexWall) :=
  C4_amended_dangling cexBoard cexObjective cexError (by decide) cexWall

/-! ## C6 — `generate(1,1)` -/

theorem Universe.generate_step_unit (rng : Rng) :
    (Universe.new 1 1).generate_step rng =
      (Universe.new 1 1, false, ⟨rng.gen, rng.idx + 2⟩) := by
  have h1 : rng.gen rng.idx % 1 = 0 := Nat.mod_one _
  have h2 : rng.gen (rng.idx + 1) % 1 = 0 := Nat.mod_one _
  have hh : (Universe.new 1 1).height = 1 := rfl
  have hw : (Universe.new 1 1).width = 1 := rfl
  unfold Universe.generate_step Universe.random_position Rng.next
  simp only [hh, hw, h1, h2, Nat.cast_zero]
  rfl

theorem Universe.generateRound_unit (rng : Rng) :
    Universe.generateRound (Universe.new 1 1) rng =
      (Universe.new 1 1, ⟨rng.gen, rng.idx + 10⟩) := by
  unfold Universe.generateRound
  simp only [List.range_succ, List.range_zero, List.nil_append, List.cons_append,
    List.foldl_cons, List.foldl_nil, Universe.generate_step_unit]
  show (Universe.new 1 1, (⟨rng.gen, rng.idx + 2 + 2 + 2 + 2 + 2⟩ : Rng)) = _
  have : rng.idx + 2 + 2 + 2 + 2 + 2 = rng.idx + 10 := by omega
  rw [this]

theorem Universe.generate_unit (rng : Rng) :
    Universe.generate 1 1 rng = Universe.new 1 1 := by
  unfold Universe.generate
  simp only [Nat.mul_one, Nat.one_mul, List.range_succ, List.range_zero, List.nil_append,
    List.cons_append, List.foldl_cons, List.foldl_nil, Universe.generateRound_unit]

/-- Claim C6 (counterexample): `generate(1,1)` has score 1, not the claimed
score 0 (the single 1×1 rectangle of the unit galaxy contributes `1² = 1`). -/
theorem C6_counterexample :
    (Universe.generate 1 1 rng0).get_score ≠ 0 ∧
      (Universe.generate 1 1 rng0).get_score = 1 := by
  rw [Universe.generate_unit rng0]
  refine ⟨by decide, by decide⟩

/-- Claim C6 (amended): for every random oracle, `generate(1,1)` returns a
universe with exactly one galaxy whose cell set is `{(0,0)}`, whose center is
`(0,0)`, whose size is 1 — and whose score is **1**. -/
theorem C6_amended_generate_unit (rng : Rng) :
    (Universe.generate 1 1 rng).get_galaxies = [⟨{⟨0, 0⟩}⟩] ∧
      (∀ g ∈ (Universe.generate 1 1 rng).get_galaxies,
        g.center = ⟨0, 0⟩ ∧ g.size = 1) ∧
      (Universe.generate 1 1 rng).get_score = 1 := by
  rw [Universe.generate_unit rng]
  refine ⟨by decide, ?_, by decide⟩
  intro g hg
  have : g = ⟨{⟨0, 0⟩}⟩ := by
    have hgg : (Universe.new 1 1).get_galaxies = [⟨{⟨0, 0⟩}⟩] := by decide
    rw [hgg] at hg
    simpa using hg
  rw [this]
  exact ⟨by decide, by decide⟩

/-! ## C3 — the beam-search round retains pre-step snapshots -/

/-- Claim C3 (code behaviour at the failing input): on the 2×1 universe with
the all-zero oracle, the first branch's `generate_step` succeeds and changes
the working universe, yet the round returns the *pre-step* snapshot — the
round's result equals the starting universe even though a step succeeded, so
the retained branch is not the result of applying the successful step to a
clone. -/
theorem C3_round_keeps_prestep_snapshot :
    (Universe.generateRound (Universe.new 2 1) rng0).1 = Universe.new 2 1 ∧
      ((Universe.new 2 1).generate_step rng0).2.1 = true ∧
      ((Universe.new 2 1).generate_step rng0).1 ≠ Universe.new 2 1 := by
  refine ⟨by decide, by decide, by decide⟩

/-! ## C5 — the rectangle decomposition partitions the galaxy -/

theorem rangeInt_empty {a b : Int} (h : b ≤ a) : rangeInt a b = [] := by
  unfold rangeInt
  have : (b - a).toNat = 0 := by omega
  rw [this]
  rfl

theorem rangeInt_cons {a b : Int} (h : a < b) :
    rangeInt a b = a :: rangeInt (a + 1) b := by
  unfold rangeInt
  have hn : (b - a).toNat = (b - (a + 1)).toNat + 1 := by omega
  rw [hn, List.range_succ_eq_map, List.map_cons, List.map_map]
  refine List.cons_eq_cons.mpr ⟨by simp, ?_⟩
  apply List.map_congr_left
  intro i _
  show a + ((i + 1 : Nat) : Int) = a + 1 + (i : Int)
  push_cast
  ring

theorem rangeInt_concat {a b : Int} (h : a ≤ b) :
    rangeInt a (b + 1) = rangeInt a b ++ [b] := by
  unfold rangeInt
  have hn : (b + 1 - a).toNat = (b - a).toNat + 1 := by omega
  rw [hn, List.range_succ, List.map_append, List.map_cons]
  have : a + ((b - a).toNat : Int) = b := by omega
  rw [this]
  rfl

theorem Galaxy.heightsStep_agree (P : Finset Position) (row min_col : Int) :
    ∀ (L : List Int) (h : Int → Int) (i : Int), (∀ col ∈ L, col - min_col ≠ i) →
      (L.foldl (Galaxy.heightsStep P row min_col) h) i = h i := by
  intro L
  induction L with
  | nil => intro h i _; rfl
  | cons c L ih =>
    intro h i hL
    rw [List.foldl_cons]
    rw [ih (Galaxy.heightsStep P row min_col h c) i (fun col hc => hL col (List.mem_cons_of_mem c hc))]
    unfold Galaxy.heightsStep
    rw [if_neg (Ne.symm (hL c (List.mem_cons_self c L)))]

theorem Galaxy.updateHeights_value (P : Finset Position) (row min_col : Int) :
    ∀ (n : Nat) (a : Int) (h : Int → Int) (col : Int), a ≤ col → col < a + n →
      ((rangeInt a (a + n)).foldl (Galaxy.heightsStep P row min_col) h) (col - min_col) =
        if (⟨row, col⟩ : Position) ∈ P then h (col - min_col) + 1 else 0 := by
  intro n
  induction n with
  | zero =>
    intro a h col h1 h2
    omega
  | succ n ih =>
    intro a h col h1 h2
    rw [rangeInt_cons (by omega), List.foldl_cons]
    by_cases hc : col = a
    · subst hc
      rw [Galaxy.heightsStep_agree P row min_col _ _ _ ?dist]
      case dist =>
        intro c hc
        rw [mem_rangeInt] at hc
        omega
      unfold Galaxy.heightsStep
      rw [if_pos rfl]
    · have heq : a + 1 + (n : Int) = a + (n + 1 : Nat) := by push_cast; ring
      have := ih (a + 1) (Galaxy.heightsStep P row min_col h a) col (by omega) (by omega)
      rw [heq] at this
      rw [this]
      have hne : Galaxy.heightsStep P row min_col h a (col - min_col) = h (col - min_col) := by
        unfold Galaxy.heightsStep
        rw [if_neg (by omega)]
      rw [hne]

theorem Galaxy.leftsStep_agree (P : Finset Position) (row min_col : Int) :
    ∀ (L : List Int) (st : (Int → Int) × Int) (i : Int), (∀ col ∈ L, col - min_col ≠ i) →
      (L.foldl (Galaxy.leftsStep P row min_col) st).1 i = st.1 i := by
  intro L
  induction L with
  | nil => intro st i _; rfl
  | cons c L ih =>
    intro st i hL
    rw [List.foldl_cons]
    rw [ih (Galaxy.leftsStep P row min_col st c) i
      (fun col hc => hL col (List.mem_cons_of_mem c hc))]
    have hne := Ne.symm (hL c (List.mem_cons_self c L))
    unfold Galaxy.leftsStep
    split <;> exact if_neg hne

theorem Galaxy.updateLefts_value (P : Finset Position) (row min_col : Int) :
    ∀ (n : Nat) (a : Int) (st : (Int → Int) × Int) (col : Int), a ≤ col → col < a + n →
      (⟨row, col⟩ : Position) ∈ P →
      st.2 ≤ a →
      (∀ c', st.2 ≤ c' → c' < a → (⟨row, c'⟩ : Position) ∈ P) →
      ∃ cl : Int,
        ((rangeInt a (a + n)).foldl (Galaxy.leftsStep P row min_col) st).1 (col - min_col) =
          max (st.1 (col - min_col)) cl ∧ cl ≤ col ∧
          ∀ c', cl ≤ c' → c' ≤ col → (⟨row, c'⟩ : Position) ∈ P := by
  intro n
  induction n with
  | zero =>
    intro a st col h1 h2
    omega
  | succ n ih =>
    intro a st col h1 h2 hcol hca hcp
    rw [rangeInt_cons (by omega), List.foldl_cons]
    by_cases hc : col = a
    · subst hc
      refine ⟨st.2, ?_, hca, ?_⟩
      · rw [Galaxy.leftsStep_agree P row min_col _ _ _ ?dist]
        case dist =>
          intro c hcm
          rw [mem_rangeInt] at hcm
          omega
        unfold Galaxy.leftsStep
        rw [if_pos hcol]
        simp
      · intro c' hc1 hc2
        rcases lt_or_eq_of_le hc2 with h | h
        · exact hcp c' hc1 h
        · rw [h]; exact hcol
    · have heq : a + 1 + (n : Int) = a + (n + 1 : Nat) := by push_cast; ring
      set st' := Galaxy.leftsStep P row min_col st a with hst'
      have hfst : st'.1 (col - min_col) = st.1 (col - min_col) := by
        rw [hst']
        unfold Galaxy.leftsStep
        split <;> exact if_neg (by omega)
      have hsnd : st'.2 ≤ a + 1 ∧
          ∀ c', st'.2 ≤ c' → c' < a + 1 → (⟨row, c'⟩ : Position) ∈ P := by
        rw [hst']
        unfold Galaxy.leftsStep
        by_cases hmem : (⟨row, a⟩ : Position) ∈ P
        · rw [if_pos hmem]
          refine ⟨by omega, ?_⟩
          intro c' hc1 hc2
          rcases lt_or_eq_of_le (show c' ≤ a by omega) with h | h
          · exact hcp c' hc1 h
          · rw [h]; exact hmem
        · rw [if_neg hmem]
          exact ⟨le_refl _, fun c' hc1 hc2 => absurd hc2 (by omega)⟩
      obtain ⟨cl, hval, hcl1, hcl2⟩ := ih (a + 1) st' col (by omega) (by omega) hcol hsnd.1 hsnd.2
      rw [heq] at hval
      exact ⟨cl, by rw [← hfst]; exact hval, hcl1, hcl2⟩

theorem Galaxy.rightsStep_agree (P : Finset Position) (row min_col max_col : Int) :
    ∀ (L : List Int) (st : (Int → Int) × Int) (i : Int), (∀ col ∈ L, col - min_col ≠ i) →
      (L.foldl (Galaxy.rightsStep P row min_col max_col) st).1 i = st.1 i := by
  intro L
  induction L with
  | nil => intro st i _; rfl
  | cons c L ih =>
    intro st i hL
    rw [List.foldl_cons]
    rw [ih (Galaxy.rightsStep P row min_col max_col st c) i
      (fun col hc => hL col (List.mem_cons_of_mem c hc))]
    have hne := Ne.symm (hL c (List.mem_cons_self c L))
    unfold Galaxy.rightsStep
    split <;> exact if_neg hne

theorem Galaxy.updateRights_value (P : Finset Position) (row min_col max_col : Int) :
    ∀ (n : Nat) (b : Int) (a : Int) (st : (Int → Int) × Int) (col : Int),
      b = a + n → a ≤ col → col < b →
      (⟨row, col⟩ : Position) ∈ P →
      b ≤ st.2 →
      (∀ c', b ≤ c' → c' < st.2 → (⟨row, c'⟩ : Position) ∈ P) →
      ∃ cr : Int,
        ((rangeInt a b).reverse.foldl (Galaxy.rightsStep P row min_col max_col) st).1
            (col - min_col) =
          min (st.1 (col - min_col)) cr ∧ col < cr ∧
          ∀ c', col ≤ c' → c' < cr → (⟨row, c'⟩ : Position) ∈ P := by
  intro n
  induction n with
  | zero =>
    intro b a st col hb h1 h2
    omega
  | succ n ih =>
    intro b a st col hb h1 h2 hcol hcb hcp
    have hsplit : rangeInt a b = rangeInt a (b - 1) ++ [b - 1] := by
      have hcc := rangeInt_concat (show a ≤ b - 1 by omega)
      rw [Int.sub_add_cancel] at hcc
      exact hcc
    rw [hsplit, List.reverse_append, List.reverse_singleton, List.singleton_append,
      List.foldl_cons]
    by_cases hc : col = b - 1
    · subst hc
      refine ⟨st.2, ?_, by omega, ?_⟩
      · rw [Galaxy.rightsStep_agree P row min_col max_col _ _ _ ?dist]
        case dist =>
          intro c hcm
          rw [List.mem_reverse, mem_rangeInt] at hcm
          omega
        unfold Galaxy.rightsStep
        rw [if_pos hcol]
        simp
      · intro c' hc1 hc2
        rcases lt_or_eq_of_le hc1 with h | h
        · exact hcp c' (by omega) hc2
        · rw [← h]; exact hcol
    · set st' := Galaxy.rightsStep P row min_col max_col st (b - 1) with hst'
      have hfst : st'.1 (col - min_col) = st.1 (col - min_col) := by
        rw [hst']
        unfold Galaxy.rightsStep
        split <;> exact if_neg (by omega)
      have hsnd : b - 1 ≤ st'.2 ∧
          ∀ c', b - 1 ≤ c' → c' < st'.2 → (⟨row, c'⟩ : Position) ∈ P := by
        rw [hst']
        unfold Galaxy.rightsStep
        by_cases hmem : (⟨row, b - 1⟩ : Position) ∈ P
        · rw [if_pos hmem]
          refine ⟨by omega, ?_⟩
          intro c' hc1 hc2
          rcases lt_or_eq_of_le hc1 with h | h
          · exact hcp c' (by omega) hc2
          · rw [← h]; exact hmem
        · rw [if_neg hmem]
          exact ⟨le_refl _, fun c' hc1 hc2 => absurd hc2 (by omega)⟩
      obtain ⟨cr, hval, hcr1, hcr2⟩ :=
        ih (b - 1) a st' col (by omega) (by omega) (by omega) hcol hsnd.1 hsnd.2
      exact ⟨cr, by rw [← hfst]; exact hval, hcr1, hcr2⟩

theorem Galaxy.updateHeights_nonneg (P : Finset Position) (row min_col : Int) :
    ∀ (L : List Int) (h : Int → Int), (∀ i, 0 ≤ h i) →
      ∀ i, 0 ≤ (L.foldl (Galaxy.heightsStep P row min_col) h) i := by
  intro L
  induction L with
  | nil => intro h hh i; exact hh i
  | cons c L ih =>
    intro h hh i
    rw [List.foldl_cons]
    apply ih
    intro j
    unfold Galaxy.heightsStep
    by_cases hj : j = c - min_col
    · rw [if_pos hj]
      split
      · have := hh (c - min_col); omega
      · omega
    · rw [if_neg hj]
      exact hh j

theorem Galaxy.bestAtRow_inv {P : Finset Position} {row min_col max_col : Int}
    {hts lf rt : Int → Int}
    (hinv : RowInv P min_col max_col hts lf rt row) :
    ∀ (L : List Int) (best : Rectangle), (∀ col ∈ L, min_col ≤ col ∧ col < max_col) →
      BestInv P best →
      BestInv P (L.foldl (Galaxy.bestStep row min_col hts lf rt) best) := by
  intro L
  induction L with
  | nil => intro best _ hb; exact hb
  | cons c L ih =>
    intro best hL hb
    rw [List.foldl_cons]
    apply ih _ (fun col hc => hL col (List.mem_cons_of_mem c hc))
    simp only [Galaxy.bestStep]
    split
    · obtain ⟨hc1, hc2⟩ := hL c (List.mem_cons_self c L)
      constructor
      · intro p hp
        rw [Rectangle.mem_positions] at hp
        obtain ⟨h1p, h2p, h3p, h4p⟩ := hp
        dsimp only at h1p h2p h3p h4p
        exact hinv.2 c hc1 hc2 p.row (by omega) (by omega) p.column h3p h4p
      · have := hinv.1 (c - min_col)
        show row - hts (c - min_col) + 1 ≤ row + 1
        omega
    · exact hb

theorem Galaxy.bestAtRow_area_mono (row min_col : Int) (hts lf rt : Int → Int) :
    ∀ (L : List Int) (best : Rectangle),
      best.area ≤ (L.foldl (Galaxy.bestStep row min_col hts lf rt) best).area := by
  intro L
  induction L with
  | nil => intro best; exact le_refl _
  | cons c L ih =>
    intro best
    rw [List.foldl_cons]
    refine le_trans ?_ (ih (Galaxy.bestStep row min_col hts lf rt best c))
    simp only [Galaxy.bestStep]
    split
    · omega
    · exact le_refl _

theorem Galaxy.bestAtRow_ge_candidate (row min_col : Int) (hts lf rt : Int → Int) :
    ∀ (L : List Int) (best : Rectangle) (col : Int), col ∈ L →
      (⟨row - hts (col - min_col) + 1, row + 1, lf (col - min_col),
          rt (col - min_col)⟩ : Rectangle).area ≤
        (L.foldl (Galaxy.bestStep row min_col hts lf rt) best).area := by
  intro L
  induction L with
  | nil => intro best col hc; simp at hc
  | cons c L ih =>
    intro best col hc
    rw [List.foldl_cons]
    rcases List.mem_cons.mp hc with rfl | hc
    · refine le_trans ?_ (Galaxy.bestAtRow_area_mono row min_col hts lf rt L _)
      simp only [Galaxy.bestStep]
      split
      · exact le_refl _
      · omega
    · exact ih _ col hc

theorem Galaxy.rowStep_inv {P : Finset Position} {min_col max_col : Int}
    (st : (Int → Int) × (Int → Int) × (Int → Int) × Rectangle) (row : Int)
    (hrow : RowInv P min_col max_col st.1 st.2.1 st.2.2.1 (row - 1))
    (hbest : BestInv P st.2.2.2) :
    RowInv P min_col max_col (Galaxy.rowStep P min_col max_col st row).1
        (Galaxy.rowStep P min_col max_col st row).2.1
        (Galaxy.rowStep P min_col max_col st row).2.2.1 row ∧
      BestInv P (Galaxy.rowStep P min_col max_col st row).2.2.2 := by
  obtain ⟨hts, lf, rt, best⟩ := st
  dsimp only at hrow hbest
  have hrinv : RowInv P min_col max_col
      (Galaxy.updateHeights P row min_col max_col hts)
      (Galaxy.updateLefts P row min_col max_col lf)
      (Galaxy.updateRights P row min_col max_col rt) row := by
    constructor
    · exact Galaxy.updateHeights_nonneg P row min_col _ hts hrow.1
    · intro col h1 h2 r' hr1 hr2 c' hc1 hc2
      have hn : max_col = min_col + ((max_col - min_col).toNat : Int) := by omega
      by_cases hmem : (⟨row, col⟩ : Position) ∈ P
      · have hhv : Galaxy.updateHeights P row min_col max_col hts (col - min_col) =
            hts (col - min_col) + 1 := by
          unfold Galaxy.updateHeights
          rw [show rangeInt min_col max_col = rangeInt min_col
            (min_col + ((max_col - min_col).toNat : Int)) from by rw [← hn]]
          rw [Galaxy.updateHeights_value P row min_col ((max_col - min_col).toNat) min_col hts
            col h1 (by omega), if_pos hmem]
        obtain ⟨cl, hlv, hcl1, hcl2⟩ := Galaxy.updateLefts_value P row min_col
          ((max_col - min_col).toNat) min_col (lf, min_col) col h1 (by omega) hmem
          (le_refl _) (fun c' hh1 hh2 => absurd hh2 (by omega))
        obtain ⟨cr, hrv, hcr1, hcr2⟩ := Galaxy.updateRights_value P row min_col max_col
          ((max_col - min_col).toNat) max_col min_col (rt, max_col) col hn h1 h2 hmem
          (le_refl _) (fun c' hh1 hh2 => absurd hh2 (by omega))
        have hlv2 : Galaxy.updateLefts P row min_col max_col lf (col - min_col) =
            max (lf (col - min_col)) cl := by
          unfold Galaxy.updateLefts
          rw [show rangeInt min_col max_col = rangeInt min_col
            (min_col + ((max_col - min_col).toNat : Int)) from by rw [← hn]]
          exact hlv
        have hrv2 : Galaxy.updateRights P row min_col max_col rt (col - min_col) =
            min (rt (col - min_col)) cr := by
          unfold Galaxy.updateRights
          exact hrv
        rw [hhv] at hr1
        rw [hlv2] at hc1
        rw [hrv2] at hc2
        by_cases hr : r' = row
        · subst hr
          by_cases hcc : c' ≤ col
          · exact hcl2 c' (le_trans (le_max_right _ _) hc1) hcc
          · exact hcr2 c' (by omega) (lt_of_lt_of_le hc2 (min_le_right _ _))
        · exact hrow.2 col h1 h2 r' (by omega) (by omega) c'
            (le_trans (le_max_left _ _) hc1) (lt_of_lt_of_le hc2 (min_le_left _ _))
      · have hhv : Galaxy.updateHeights P row min_col max_col hts (col - min_col) = 0 := by
          unfold Galaxy.updateHeights
          rw [show rangeInt min_col max_col = rangeInt min_col
            (min_col + ((max_col - min_col).toNat : Int)) from by rw [← hn]]
          rw [Galaxy.updateHeights_value P row min_col ((max_col - min_col).toNat) min_col hts
            col h1 (by omega), if_neg hmem]
        rw [hhv] at hr1
        omega
  refine ⟨hrinv, ?_⟩
  show BestInv P (Galaxy.bestAtRow row min_col max_col _ _ _ best)
  unfold Galaxy.bestAtRow
  apply Galaxy.bestAtRow_inv hrinv
  · intro col hc
    rw [mem_rangeInt] at hc
    exact hc
  · exact hbest

theorem Galaxy.rowsFold_inv {P : Finset Position} {min_col max_col : Int} :
    ∀ (n : Nat) (r0 : Int) (st : (Int → Int) × (Int → Int) × (Int → Int) × Rectangle),
      RowInv P min_col max_col st.1 st.2.1 st.2.2.1 (r0 - 1) → BestInv P st.2.2.2 →
      RowInv P min_col max_col
          ((rangeInt r0 (r0 + n)).foldl (Galaxy.rowStep P min_col max_col) st).1
          ((rangeInt r0 (r0 + n)).foldl (Galaxy.rowStep P min_col max_col) st).2.1
          ((rangeInt r0 (r0 + n)).foldl (Galaxy.rowStep P min_col max_col) st).2.2.1
          (r0 + n - 1) ∧
        BestInv P
          ((rangeInt r0 (r0 + n)).foldl (Galaxy.rowStep P min_col max_col) st).2.2.2 := by
  intro n
  induction n with
  | zero =>
    intro r0 st h1 h2
    rw [show ((0 : Nat) : Int) = 0 from rfl, add_zero, rangeInt_empty (le_refl r0)]
    exact ⟨h1, h2⟩
  | succ n ih =>
    intro r0 st h1 h2
    rw [rangeInt_cons (by omega), List.foldl_cons]
    obtain ⟨h1', h2'⟩ := Galaxy.rowStep_inv st r0 (by simpa using h1) h2
    have harith : r0 + ((n : Nat) + 1 : Nat) = (r0 + 1) + (n : Nat) := by push_cast; ring
    have := ih (r0 + 1) (Galaxy.rowStep P min_col max_col st r0) (by simpa using h1') h2'
    rw [harith]
    constructor
    · have harith2 : r0 + 1 + (n : Nat) - 1 = r0 + 1 + (n : Nat) - 1 := rfl
      exact this.1
    · exact this.2

theorem Galaxy.maxRectangle_inv (P : Finset Position) (min_row max_row min_col max_col : Int) :
    BestInv P (Galaxy.maxRectangle P min_row max_row min_col max_col) := by
  have hinit : RowInv P min_col max_col (fun _ => (0 : Int)) (fun _ => min_col)
      (fun _ => max_col) (min_row - 1) := by
    refine ⟨fun i => le_refl 0, ?_⟩
    intro col _ _ r' hr1 hr2 c' _ _
    dsimp only at hr1
    omega
  have hbinit : BestInv P (default : Rectangle) := by
    constructor
    · intro p hp
      rw [Rectangle.mem_positions] at hp
      obtain ⟨hp1, hp2, _, _⟩ := hp
      have : (default : Rectangle).min_row = 0 := rfl
      have : (default : Rectangle).max_row = 0 := rfl
      omega
    · exact le_refl _
  by_cases h : min_row ≤ max_row
  · have hn : max_row = min_row + ((max_row - min_row).toNat : Int) := by omega
    unfold Galaxy.maxRectangle
    rw [show rangeInt min_row max_row = rangeInt min_row
      (min_row + ((max_row - min_row).toNat : Int)) from by rw [← hn]]
    exact (Galaxy.rowsFold_inv ((max_row - min_row).toNat) min_row _ hinit hbinit).2
  · unfold Galaxy.maxRectangle
    rw [rangeInt_empty (by omega)]
    exact hbinit

theorem Galaxy.rowsFold_best_mono (P : Finset Position) (min_col max_col : Int) :
    ∀ (L : List Int) (st : (Int → Int) × (Int → Int) × (Int → Int) × Rectangle),
      st.2.2.2.area ≤ ((L.foldl (Galaxy.rowStep P min_col max_col) st).2.2.2).area := by
  intro L
  induction L with
  | nil => intro st; exact le_refl _
  | cons c L ih =>
    intro st
    rw [List.foldl_cons]
    refine le_trans ?_ (ih (Galaxy.rowStep P min_col max_col st c))
    show st.2.2.2.area ≤ (Galaxy.bestAtRow c min_col max_col _ _ _ st.2.2.2).area
    unfold Galaxy.bestAtRow
    exact Galaxy.bestAtRow_area_mono c min_col _ _ _ _ st.2.2.2

theorem Galaxy.maxRectangle_area_pos (P : Finset Position) (h : P.Nonempty) :
    1 ≤ (Galaxy.maxRectangle P
        ((P.image Position.row).min' (h.image Position.row))
        ((P.image Position.row).max' (h.image Position.row) + 1)
        ((P.image Position.column).min' (h.image Position.column))
        ((P.image Position.column).max' (h.image Position.column) + 1)).area := by
  set mr := (P.image Position.row).min' (h.image Position.row) with hmr
  set Mr := (P.image Position.row).max' (h.image Position.row) + 1 with hMr
  set mc := (P.image Position.column).min' (h.image Position.column) with hmc
  set Mc := (P.image Position.column).max' (h.image Position.column) + 1 with hMc
  have hmr_mem : mr ∈ P.image Position.row := Finset.min'_mem _ _
  obtain ⟨p0, hp0, hp0r⟩ := Finset.mem_image.mp hmr_mem
  obtain ⟨r0, c0⟩ := p0
  dsimp only at hp0r
  subst hp0r
  have hcol_lb : mc ≤ c0 := Finset.min'_le _ _ (Finset.mem_image_of_mem _ hp0)
  have hcol_ub : c0 < Mc := by
    have := Finset.le_max' (P.image Position.column) c0 (Finset.mem_image_of_mem _ hp0)
    omega
  have hrow_ub : mr < Mr := by
    have := Finset.le_max' (P.image Position.row) mr hmr_mem
    omega
  unfold Galaxy.maxRectangle
  rw [rangeInt_cons hrow_ub, List.foldl_cons]
  refine le_trans ?_ (Galaxy.rowsFold_best_mono P mc Mc _ _)
  show 1 ≤ (Galaxy.rowStep P mc Mc ((fun _ => 0), (fun _ => mc), (fun _ => Mc), default)
      mr).2.2.2.area
  show 1 ≤ (Galaxy.bestAtRow mr mc Mc
      (Galaxy.updateHeights P mr mc Mc (fun _ => 0))
      (Galaxy.updateLefts P mr mc Mc (fun _ => mc))
      (Galaxy.updateRights P mr mc Mc (fun _ => Mc)) default).area
  have hc0mem : c0 ∈ rangeInt mc Mc := mem_rangeInt.mpr ⟨hcol_lb, hcol_ub⟩
  refine le_trans ?_
    (Galaxy.bestAtRow_ge_candidate mr mc _ _ _ (rangeInt mc Mc) default c0 hc0mem)
  have hn : Mc = mc + ((Mc - mc).toNat : Int) := by omega
  have hhv : Galaxy.updateHeights P mr mc Mc (fun _ => (0 : Int)) (c0 - mc) = 1 := by
    unfold Galaxy.updateHeights
    rw [show rangeInt mc Mc = rangeInt mc (mc + ((Mc - mc).toNat : Int)) from by rw [← hn]]
    rw [Galaxy.updateHeights_value P mr mc ((Mc - mc).toNat) mc (fun _ => 0) c0 hcol_lb
      (by omega), if_pos hp0]
    omega
  obtain ⟨cl, hlv, hcl1, _⟩ := Galaxy.updateLefts_value P mr mc ((Mc - mc).toNat) mc
    ((fun _ => mc), mc) c0 hcol_lb (by omega) hp0 (le_refl _)
    (fun c' hh1 hh2 => absurd hh2 (by omega))
  obtain ⟨cr, hrv, hcr1, _⟩ := Galaxy.updateRights_value P mr mc Mc ((Mc - mc).toNat) Mc mc
    ((fun _ => Mc), Mc) c0 hn hcol_lb hcol_ub hp0 (le_refl _)
    (fun c' hh1 hh2 => absurd hh2 (by omega))
  have hlv2 : Galaxy.updateLefts P mr mc Mc (fun _ => mc) (c0 - mc) = max mc cl := by
    unfold Galaxy.updateLefts
    rw [show rangeInt mc Mc = rangeInt mc (mc + ((Mc - mc).toNat : Int)) from by rw [← hn]]
    exact hlv
  have hrv2 : Galaxy.updateRights P mr mc Mc (fun _ => Mc) (c0 - mc) = min Mc cr := by
    unfold Galaxy.updateRights
    exact hrv
  rw [hhv, hlv2, hrv2]
  show 1 ≤ (min Mc cr - max mc cl) * (mr + 1 - (mr - 1 + 1))
  have h1 : max mc cl ≤ c0 := by
    apply max_le hcol_lb hcl1
  have h2 : c0 < min Mc cr := by
    apply lt_min hcol_ub hcr1
  omega

theorem Galaxy.rectangles_internal_succ (fuel : Nat) (P : Finset Position) (h : P.Nonempty) :
    Galaxy.rectangles_internal (fuel + 1) P =
      Galaxy.rectangles_internal fuel
          (P \ (Galaxy.maxRectangle P
            ((P.image Position.row).min' (h.image Position.row))
            ((P.image Position.row).max' (h.image Position.row) + 1)
            ((P.image Position.column).min' (h.image Position.column))
            ((P.image Position.column).max' (h.image Position.column) + 1)).positions.toFinset) ++
        [Galaxy.maxRectangle P
          ((P.image Position.row).min' (h.image Position.row))
          ((P.image Position.row).max' (h.image Position.row) + 1)
          ((P.image Position.column).min' (h.image Position.column))
          ((P.image Position.column).max' (h.image Position.column) + 1)] := by
  have hdef : Galaxy.rectangles_internal (fuel + 1) P =
      if h : P.Nonempty then
        Galaxy.rectangles_internal fuel
            (P \ (Galaxy.maxRectangle P
              ((P.image Position.row).min' (h.image Position.row))
              ((P.image Position.row).max' (h.image Position.row) + 1)
              ((P.image Position.column).min' (h.image Position.column))
              ((P.image Position.column).max' (h.image Position.column) + 1)).positions.toFinset) ++
          [Galaxy.maxRectangle P
            ((P.image Position.row).min' (h.image Position.row))
            ((P.image Position.row).max' (h.image Position.row) + 1)
            ((P.image Position.column).min' (h.image Position.column))
            ((P.image Position.column).max' (h.image Position.column) + 1)]
      else [] := rfl
  rw [hdef, dif_pos h]

theorem Galaxy.rectangles_internal_spec :
    ∀ (fuel : Nat) (P : Finset Position), P.card ≤ fuel →
      (∀ r ∈ Galaxy.rectangles_internal fuel P, ∀ p ∈ r.positions, p ∈ P) ∧
        (∀ p : Position, p ∈ P ↔ ∃ r ∈ Galaxy.rectangles_internal fuel P, p ∈ r.positions) ∧
        List.Pairwise (fun r₁ r₂ => ∀ p, p ∈ r₁.positions → p ∉ r₂.positions)
          (Galaxy.rectangles_internal fuel P) := by
  intro fuel
  induction fuel with
  | zero =>
    intro P hcard
    have hP : P = ∅ := Finset.card_eq_zero.mp (by omega)
    subst hP
    refine ⟨?_, ?_, List.Pairwise.nil⟩
    · intro r hr
      simp [Galaxy.rectangles_internal] at hr
    · intro p
      simp [Galaxy.rectangles_internal]
  | succ fuel ih =>
    intro P hcard
    by_cases hne : P.Nonempty
    · rw [Galaxy.rectangles_internal_succ fuel P hne]
      set R := Galaxy.maxRectangle P
        ((P.image Position.row).min' (hne.image Position.row))
        ((P.image Position.row).max' (hne.image Position.row) + 1)
        ((P.image Position.column).min' (hne.image Position.column))
        ((P.image Position.column).max' (hne.image Position.column) + 1) with hR
      have hinv := Galaxy.maxRectangle_inv P
        ((P.image Position.row).min' (hne.image Position.row))
        ((P.image Position.row).max' (hne.image Position.row) + 1)
        ((P.image Position.column).min' (hne.image Position.column))
        ((P.image Position.column).max' (hne.image Position.column) + 1)
      rw [← hR] at hinv
      have harea := Galaxy.maxRectangle_area_pos P hne
      rw [← hR] at harea
      have hwh : 0 < R.height ∧ 0 < R.width := by
        have hh0 : (0 : Int) ≤ R.height := by
          have := hinv.2
          unfold Rectangle.height
          omega
        have harea2 : R.area = R.width * R.height := rfl
        constructor
        · by_contra hcon
          have hhz : R.height = 0 := by omega
          rw [harea2, hhz, mul_zero] at harea
          omega
        · by_contra hcon
          have hwle : R.width ≤ 0 := by omega
          have : R.width * R.height ≤ 0 * R.height :=
            mul_le_mul_of_nonneg_right hwle hh0
          rw [zero_mul] at this
          rw [harea2] at harea
          omega
      have hcell : (⟨R.min_row, R.min_column⟩ : Position) ∈ R.positions := by
        rw [Rectangle.mem_positions]
        dsimp only
        have h1 := hwh.1
        have h2 := hwh.2
        unfold Rectangle.height at h1
        unfold Rectangle.width at h2
        refine ⟨le_refl _, by omega, le_refl _, by omega⟩
      have hcellP : (⟨R.min_row, R.min_column⟩ : Position) ∈ P := hinv.1 _ hcell
      have hcard2 : (P \ R.positions.toFinset).card ≤ fuel := by
        have hss : P \ R.positions.toFinset ⊂ P := by
          rw [Finset.ssubset_iff_of_subset (Finset.sdiff_subset)]
          refine ⟨⟨R.min_row, R.min_column⟩, hcellP, ?_⟩
          rw [Finset.mem_sdiff]
          push_neg
          intro _
          rw [List.mem_toFinset]
          exact hcell
        have := Finset.card_lt_card hss
        omega
      obtain ⟨ihsub, ihcov, ihpw⟩ := ih (P \ R.positions.toFinset) hcard2
      refine ⟨?_, ?_, ?_⟩
      · intro r hr p hp
        rcases List.mem_append.mp hr with hr | hr
        · exact (Finset.mem_sdiff.mp (ihsub r hr p hp)).1
        · rw [List.mem_singleton] at hr
          subst hr
          exact hinv.1 p hp
      · intro p
        constructor
        · intro hp
          by_cases hpR : p ∈ R.positions
          · exact ⟨R, List.mem_append_right _ (List.mem_singleton_self R), hpR⟩
          · have : p ∈ P \ R.positions.toFinset := by
              rw [Finset.mem_sdiff, List.mem_toFinset]
              exact ⟨hp, hpR⟩
            obtain ⟨r, hr, hpr⟩ := (ihcov p).mp this
            exact ⟨r, List.mem_append_left _ hr, hpr⟩
        · rintro ⟨r, hr, hpr⟩
          rcases List.mem_append.mp hr with hr | hr
          · exact (Finset.mem_sdiff.mp (ihsub r hr p hpr)).1
          · rw [List.mem_singleton] at hr
            subst hr
            exact hinv.1 p hpr
      · rw [List.pairwise_append]
        refine ⟨ihpw, List.pairwise_singleton _ _, ?_⟩
        intro r hr r' hr'
        rw [List.mem_singleton] at hr'
        subst hr'
        intro p hp
        have := Finset.mem_sdiff.mp (ihsub r hr p hp)
        rw [List.mem_toFinset] at this
        exact this.2
    · have hdef : Galaxy.rectangles_internal (fuel + 1) P =
          if h : P.Nonempty then
            Galaxy.rectangles_internal fuel
                (P \ (Galaxy.maxRectangle P
                  ((P.image Position.row).min' (h.image Position.row))
                  ((P.image Position.row).max' (h.image Position.row) + 1)
                  ((P.image Position.column).min' (h.image Position.column))
                  ((P.image Position.column).max' (h.image Position.column) +
                    1)).positions.toFinset) ++
              [Galaxy.maxRectangle P
                ((P.image Position.row).min' (h.image Position.row))
                ((P.image Position.row).max' (h.image Position.row) + 1)
                ((P.image Position.column).min' (h.image Position.column))
                ((P.image Position.column).max' (h.image Position.column) + 1)]
          else [] := rfl
      rw [hdef, dif_neg hne]
      have hP : P = ∅ := Finset.not_nonempty_iff_eq_empty.mp hne
      subst hP
      refine ⟨?_, ?_, List.Pairwise.nil⟩
      · intro r hr
        simp at hr
      · intro p
        simp

/-- Claim C5 (confirmed): for every galaxy, the rectangles returned by
`rectangles()` are pairwise disjoint as cell sets and the union of their cells
is exactly the galaxy's cell set. -/
theorem C5_rectangles_partition (g : Galaxy) :
    List.Pairwise (fun r₁ r₂ => ∀ p, p ∈ r₁.positions → p ∉ r₂.positions) g.rectangles ∧
      ∀ p : Position, p ∈ g.positions ↔ ∃ r ∈ g.rectangles, p ∈ r.positions := by
  obtain ⟨_, hcov, hpw⟩ :=
    Galaxy.rectangles_internal_spec g.positions.card g.positions (le_refl _)
  exact ⟨hpw, hcov⟩

/-! ## C2 — round-trip: boards induced by valid universes verify cleanly -/

theorem Universe.getGalaxiesAux_cover (U : Universe) :
    ∀ (fuel : Nat) (remaining : Finset Position), remaining.card ≤ fuel →
      (∀ p ∈ remaining, (U.get_galaxy p).positions ⊆ remaining) →
      (∀ p ∈ remaining, U.get_galaxy p ∈ U.getGalaxiesAux fuel remaining) ∧
        (∀ g ∈ U.getGalaxiesAux fuel remaining, ∀ q ∈ g.positions, U.get_galaxy q = g) := by
  intro fuel
  induction fuel with
  | zero =>
    intro remaining hcard _
    have hrem : remaining = ∅ := Finset.card_eq_zero.mp (by omega)
    subst hrem
    constructor
    · intro p hp
      simp at hp
    · intro g hg
      simp [Universe.getGalaxiesAux] at hg
  | succ fuel ih =>
    intro remaining hcard hinv
    by_cases h : remaining.Nonempty
    · have hstep := U.getGalaxiesAux_succ fuel remaining h
      set p0 := remaining.min' h with hp0
      set galaxy := U.get_galaxy p0 with hgal
      have hp0mem : p0 ∈ remaining := remaining.min'_mem h
      have hgsub : galaxy.positions ⊆ remaining := hinv p0 hp0mem
      have hinv2 : ∀ q ∈ remaining \ galaxy.positions,
          (U.get_galaxy q).positions ⊆ remaining \ galaxy.positions := by
        intro q hq
        rw [Finset.mem_sdiff] at hq
        intro x hx
        rw [Finset.mem_sdiff]
        refine ⟨hinv q hq.1 hx, ?_⟩
        intro hxg
        apply hq.2
        have h1 : U.get_galaxy x = U.get_galaxy q := Universe.get_galaxy_eq_of_mem hx
        have h2 : U.get_galaxy x = U.get_galaxy p0 := Universe.get_galaxy_eq_of_mem hxg
        rw [hgal, ← h2, h1]
        exact Universe.self_mem_get_galaxy U q
      have hcard2 : (remaining \ galaxy.positions).card ≤ fuel := by
        have hss : remaining \ galaxy.positions ⊂ remaining := by
          rw [Finset.ssubset_iff_of_subset (Finset.sdiff_subset)]
          refine ⟨p0, hp0mem, ?_⟩
          rw [Finset.mem_sdiff]
          push_neg
          intro _
          rw [hgal]
          exact Universe.self_mem_get_galaxy U p0
        have := Finset.card_lt_card hss
        omega
      obtain ⟨ihcov, ihcomp⟩ := ih (remaining \ galaxy.positions) hcard2 hinv2
      rw [hstep]
      constructor
      · intro q hq
        by_cases hqg : q ∈ galaxy.positions
        · exact List.mem_cons.mpr (Or.inl (Universe.get_galaxy_eq_of_mem hqg))
        · refine List.mem_cons.mpr (Or.inr (ihcov q ?_))
          rw [Finset.mem_sdiff]
          exact ⟨hq, hqg⟩
      · intro g hg q hq
        rcases List.mem_cons.mp hg with rfl | hg
        · exact Universe.get_galaxy_eq_of_mem hq
        · exact ihcomp g hg q hq
    · rw [U.getGalaxiesAux_of_empty (fuel + 1) remaining h]
      constructor
      · intro p hp
        exact absurd ⟨p, hp⟩ h
      · intro g hg
        simp at hg

theorem Universe.get_galaxies_cover (U : Universe) (hwf : U.edges_in_grid) :
    (∀ p ∈ gridFinset U.width U.height, U.get_galaxy p ∈ U.get_galaxies) ∧
      (∀ g ∈ U.get_galaxies, ∀ q ∈ g.positions, U.get_galaxy q = g) :=
  U.getGalaxiesAux_cover _ _ (le_refl _)
    (fun _ hp => Universe.get_galaxy_subset_grid hwf hp)

theorem boardOfUniverse_contains {U : Universe} {p : Position} :
    (boardOfUniverse U).contains p ↔ p ∈ gridFinset U.width U.height := by
  rw [mem_gridFinset]
  exact Iff.rfl

theorem boardOfUniverse_is_wall {U : Universe} {x y : Position} :
    (boardOfUniverse U).is_wall x y ↔
      x ∈ gridFinset U.width U.height ∧ y ∈ gridFinset U.width U.height ∧
        x.isAdjacentTo y ∧ y ∉ (U.get_galaxy x).positions := by
  show (x, y) ∈ (boardOfUniverse U).graph ∨ (y, x) ∈ (boardOfUniverse U).graph ↔ _
  unfold boardOfUniverse
  simp only [Finset.mem_filter, Finset.mem_product]
  constructor
  · rintro (⟨⟨hx, hy⟩, hadj, hng⟩ | ⟨⟨hy, hx⟩, hadj, hng⟩)
    · exact ⟨hx, hy, hadj, hng⟩
    · refine ⟨hx, hy, Position.isAdjacentTo_comm.mp hadj, ?_⟩
      intro hmem
      exact hng (Universe.mem_get_galaxy_symm hmem)
  · rintro ⟨hx, hy, hadj, hng⟩
    exact Or.inl ⟨⟨hx, hy⟩, hadj, hng⟩

theorem not_wall_of_same_galaxy {U : Universe} {x y : Position}
    (h : y ∈ (U.get_galaxy x).positions) : ¬(boardOfUniverse U).is_wall x y := by
  rw [boardOfUniverse_is_wall]
  rintro ⟨_, _, _, hng⟩
  exact hng h

theorem same_galaxy_of_not_wall {U : Universe} {x y : Position}
    (hx : x ∈ gridFinset U.width U.height) (hy : y ∈ gridFinset U.width U.height)
    (hadj : x.isAdjacentTo y) (h : ¬(boardOfUniverse U).is_wall x y) :
    y ∈ (U.get_galaxy x).positions := by
  by_contra hng
  exact h (boardOfUniverse_is_wall.mpr ⟨hx, hy, hadj, hng⟩)

theorem mem_boardNbrs_boardOfUniverse {U : Universe} {x y : Position} :
    y ∈ (boardOfUniverse U).boardNbrs x ↔
      x.isAdjacentTo y ∧ y ∈ gridFinset U.width U.height ∧
        ¬(boardOfUniverse U).is_wall x y := by
  unfold Board.boardNbrs
  rw [Finset.mem_filter, List.mem_toFinset, ← Position.isAdjacentTo_iff_mem_adjacent,
    boardOfUniverse_contains]

theorem boardNbrs_subset_grid_boardOfUniverse (U : Universe) (x : Position) :
    (boardOfUniverse U).boardNbrs x ⊆ gridFinset U.width U.height := by
  intro y hy
  exact (mem_boardNbrs_boardOfUniverse.mp hy).2.1

theorem boardNbrs_symm_boardOfUniverse {U : Universe} {x y : Position}
    (hx : x ∈ gridFinset U.width U.height)
    (hy : y ∈ (boardOfUniverse U).boardNbrs x) :
    x ∈ (boardOfUniverse U).boardNbrs y := by
  rw [mem_boardNbrs_boardOfUniverse] at hy ⊢
  obtain ⟨hadj, hgy, hnw⟩ := hy
  refine ⟨Position.isAdjacentTo_comm.mp hadj, hx, ?_⟩
  intro hw
  apply hnw
  rw [boardOfUniverse_is_wall] at hw ⊢
  obtain ⟨h1, h2, h3, h4⟩ := hw
  exact ⟨h2, h1, Position.isAdjacentTo_comm.mp h3,
    fun hm => h4 (Universe.mem_get_galaxy_symm hm)⟩

theorem boardReach_symm {U : Universe} {a b : Position}
    (ha : a ∈ gridFinset U.width U.height)
    (h : Relation.ReflTransGen (fun x y => y ∈ (boardOfUniverse U).boardNbrs x) a b) :
    b ∈ gridFinset U.width U.height ∧
      Relation.ReflTransGen (fun x y => y ∈ (boardOfUniverse U).boardNbrs x) b a := by
  induction h with
  | refl => exact ⟨ha, Relation.ReflTransGen.refl⟩
  | tail h1 h2 ih =>
    obtain ⟨hb, hrev⟩ := ih
    refine ⟨(mem_boardNbrs_boardOfUniverse.mp h2).2.1, ?_⟩
    exact Relation.ReflTransGen.head (boardNbrs_symm_boardOfUniverse hb h2) hrev

theorem boardReach_within_galaxy {U : Universe} (hwf : U.edges_in_grid) {p : Position}
    (hp : p ∈ gridFinset U.width U.height) {a q : Position}
    (ha : a ∈ (U.get_galaxy p).positions)
    (h : Relation.ReflTransGen
      (fun x y => y ∈ Galaxy.adjNbrsIn (U.get_galaxy p).positions x) a q) :
    q ∈ (U.get_galaxy p).positions ∧
      Relation.ReflTransGen (fun x y => y ∈ (boardOfUniverse U).boardNbrs x) a q := by
  induction h with
  | refl => exact ⟨ha, Relation.ReflTransGen.refl⟩
  | tail h1 h2 ih =>
    rename_i b c
    obtain ⟨hb, hrtg⟩ := ih
    have h2' := Finset.mem_filter.mp h2
    have hcs := h2'.1
    have hadj := Position.isAdjacentTo_iff_mem_adjacent.mpr h2'.2
    have hcg : c ∈ (U.get_galaxy b).positions := by
      rw [Universe.get_galaxy_eq_of_mem hb]
      exact hcs
    refine ⟨hcs, Relation.ReflTransGen.tail hrtg ?_⟩
    rw [mem_boardNbrs_boardOfUniverse]
    exact ⟨hadj, Universe.get_galaxy_subset_grid hwf hp hcs, not_wall_of_same_galaxy hcg⟩

theorem componentOf_boardOfUniverse {U : Universe} (hwf : U.edges_in_grid)
    {p : Position} (hp : p ∈ gridFinset U.width U.height)
    (hconn : (U.get_galaxy p).is_connected) :
    (boardOfUniverse U).componentOf p = (U.get_galaxy p).positions := by
  have hsgrid : (U.get_galaxy p).positions ⊆ gridFinset U.width U.height :=
    Universe.get_galaxy_subset_grid hwf hp
  have hps : p ∈ (U.get_galaxy p).positions := Universe.self_mem_get_galaxy U p
  have hmem_comp : ∀ q, q ∈ (boardOfUniverse U).componentOf p ↔
      Relation.ReflTransGen (fun x y => y ∈ (boardOfUniverse U).boardNbrs x) p q := by
    intro q
    unfold Board.componentOf
    exact mem_closureIter_iff (boardNbrs_subset_grid_boardOfUniverse U)
      (by rw [Finset.insert_eq]; exact Nat.le_refl _)
  apply Finset.Subset.antisymm
  · have hclosed : IsClosed ((boardOfUniverse U).boardNbrs) (U.get_galaxy p).positions := by
      intro x hx y hy
      rw [mem_boardNbrs_boardOfUniverse] at hy
      obtain ⟨hadj, hyg, hnw⟩ := hy
      have hsame := same_galaxy_of_not_wall (hsgrid hx) hyg hadj hnw
      rw [Universe.get_galaxy_eq_of_mem hx] at hsame
      exact hsame
    exact closureIter_subset_closed (Finset.singleton_subset_iff.mpr hps) hclosed _
  · intro q hq
    rw [hmem_comp q]
    have hne : (U.get_galaxy p).positions.Nonempty := ⟨p, hps⟩
    unfold Galaxy.is_connected at hconn
    rw [dif_pos hne] at hconn
    set m := (U.get_galaxy p).positions.min' hne with hmdef
    have hms : m ∈ (U.get_galaxy p).positions := Finset.min'_mem _ _
    have hcsub : ∀ z, Galaxy.adjNbrsIn (U.get_galaxy p).positions z ⊆
        (U.get_galaxy p).positions := fun _ => Finset.filter_subset _ _
    have hn2 : ({m} ∪ (U.get_galaxy p).positions).card ≤
        (U.get_galaxy p).positions.card + 1 := by
      have hins : ({m} ∪ (U.get_galaxy p).positions) = (U.get_galaxy p).positions := by
        rw [← Finset.insert_eq, Finset.insert_eq_self]
        exact hms
      rw [hins]
      omega
    have hreach : ∀ x ∈ (U.get_galaxy p).positions,
        Relation.ReflTransGen
          (fun a b => b ∈ Galaxy.adjNbrsIn (U.get_galaxy p).positions a) m x := by
      intro x hx
      have hx2 := hconn hx
      unfold Galaxy.reachIn at hx2
      exact (@mem_closureIter_iff (Galaxy.adjNbrsIn (U.get_galaxy p).positions)
        (U.get_galaxy p).positions hcsub m x
        ((U.get_galaxy p).positions.card + 1) hn2).mp hx2
    have hmq := boardReach_within_galaxy hwf hp hms (hreach q hq)
    have hmp := boardReach_within_galaxy hwf hp hms (hreach p hps)
    have hpm := boardReach_symm (hsgrid hms) hmp.2
    exact Relation.ReflTransGen.trans hpm.2 hmq.2

theorem Board.boardGalaxiesAux_succ (B : Board) (fuel : Nat) (remaining : Finset Position)
    (h : remaining.Nonempty) :
    B.getGalaxiesAux (fuel + 1) remaining =
      (⟨B.componentOf (remaining.min' h)⟩ : Galaxy) ::
        B.getGalaxiesAux fuel (remaining \ B.componentOf (remaining.min' h)) := by
  have hdef : B.getGalaxiesAux (fuel + 1) remaining =
      if h : remaining.Nonempty then
        (⟨B.componentOf (remaining.min' h)⟩ : Galaxy) ::
          B.getGalaxiesAux fuel (remaining \ B.componentOf (remaining.min' h))
      else [] := rfl
  rw [hdef, dif_pos h]

theorem Board.boardGalaxiesAux_of_empty (B : Board) (fuel : Nat)
    (remaining : Finset Position) (h : ¬remaining.Nonempty) :
    B.getGalaxiesAux fuel remaining = [] := by
  cases fuel with
  | zero => rfl
  | succ fuel =>
    have hdef : B.getGalaxiesAux (fuel + 1) remaining =
        if h : remaining.Nonempty then
          (⟨B.componentOf (remaining.min' h)⟩ : Galaxy) ::
            B.getGalaxiesAux fuel (remaining \ B.componentOf (remaining.min' h))
        else [] := rfl
    rw [hdef, dif_neg h]

theorem board_getGalaxiesAux_eq {U : Universe} (hwf : U.edges_in_grid)
    (hval : U.is_valid) :
    ∀ (fuel : Nat) (remaining : Finset Position),
      remaining ⊆ gridFinset U.width U.height →
      (∀ p ∈ remaining, (U.get_galaxy p).positions ⊆ remaining) →
      (boardOfUniverse U).getGalaxiesAux fuel remaining =
        U.getGalaxiesAux fuel remaining := by
  intro fuel
  induction fuel with
  | zero =>
    intro remaining _ _
    rfl
  | succ fuel ih =>
    intro remaining hgrid hinv
    by_cases h : remaining.Nonempty
    · set p0 := remaining.min' h with hp0
      have hp0mem : p0 ∈ remaining := remaining.min'_mem h
      have hp0grid : p0 ∈ gridFinset U.width U.height := hgrid hp0mem
      have hgal : U.get_galaxy p0 ∈ U.get_galaxies :=
        (U.get_galaxies_cover hwf).1 p0 hp0grid
      have hconn : (U.get_galaxy p0).is_connected := (hval _ hgal).2.2.1
      have hcomp := componentOf_boardOfUniverse hwf hp0grid hconn
      rw [Board.boardGalaxiesAux_succ _ fuel remaining h,
        U.getGalaxiesAux_succ fuel remaining h, hcomp]
      refine List.cons_eq_cons.mpr ⟨rfl, ?_⟩
      have hinv2 : ∀ q ∈ remaining \ (U.get_galaxy p0).positions,
          (U.get_galaxy q).positions ⊆ remaining \ (U.get_galaxy p0).positions := by
        intro q hq
        rw [Finset.mem_sdiff] at hq
        intro x hx
        rw [Finset.mem_sdiff]
        refine ⟨hinv q hq.1 hx, ?_⟩
        intro hxg
        apply hq.2
        have h1 : U.get_galaxy x = U.get_galaxy q := Universe.get_galaxy_eq_of_mem hx
        have h2 : U.get_galaxy x = U.get_galaxy p0 := Universe.get_galaxy_eq_of_mem hxg
        rw [← h2, h1]
        exact Universe.self_mem_get_galaxy U q
      exact ih (remaining \ (U.get_galaxy p0).positions)
        (Finset.Subset.trans (Finset.sdiff_subset) hgrid) hinv2
    · rw [Board.boardGalaxiesAux_of_empty _ (fuel + 1) remaining h,
        U.getGalaxiesAux_of_empty (fuel + 1) remaining h]

theorem board_get_galaxies_eq {U : Universe} (hwf : U.edges_in_grid)
    (hval : U.is_valid) :
    (boardOfUniverse U).get_galaxies = U.get_galaxies := by
  unfold Board.get_galaxies Universe.get_galaxies
  exact board_getGalaxiesAux_eq hwf hval _ _ (Finset.Subset.refl _)
    (fun _ hp => Universe.get_galaxy_subset_grid hwf hp)

theorem Border.new_of_le {p1 p2 : Position} (h : p1 ≤ p2) :
    Border.new p1 p2 = ⟨p1, p2⟩ := by
  unfold Border.new
  rw [if_pos h]

theorem get_center_placement_eq (p : Position) :
    p.get_center_placement =
      if p.row.tmod 2 = 0 then
        if p.column.tmod 2 = 0 then
          CenterPlacement.Center ⟨p.row.tdiv 2, p.column.tdiv 2⟩
        else
          CenterPlacement.VerticalBorder
            ⟨⟨p.row.tdiv 2, p.column.tdiv 2⟩, ⟨p.row.tdiv 2, p.column.tdiv 2 + 1⟩⟩
      else
        if p.column.tmod 2 = 0 then
          CenterPlacement.HorizontalBorder
            ⟨⟨p.row.tdiv 2, p.column.tdiv 2⟩, ⟨p.row.tdiv 2 + 1, p.column.tdiv 2⟩⟩
        else
          CenterPlacement.Intersection
            ⟨p.row.tdiv 2, p.row.tdiv 2 + 1, p.column.tdiv 2, p.column.tdiv 2 + 1⟩ := by
  have hle1 : (⟨p.row.tdiv 2, p.column.tdiv 2⟩ : Position) ≤
      ⟨p.row.tdiv 2, p.column.tdiv 2 + 1⟩ := by
    rw [Position.le_iff]
    right
    constructor
    · rfl
    · dsimp only
      omega
  have hle2 : (⟨p.row.tdiv 2, p.column.tdiv 2⟩ : Position) ≤
      ⟨p.row.tdiv 2 + 1, p.column.tdiv 2⟩ := by
    rw [Position.le_iff]
    left
    dsimp only
    omega
  unfold Position.get_center_placement
  dsimp only
  rw [Border.new_of_le hle1, Border.new_of_le hle2]

theorem probePosition_center (c : Position) :
    probePosition c = ⟨c.row.tdiv 2, c.column.tdiv 2⟩ := by
  unfold probePosition
  rw [get_center_placement_eq]
  by_cases h1 : c.row.tmod 2 = 0 <;> by_cases h2 : c.column.tmod 2 = 0
  · rw [if_pos h1, if_pos h2]
  · rw [if_pos h1, if_neg h2]
  · rw [if_neg h1, if_pos h2]
  · rw [if_neg h1, if_neg h2]
    rfl

theorem probe_mem_of_center_contained {g : Galaxy} (hcc : g.contains_center) :
    probePosition g.center ∈ g.positions := by
  rw [probePosition_center]
  unfold Galaxy.contains_center at hcc
  dsimp only at hcc
  refine hcc _ ?_ _ ?_
  · split <;> simp
  · split <;> simp

theorem findGalaxy_eq {gs : List Galaxy} {g : Galaxy} {p : Position}
    (hg : g ∈ gs) (hp : p ∈ g.positions)
    (huniq : ∀ g' ∈ gs, p ∈ g'.positions → g' = g) :
    findGalaxy gs p = some g := by
  unfold findGalaxy
  cases hf : gs.find? (fun g' => decide (p ∈ g'.positions)) with
  | none =>
    exfalso
    have := List.find?_eq_none.mp hf g hg
    simp at this
    exact this hp
  | some g' =>
    have hmem := List.mem_of_find?_eq_some hf
    have hpred := List.find?_some hf
    rw [decide_eq_true_eq] at hpred
    rw [huniq g' hmem hpred]

theorem insertAssoc_good {gs : List Galaxy} {m : List (Position × Galaxy)} {k : Position}
    {v : Galaxy}
    (hm : ∀ e ∈ m, findGalaxy gs (probePosition e.1) = some e.2)
    (hv : findGalaxy gs (probePosition k) = some v) :
    ∀ e ∈ insertAssoc m k v, findGalaxy gs (probePosition e.1) = some e.2 := by
  intro e he
  unfold insertAssoc at he
  split at he
  · rw [List.mem_map] at he
    obtain ⟨e', he', heq⟩ := he
    by_cases hk : e'.1 = k
    · rw [if_pos hk] at heq
      subst heq
      exact hv
    · rw [if_neg hk] at heq
      subst heq
      exact hm e' he'
  · rw [List.mem_append] at he
    rcases he with he | he
    · exact hm e he
    · rw [List.mem_singleton] at he
      subst he
      exact hv

theorem insertAssoc_mem_self (m : List (Position × Galaxy)) (k : Position) (v : Galaxy) :
    (k, v) ∈ insertAssoc m k v := by
  unfold insertAssoc
  split
  · rename_i hany
    rw [List.any_eq_true] at hany
    obtain ⟨e, he, hk⟩ := hany
    rw [decide_eq_true_eq] at hk
    rw [List.mem_map]
    refine ⟨e, he, ?_⟩
    rw [if_pos hk]
  · exact List.mem_append_right _ (List.mem_singleton_self _)

theorem insertAssoc_mem_mono {m : List (Position × Galaxy)} {kx : Position}
    (hkx : ∃ v', (kx, v') ∈ m) (k : Position) (v : Galaxy) :
    ∃ v', (kx, v') ∈ insertAssoc m k v := by
  obtain ⟨v0, hv0⟩ := hkx
  unfold insertAssoc
  split
  · by_cases hkk : kx = k
    · subst hkk
      refine ⟨v, ?_⟩
      rw [List.mem_map]
      refine ⟨(kx, v0), hv0, ?_⟩
      dsimp only
      rw [if_pos rfl]
    · refine ⟨v0, ?_⟩
      rw [List.mem_map]
      refine ⟨(kx, v0), hv0, ?_⟩
      dsimp only
      rw [if_neg hkk]
  · exact ⟨v0, List.mem_append_left _ hv0⟩

theorem gboc_fold_spec (gs : List Galaxy) :
    ∀ (cs : List GalaxyCenter) (m0 : List (Position × Galaxy)),
      (∀ gc ∈ cs, ∃ g, findGalaxy gs (probePosition gc.position) = some g) →
      (∀ e ∈ m0, findGalaxy gs (probePosition e.1) = some e.2) →
      ∃ m,
        cs.foldl
            (fun acc gc =>
              match acc with
              | none => none
              | some m =>
                match findGalaxy gs (probePosition gc.position) with
                | none => none
                | some g => some (insertAssoc m gc.position g))
            (some m0) = some m ∧
          (∀ e ∈ m, findGalaxy gs (probePosition e.1) = some e.2) ∧
          (∀ k, (∃ v, (k, v) ∈ m0) → ∃ v, (k, v) ∈ m) ∧
          (∀ gc ∈ cs, ∃ v, (gc.position, v) ∈ m) := by
  intro cs
  induction cs with
  | nil =>
    intro m0 _ hgood
    refine ⟨m0, rfl, hgood, fun k h => h, ?_⟩
    intro gc hgc
    simp at hgc
  | cons gc cs ihc =>
    intro m0 hprobe hgood
    obtain ⟨g, hg⟩ := hprobe gc (List.mem_cons_self gc cs)
    rw [List.foldl_cons]
    obtain ⟨m, hm, hmgood, hmmono, hmkeys⟩ := ihc (insertAssoc m0 gc.position g)
      (fun gc' h => hprobe gc' (List.mem_cons_of_mem _ h))
      (insertAssoc_good hgood hg)
    refine ⟨m, ?_, hmgood, ?_, ?_⟩
    · rw [show (match some m0 with
          | none => none
          | some m =>
            match findGalaxy gs (probePosition gc.position) with
            | none => none
            | some g => some (insertAssoc m gc.position g)) =
          some (insertAssoc m0 gc.position g) from by rw [hg]]
      exact hm
    · intro k hk
      exact hmmono k (insertAssoc_mem_mono hk _ _)
    · intro gc' hgc'
      rcases List.mem_cons.mp hgc' with rfl | hgc'
      · exact hmmono _ ⟨g, insertAssoc_mem_self _ _ _⟩
      · exact hmkeys gc' hgc'

theorem galaxyByObjectiveCenter_spec {gs : List Galaxy} {cs : List GalaxyCenter}
    (hprobe : ∀ gc ∈ cs, ∃ g, findGalaxy gs (probePosition gc.position) = some g) :
    ∃ m, galaxyByObjectiveCenter gs cs = some m ∧
      (∀ e ∈ m, findGalaxy gs (probePosition e.1) = some e.2) ∧
      (∀ gc ∈ cs, ∃ v, (gc.position, v) ∈ m) := by
  obtain ⟨m, hm, hgood, _, hkeys⟩ := gboc_fold_spec gs cs [] hprobe (by simp)
  exact ⟨m, hm, hgood, hkeys⟩

theorem lookupAssoc_eq {gs : List Galaxy} {m : List (Position × Galaxy)} {k : Position}
    (hgood : ∀ e ∈ m, findGalaxy gs (probePosition e.1) = some e.2)
    (hk : ∃ v, (k, v) ∈ m) :
    lookupAssoc m k = findGalaxy gs (probePosition k) := by
  obtain ⟨v0, hv0⟩ := hk
  unfold lookupAssoc
  cases hf : m.find? (fun e => decide (e.1 = k)) with
  | none =>
    exfalso
    have := List.find?_eq_none.mp hf (k, v0) hv0
    simp at this
  | some e =>
    have hmem := List.mem_of_find?_eq_some hf
    have hpred := List.find?_some hf
    rw [decide_eq_true_eq] at hpred
    have hge := hgood e hmem
    rw [hpred] at hge
    rw [hge]
    rfl

theorem mem_foldl_union {l : List Galaxy} {acc : Finset Position} {x : Position} :
    x ∈ l.foldl (fun acc g => acc ∪ g.positions) acc ↔
      x ∈ acc ∨ ∃ g ∈ l, x ∈ g.positions := by
  induction l generalizing acc with
  | nil => simp
  | cons g l ih =>
    rw [List.foldl_cons, ih]
    simp only [Finset.mem_union, List.mem_cons]
    constructor
    · rintro ((h | h) | ⟨g', hg', hx⟩)
      · exact Or.inl h
      · exact Or.inr ⟨g, Or.inl rfl, h⟩
      · exact Or.inr ⟨g', Or.inr hg', hx⟩
    · rintro (h | ⟨g', (rfl | hg'), hx⟩)
      · exact Or.inl (Or.inl h)
      · exact Or.inl (Or.inr hx)
      · exact Or.inr ⟨g', hg', hx⟩

theorem not_center_cut_of_galaxy {U : Universe} {g : Galaxy}
    (hcc : g.contains_center)
    (hgal : ∀ q ∈ g.positions, U.get_galaxy q = g) :
    ¬(boardOfUniverse U).is_center_cut g.center := by
  intro hcut
  unfold Galaxy.contains_center at hcc
  dsimp only at hcc
  unfold Board.is_center_cut at hcut
  rw [get_center_placement_eq] at hcut
  set r1 := (g.center).row.tdiv 2 with hr1
  set c1 := (g.center).column.tdiv 2 with hc1
  by_cases h1 : (g.center).row.tmod 2 = 0 <;> by_cases h2 : (g.center).column.tmod 2 = 0
  · rw [if_pos h1, if_pos h2] at hcut
    dsimp only at hcut
  · rw [if_pos h1, if_neg h2] at hcut
    dsimp only at hcut
    unfold Board.is_active at hcut
    dsimp only at hcut
    have hma : (⟨r1, c1⟩ : Position) ∈ g.positions :=
      hcc r1 (by split <;> simp) c1 (by split <;> simp)
    have hmb : (⟨r1, c1 + 1⟩ : Position) ∈ g.positions :=
      hcc r1 (by split <;> simp) (c1 + 1) (by rw [if_neg h2]; simp)
    have hsame : (⟨r1, c1 + 1⟩ : Position) ∈ (U.get_galaxy ⟨r1, c1⟩).positions := by
      rw [hgal _ hma]
      exact hmb
    exact not_wall_of_same_galaxy hsame hcut
  · rw [if_neg h1, if_pos h2] at hcut
    dsimp only at hcut
    unfold Board.is_active at hcut
    dsimp only at hcut
    have hma : (⟨r1, c1⟩ : Position) ∈ g.positions :=
      hcc r1 (by split <;> simp) c1 (by split <;> simp)
    have hmb : (⟨r1 + 1, c1⟩ : Position) ∈ g.positions :=
      hcc (r1 + 1) (by rw [if_neg h1]; simp) c1 (by split <;> simp)
    have hsame : (⟨r1 + 1, c1⟩ : Position) ∈ (U.get_galaxy ⟨r1, c1⟩).positions := by
      rw [hgal _ hma]
      exact hmb
    exact not_wall_of_same_galaxy hsame hcut
  · rw [if_neg h1, if_neg h2] at hcut
    dsimp only at hcut
    have hmtl : (⟨r1, c1⟩ : Position) ∈ g.positions :=
      hcc r1 (by split <;> simp) c1 (by split <;> simp)
    have hmtr : (⟨r1, c1 + 1⟩ : Position) ∈ g.positions :=
      hcc r1 (by split <;> simp) (c1 + 1) (by rw [if_neg h2]; simp)
    have hmbl : (⟨r1 + 1, c1⟩ : Position) ∈ g.positions :=
      hcc (r1 + 1) (by rw [if_neg h1]; simp) c1 (by split <;> simp)
    have hmbr : (⟨r1 + 1, c1 + 1⟩ : Position) ∈ g.positions :=
      hcc (r1 + 1) (by rw [if_neg h1]; simp) (c1 + 1) (by rw [if_neg h2]; simp)
    rcases hcut with hw | hw | hw | hw
    · refine not_wall_of_same_galaxy ?_ hw
      rw [hgal _ hmtl]
      exact hmtr
    · refine not_wall_of_same_galaxy ?_ hw
      rw [hgal _ hmtr]
      exact hmbr
    · refine not_wall_of_same_galaxy ?_ hw
      rw [hgal _ hmbr]
      exact hmbl
    · refine not_wall_of_same_galaxy ?_ hw
      rw [hgal _ hmtl]
      exact hmbl

theorem boardOfUniverse_no_dangling_core {U : Universe} {p1 p2 : Position}
    (hle : p1 ≤ p2) (hg1 : p1 ∈ gridFinset U.width U.height)
    (hg2 : p2 ∈ gridFinset U.width U.height) (hadj : p1.isAdjacentTo p2)
    (hng : p2 ∉ (U.get_galaxy p1).positions) :
    ¬(boardOfUniverse U).is_dangling ⟨p1, p2⟩ := by
  intro hd
  obtain ⟨r, c⟩ := p1
  obtain ⟨r', c'⟩ := p2
  rw [Position.le_iff] at hle
  unfold Position.isAdjacentTo at hadj
  rw [mem_gridFinset] at hg1 hg2
  dsimp only at hle hadj hg1 hg2
  have hbh : (((boardOfUniverse U).height : Nat) : Int) = ((U.height : Nat) : Int) := rfl
  have hbw : (((boardOfUniverse U).width : Nat) : Int) = ((U.width : Nat) : Int) := rfl
  unfold Board.is_dangling at hd
  dsimp only at hd
  by_cases hv : (⟨⟨r, c⟩, ⟨r', c'⟩⟩ : Border).is_vertical
  · rw [if_pos hv] at hd
    have hv' : r = r' := hv
    subst hv'
    have hcol : c' = c + 1 := by omega
    subst hcol
    simp only [Position.up, Position.down] at hd
    rcases hd with ⟨hr0, hw1, hw2, hw3⟩ | ⟨hrh, hw1, hw2, hw3⟩
    · have hga : (⟨r, c⟩ : Position) ∈ gridFinset U.width U.height := by
        rw [mem_gridFinset]
        dsimp only
        omega
      have hgb : (⟨r, c + 1⟩ : Position) ∈ gridFinset U.width U.height := by
        rw [mem_gridFinset]
        dsimp only
        omega
      have hgau : (⟨r - 1, c⟩ : Position) ∈ gridFinset U.width U.height := by
        rw [mem_gridFinset]
        dsimp only
        omega
      have hgbu : (⟨r - 1, c + 1⟩ : Position) ∈ gridFinset U.width U.height := by
        rw [mem_gridFinset]
        dsimp only
        omega
      have s1 : (⟨r - 1, c⟩ : Position) ∈ (U.get_galaxy ⟨r, c⟩).positions :=
        same_galaxy_of_not_wall hga hgau
          (by unfold Position.isAdjacentTo; dsimp only; omega) hw1
      have s2 : (⟨r - 1, c + 1⟩ : Position) ∈ (U.get_galaxy ⟨r - 1, c⟩).positions :=
        same_galaxy_of_not_wall hgau hgbu
          (by unfold Position.isAdjacentTo; dsimp only; omega) hw2
      have s3 : (⟨r, c + 1⟩ : Position) ∈ (U.get_galaxy ⟨r - 1, c + 1⟩).positions :=
        same_galaxy_of_not_wall hgbu hgb
          (by unfold Position.isAdjacentTo; dsimp only; omega) hw3
      rw [Universe.get_galaxy_eq_of_mem s1] at s2
      rw [Universe.get_galaxy_eq_of_mem s2] at s3
      exact hng s3
    · have hga : (⟨r, c⟩ : Position) ∈ gridFinset U.width U.height := by
        rw [mem_gridFinset]
        dsimp only
        omega
      have hgb : (⟨r, c + 1⟩ : Position) ∈ gridFinset U.width U.height := by
        rw [mem_gridFinset]
        dsimp only
        omega
      have hgad : (⟨r + 1, c⟩ : Position) ∈ gridFinset U.width U.height := by
        rw [mem_gridFinset]
        dsimp only
        omega
      have hgbd : (⟨r + 1, c + 1⟩ : Position) ∈ gridFinset U.width U.height := by
        rw [mem_gridFinset]
        dsimp only
        omega
      have s1 : (⟨r + 1, c⟩ : Position) ∈ (U.get_galaxy ⟨r, c⟩).positions :=
        same_galaxy_of_not_wall hga hgad
          (by unfold Position.isAdjacentTo; dsimp only; omega) hw1
      have s2 : (⟨r + 1, c + 1⟩ : Position) ∈ (U.get_galaxy ⟨r + 1, c⟩).positions :=
        same_galaxy_of_not_wall hgad hgbd
          (by unfold Position.isAdjacentTo; dsimp only; omega) hw2
      have s3 : (⟨r, c + 1⟩ : Position) ∈ (U.get_galaxy ⟨r + 1, c + 1⟩).positions :=
        same_galaxy_of_not_wall hgbd hgb
          (by unfold Position.isAdjacentTo; dsimp only; omega) hw3
      rw [Universe.get_galaxy_eq_of_mem s1] at s2
      rw [Universe.get_galaxy_eq_of_mem s2] at s3
      exact hng s3
  · rw [if_neg hv] at hd
    have hv' : ¬(r = r') := hv
    have hrow : r' = r + 1 := by omega
    subst hrow
    have hcc : c = c' := by omega
    subst hcc
    simp only [Position.left, Position.right] at hd
    rcases hd with ⟨hc0, hw1, hw2, hw3⟩ | ⟨hcw, hw1, hw2, hw3⟩
    · have hga : (⟨r, c⟩ : Position) ∈ gridFinset U.width U.height := by
        rw [mem_gridFinset]
        dsimp only
        omega
      have hgb : (⟨r + 1, c⟩ : Position) ∈ gridFinset U.width U.height := by
        rw [mem_gridFinset]
        dsimp only
        omega
      have hgal2 : (⟨r, c - 1⟩ : Position) ∈ gridFinset U.width U.height := by
        rw [mem_gridFinset]
        dsimp only
        omega
      have hgbl : (⟨r + 1, c - 1⟩ : Position) ∈ gridFinset U.width U.height := by
        rw [mem_gridFinset]
        dsimp only
        omega
      have s1 : (⟨r, c - 1⟩ : Position) ∈ (U.get_galaxy ⟨r, c⟩).positions :=
        same_galaxy_of_not_wall hga hgal2
          (by unfold Position.isAdjacentTo; dsimp only; omega) hw1
      have s2 : (⟨r + 1, c - 1⟩ : Position) ∈ (U.get_galaxy ⟨r, c - 1⟩).positions :=
        same_galaxy_of_not_wall hgal2 hgbl
          (by unfold Position.isAdjacentTo; dsimp only; omega) hw2
      have s3 : (⟨r + 1, c⟩ : Position) ∈ (U.get_galaxy ⟨r + 1, c - 1⟩).positions :=
        same_galaxy_of_not_wall hgbl hgb
          (by unfold Position.isAdjacentTo; dsimp only; omega) hw3
      rw [Universe.get_galaxy_eq_of_mem s1] at s2
      rw [Universe.get_galaxy_eq_of_mem s2] at s3
      exact hng s3
    · have hga : (⟨r, c⟩ : Position) ∈ gridFinset U.width U.height := by
        rw [mem_gridFinset]
        dsimp only
        omega
      have hgb : (⟨r + 1, c⟩ : Position) ∈ gridFinset U.width U.height := by
        rw [mem_gridFinset]
        dsimp only
        omega
      have hgar : (⟨r, c + 1⟩ : Position) ∈ gridFinset U.width U.height := by
        rw [mem_gridFinset]
        dsimp only
        omega
      have hgbr : (⟨r + 1, c + 1⟩ : Position) ∈ gridFinset U.width U.height := by
        rw [mem_gridFinset]
        dsimp only
        omega
      have s1 : (⟨r, c + 1⟩ : Position) ∈ (U.get_galaxy ⟨r, c⟩).positions :=
        same_galaxy_of_not_wall hga hgar
          (by unfold Position.isAdjacentTo; dsimp only; omega) hw1
      have s2 : (⟨r + 1, c + 1⟩ : Position) ∈ (U.get_galaxy ⟨r, c + 1⟩).positions :=
        same_galaxy_of_not_wall hgar hgbr
          (by unfold Position.isAdjacentTo; dsimp only; omega) hw2
      have s3 : (⟨r + 1, c⟩ : Position) ∈ (U.get_galaxy ⟨r + 1, c + 1⟩).positions :=
        same_galaxy_of_not_wall hgbr hgb
          (by unfold Position.isAdjacentTo; dsimp only; omega) hw3
      rw [Universe.get_galaxy_eq_of_mem s1] at s2
      rw [Universe.get_galaxy_eq_of_mem s2] at s3
      exact hng s3

theorem dangling_empty (U : Universe) :
    (boardOfUniverse U).get_dangling_borders = ∅ := by
  unfold Board.get_dangling_borders
  rw [Finset.filter_eq_empty_iff]
  intro b hb
  unfold Board.get_borders at hb
  rw [Finset.mem_image] at hb
  obtain ⟨e, he, rfl⟩ := hb
  have hw : (boardOfUniverse U).is_wall e.1 e.2 := Or.inl he
  rw [boardOfUniverse_is_wall] at hw
  obtain ⟨hg1, hg2, hadj, hng⟩ := hw
  unfold Border.new
  split
  · rename_i hle
    exact boardOfUniverse_no_dangling_core hle hg1 hg2 hadj hng
  · rename_i hnle
    refine boardOfUniverse_no_dangling_core (le_of_not_le hnle) hg2 hg1
      (Position.isAdjacentTo_comm.mp hadj) ?_
    intro hmem
    exact hng (Universe.mem_get_galaxy_symm hmem)

/-- Claim C2 (confirmed): for every universe satisfying the representation
invariant of the Rust graph (every edge joins two adjacent in-grid cells) and
whose galaxies are all valid, the board of the same dimensions whose walls are
exactly the borders between cells of distinct galaxies of the universe,
checked by `compute_error` against the objective generated from the universe,
yields a report whose five error sets (dangling borders, cut centers,
asymmetric centers, incorrect galaxy sizes, centerless cells) are all
empty. -/
theorem C2_round_trip (U : Universe) (hwf : U.well_formed) (hval : U.is_valid) :
    ∃ e : BoardError,
      (boardOfUniverse U).compute_error (Objective.generate U) = some e ∧
        e.dangling_borders = ∅ ∧ e.cut_centers = ∅ ∧ e.asymmetric_centers = ∅ ∧
        e.incorrect_galaxy_sizes = ∅ ∧ e.centerless_cells = ∅ := by
  have hedges : U.edges_in_grid := fun e he => ⟨(hwf e he).1, (hwf e he).2.1⟩
  have hcover := U.get_galaxies_cover hedges
  have hlist : (boardOfUniverse U).get_galaxies = U.get_galaxies :=
    board_get_galaxies_eq hedges hval
  have hfind : ∀ g ∈ U.get_galaxies,
      findGalaxy U.get_galaxies (probePosition g.center) = some g := by
    intro g hg
    have hv := hval g hg
    have hp := probe_mem_of_center_contained hv.2.1
    refine findGalaxy_eq hg hp ?_
    intro g' hg' hp'
    rw [← hcover.2 g' hg' _ hp', hcover.2 g hg _ hp]
  have hprobe : ∀ gc ∈ (Objective.generate U).centers,
      ∃ g0, findGalaxy U.get_galaxies (probePosition gc.position) = some g0 := by
    intro gc hgc
    simp only [Objective.generate, List.mem_map] at hgc
    obtain ⟨g, hg, rfl⟩ := hgc
    exact ⟨g, hfind g hg⟩
  obtain ⟨m, hm, hgood, hkeys⟩ := galaxyByObjectiveCenter_spec hprobe
  refine ⟨computeErrorParts (boardOfUniverse U) (Objective.generate U) m,
    ?_, ?_, ?_, ?_, ?_, ?_⟩
  · rw [Board.compute_error_eq_some]
    refine ⟨m, ?_, rfl⟩
    rw [hlist]
    exact hm
  · exact dangling_empty U
  · have hred : (computeErrorParts (boardOfUniverse U)
        (Objective.generate U) m).cut_centers =
        (((Objective.generate U).centers.filter
            (fun gc => decide ((boardOfUniverse U).is_center_cut gc.position))).map
          (fun gc => gc.position)).toFinset := rfl
    rw [hred]
    have hnil : (Objective.generate U).centers.filter
        (fun gc => decide ((boardOfUniverse U).is_center_cut gc.position)) = [] := by
      rw [List.filter_eq_nil_iff]
      intro gc hgc
      simp only [Objective.generate, List.mem_map] at hgc
      obtain ⟨g, hg, rfl⟩ := hgc
      simp only [decide_eq_true_eq]
      exact not_center_cut_of_galaxy (hval g hg).2.1 (hcover.2 g hg)
    rw [hnil]
    rfl
  · have hred : (computeErrorParts (boardOfUniverse U)
        (Objective.generate U) m).asymmetric_centers =
        ((Objective.generate U).centers.filterMap
          (fun gc =>
            match lookupAssoc m gc.position with
            | some galaxy =>
              if galaxy.center ≠ gc.position ∨ ¬galaxy.is_valid then some gc.position
              else none
            | none => none)).toFinset := rfl
    rw [hred]
    have hnil : (Objective.generate U).centers.filterMap
        (fun gc =>
          match lookupAssoc m gc.position with
          | some galaxy =>
            if galaxy.center ≠ gc.position ∨ ¬galaxy.is_valid then some gc.position
            else none
          | none => none) = [] := by
      rw [List.filterMap_eq_nil_iff]
      intro gc hgc
      have hgc2 := hgc
      simp only [Objective.generate, List.mem_map] at hgc2
      obtain ⟨g, hg, rfl⟩ := hgc2
      have hkm : ∃ v, (g.center, v) ∈ m := hkeys _ hgc
      have hlk : lookupAssoc m g.center = some g := by
        have h1 : lookupAssoc m g.center =
            findGalaxy U.get_galaxies (probePosition g.center) := lookupAssoc_eq hgood hkm
        rw [h1]
        exact hfind g hg
      have hcond : ¬(g.center ≠ g.center ∨ ¬g.is_valid) := by
        push_neg
        exact ⟨rfl, hval g hg⟩
      dsimp only
      rw [hlk]
      dsimp only
      rw [if_neg hcond]
    rw [hnil]
    rfl
  · have hred : (computeErrorParts (boardOfUniverse U)
        (Objective.generate U) m).incorrect_galaxy_sizes =
        ((Objective.generate U).centers.filterMap
          (fun gc =>
            match gc.size with
            | some size =>
              match lookupAssoc m gc.position with
              | some galaxy => if galaxy.size ≠ size then some gc.position else none
              | none => none
            | none => none)).toFinset := rfl
    rw [hred]
    have hnil : (Objective.generate U).centers.filterMap
        (fun gc =>
          match gc.size with
          | some size =>
            match lookupAssoc m gc.position with
            | some galaxy => if galaxy.size ≠ size then some gc.position else none
            | none => none
          | none => none) = [] := by
      rw [List.filterMap_eq_nil_iff]
      intro gc hgc
      simp only [Objective.generate, List.mem_map] at hgc
      obtain ⟨g, hg, rfl⟩ := hgc
      rfl
    rw [hnil]
    rfl
  · have hred : (computeErrorParts (boardOfUniverse U)
        (Objective.generate U) m).centerless_cells =
        (gridFinset (boardOfUniverse U).width (boardOfUniverse U).height).filter
          (fun p => p ∉ (m.map Prod.snd).foldl (fun acc g => acc ∪ g.positions) ∅) := rfl
    rw [hred]
    rw [Finset.filter_eq_empty_iff]
    intro p hp
    rw [not_not]
    have hpU : p ∈ gridFinset U.width U.height := hp
    have hg : U.get_galaxy p ∈ U.get_galaxies := hcover.1 p hpU
    have hgc : (⟨(U.get_galaxy p).center, (none : Option Nat)⟩ : GalaxyCenter) ∈
        (Objective.generate U).centers := by
      show _ ∈ U.get_galaxies.map _
      exact List.mem_map.mpr ⟨U.get_galaxy p, hg, rfl⟩
    obtain ⟨v, hv⟩ := hkeys _ hgc
    have hvg : v = U.get_galaxy p := by
      have h1 : findGalaxy U.get_galaxies
          (probePosition (U.get_galaxy p).center) = some v := hgood _ hv
      have h2 := hfind _ hg
      rw [h2] at h1
      exact (Option.some.inj h1).symm
    rw [mem_foldl_union]
    right
    refine ⟨v, ?_, ?_⟩
    · exact List.mem_map.mpr ⟨_, hv, rfl⟩
    · rw [hvg]
      exact Universe.self_mem_get_galaxy U p

/-! ## C1 — graph-operation characterizations -/

theorem Universe.removeEdge_width (U : Universe) (p q : Position) :
    (U.removeEdge p q).width = U.width := rfl

theorem Universe.removeEdge_height (U : Universe) (p q : Position) :
    (U.removeEdge p q).height = U.height := rfl

theorem Universe.addEdge_width (U : Universe) (p q : Position) :
    (U.addEdge p q).width = U.width := by
  unfold Universe.addEdge
  split <;> rfl

theorem Universe.addEdge_height (U : Universe) (p q : Position) :
    (U.addEdge p q).height = U.height := by
  unfold Universe.addEdge
  split <;> rfl

theorem Universe.not_are_neighbours_self {U : Universe} (hwf : U.well_formed)
    (x : Position) : ¬U.are_neighbours x x := by
  rintro (h | h) <;>
  · have := (hwf _ h).2.2
    unfold Position.isAdjacentTo at this
    dsimp only at this
    omega

theorem Universe.are_neighbours_removeEdge {U : Universe} {p q x y : Position} :
    (U.removeEdge p q).are_neighbours x y ↔
      U.are_neighbours x y ∧ ¬((x = p ∧ y = q) ∨ (x = q ∧ y = p)) := by
  simp only [Universe.are_neighbours, Universe.removeEdge, Finset.mem_erase, Ne,
    Prod.mk.injEq]
  tauto

theorem Universe.are_neighbours_addEdge_self (U : Universe) (p q : Position) :
    (U.addEdge p q).are_neighbours p q := by
  unfold Universe.addEdge
  split
  · assumption
  · exact Or.inl (Finset.mem_insert_self _ _)

theorem Universe.are_neighbours_addEdge_other {U : Universe} {p q x y : Position}
    (h : ¬((x = p ∧ y = q) ∨ (x = q ∧ y = p))) :
    (U.addEdge p q).are_neighbours x y ↔ U.are_neighbours x y := by
  unfold Universe.addEdge
  split
  · exact Iff.rfl
  · simp only [Universe.are_neighbours, Finset.mem_insert, Prod.mk.injEq]
    tauto

theorem mem_adjacent_positions {U : Universe} {p q : Position} :
    q ∈ U.adjacent_positions p ↔ p.isAdjacentTo q ∧ U.is_inside q := by
  unfold Universe.adjacent_positions
  rw [List.mem_filter, decide_eq_true_eq, Position.isAdjacentTo_iff_mem_adjacent]
  unfold Position.adjacent
  simp only [List.mem_cons, List.not_mem_nil, or_false]
  tauto

theorem self_not_mem_adjacent_positions (U : Universe) (p : Position) :
    p ∉ U.adjacent_positions p := by
  intro h
  have := (mem_adjacent_positions.mp h).1
  unfold Position.isAdjacentTo at this
  omega

theorem adjacent_positions_nodup (U : Universe) (p : Position) :
    (U.adjacent_positions p).Nodup := by
  apply List.Nodup.filter
  obtain ⟨r, c⟩ := p
  simp only [Position.left, Position.up, Position.right, Position.down]
  refine List.nodup_cons.mpr ⟨?_, List.nodup_cons.mpr ⟨?_, List.nodup_cons.mpr
    ⟨?_, List.nodup_singleton _⟩⟩⟩ <;>
  · simp only [List.mem_cons, List.not_mem_nil, or_false, Position.mk.injEq]
    omega

theorem foldl_removeEdge_graph (p : Position) :
    ∀ (l : List Position) (U : Universe),
      (l.foldl (fun u q => u.removeEdge p q) U).graph =
        U.graph.filter (fun e => ∀ q ∈ l, e ≠ (p, q) ∧ e ≠ (q, p)) := by
  intro l
  induction l with
  | nil =>
    intro U
    simp
  | cons q l ih =>
    intro U
    rw [List.foldl_cons, ih]
    ext e
    simp only [Finset.mem_filter, Universe.removeEdge, Finset.mem_erase, List.mem_cons,
      Ne]
    constructor
    · rintro ⟨⟨h1, h2, he⟩, hall⟩
      refine ⟨he, ?_⟩
      rintro q' (rfl | hq')
      · exact ⟨h2, h1⟩
      · exact hall q' hq'
    · rintro ⟨he, hall⟩
      refine ⟨⟨(hall q (Or.inl rfl)).2, (hall q (Or.inl rfl)).1, he⟩, ?_⟩
      intro q' hq'
      exact hall q' (Or.inr hq')

theorem foldl_removeEdge_width (p : Position) :
    ∀ (l : List Position) (U : Universe),
      (l.foldl (fun u q => u.removeEdge p q) U).width = U.width ∧
        (l.foldl (fun u q => u.removeEdge p q) U).height = U.height := by
  intro l
  induction l with
  | nil => intro U; exact ⟨rfl, rfl⟩
  | cons q l ih =>
    intro U
    rw [List.foldl_cons]
    exact ih (U.removeEdge p q)

theorem remove_all_neighbours_width (U : Universe) (p : Position) :
    (U.remove_all_neighbours p).width = U.width ∧
      (U.remove_all_neighbours p).height = U.height :=
  foldl_removeEdge_width p _ U

theorem remove_all_neighbours_graph {U : Universe} (hwf : U.well_formed) (p : Position) :
    (U.remove_all_neighbours p).graph =
      U.graph.filter (fun e => e.1 ≠ p ∧ e.2 ≠ p) := by
  unfold Universe.remove_all_neighbours
  rw [foldl_removeEdge_graph]
  ext e
  simp only [Finset.mem_filter, Ne]
  constructor
  · rintro ⟨he, hall⟩
    refine ⟨he, ?_, ?_⟩
    · intro h1
      have hadj := (hwf e he).2.2
      have hin := (hwf e he).2.1
      have hmem : e.2 ∈ U.adjacent_positions p := by
        rw [mem_adjacent_positions]
        rw [← h1]
        exact ⟨hadj, hin⟩
      have := (hall e.2 hmem).1
      apply this
      rw [← h1]
    · intro h2
      have hadj := (hwf e he).2.2
      have hin := (hwf e he).1
      have hmem : e.1 ∈ U.adjacent_positions p := by
        rw [mem_adjacent_positions]
        rw [← h2]
        exact ⟨Position.isAdjacentTo_comm.mp hadj, hin⟩
      have := (hall e.1 hmem).2
      apply this
      rw [← h2]
  · rintro ⟨he, h1, h2⟩
    refine ⟨he, ?_⟩
    intro q _
    constructor
    · intro hc
      apply h1
      rw [hc]
    · intro hc
      apply h2
      rw [hc]

theorem remove_all_neighbours_nbr {U : Universe} (hwf : U.well_formed) (p : Position)
    {x y : Position} :
    (U.remove_all_neighbours p).are_neighbours x y ↔
      U.are_neighbours x y ∧ x ≠ p ∧ y ≠ p := by
  unfold Universe.are_neighbours
  rw [remove_all_neighbours_graph hwf p]
  simp only [Finset.mem_filter]
  constructor
  · rintro (⟨he, h1, h2⟩ | ⟨he, h1, h2⟩)
    · exact ⟨Or.inl he, h1, h2⟩
    · exact ⟨Or.inr he, h2, h1⟩
  · rintro ⟨(he | he), h1, h2⟩
    · exact Or.inl ⟨he, h1, h2⟩
    · exact Or.inr ⟨he, h2, h1⟩

theorem Universe.well_formed_mono {U V : Universe} (hw : V.width = U.width)
    (hh : V.height = U.height) (hsub : V.graph ⊆ U.graph) (hwf : U.well_formed) :
    V.well_formed := by
  intro e he
  have h := hwf e (hsub he)
  unfold Universe.is_inside at h ⊢
  rw [hw, hh]
  exact h

theorem remove_all_neighbours_well_formed {U : Universe} (hwf : U.well_formed)
    (p : Position) : (U.remove_all_neighbours p).well_formed := by
  refine Universe.well_formed_mono (remove_all_neighbours_width U p).1
    (remove_all_neighbours_width U p).2 ?_ hwf
  rw [remove_all_neighbours_graph hwf p]
  exact Finset.filter_subset _ _

/-! ## C1 — `make_neighbours` characterization -/

theorem mnFold_width (g1 : Galaxy) (p2 : Position) :
    ∀ (l : List Position) (u0 : Universe),
      ((l.foldl (fun u q =>
          if g1.contains_position q then u.addEdge p2 q else u.removeEdge p2 q) u0).width =
        u0.width) ∧
      ((l.foldl (fun u q =>
          if g1.contains_position q then u.addEdge p2 q else u.removeEdge p2 q) u0).height =
        u0.height) := by
  intro l
  induction l with
  | nil => intro u0; exact ⟨rfl, rfl⟩
  | cons q l ih =>
    intro u0
    rw [List.foldl_cons]
    constructor
    · rw [(ih _).1]
      split <;> [exact Universe.addEdge_width _ _ _; exact Universe.removeEdge_width _ _ _]
    · rw [(ih _).2]
      split <;> [exact Universe.addEdge_height _ _ _; exact Universe.removeEdge_height _ _ _]

theorem mnFold_other (g1 : Galaxy) (p2 : Position) :
    ∀ (l : List Position) (u0 : Universe) (x y : Position), x ≠ p2 → y ≠ p2 →
      ((l.foldl (fun u q =>
          if g1.contains_position q then u.addEdge p2 q else u.removeEdge p2 q)
        u0).are_neighbours x y ↔ u0.are_neighbours x y) := by
  intro l
  induction l with
  | nil => intro u0 x y _ _; exact Iff.rfl
  | cons q l ih =>
    intro u0 x y hx hy
    rw [List.foldl_cons, ih _ x y hx hy]
    split
    · exact Universe.are_neighbours_addEdge_other (by tauto)
    · rw [Universe.are_neighbours_removeEdge]
      constructor
      · exact fun h => h.1
      · intro h
        exact ⟨h, by tauto⟩

theorem mnFold_notmem (g1 : Galaxy) (p2 : Position) :
    ∀ (l : List Position) (u0 : Universe) (q : Position), q ∉ l → p2 ∉ l →
      ((l.foldl (fun u q =>
          if g1.contains_position q then u.addEdge p2 q else u.removeEdge p2 q)
        u0).are_neighbours p2 q ↔ u0.are_neighbours p2 q) := by
  intro l
  induction l with
  | nil => intro u0 q _ _; exact Iff.rfl
  | cons q' l ih =>
    intro u0 q hq hp2
    have hqq' : q ≠ q' := fun h => hq (h ▸ List.mem_cons_self _ _)
    have hp2q' : p2 ≠ q' := fun h => hp2 (h ▸ List.mem_cons_self _ _)
    rw [List.foldl_cons,
      ih _ q (fun h => hq (List.mem_cons_of_mem _ h)) (fun h => hp2 (List.mem_cons_of_mem _ h))]
    split
    · exact Universe.are_neighbours_addEdge_other (by tauto)
    · rw [Universe.are_neighbours_removeEdge]
      constructor
      · exact fun h => h.1
      · intro h
        exact ⟨h, by tauto⟩

theorem mnFold_mem (g1 : Galaxy) (p2 : Position) :
    ∀ (l : List Position) (u0 : Universe) (q : Position), l.Nodup → q ∈ l → p2 ∉ l →
      ((l.foldl (fun u q =>
          if g1.contains_position q then u.addEdge p2 q else u.removeEdge p2 q)
        u0).are_neighbours p2 q ↔ g1.contains_position q) := by
  intro l
  induction l with
  | nil =>
    intro u0 q _ hq _
    simp at hq
  | cons q' l ih =>
    intro u0 q hnd hq hp2
    rw [List.foldl_cons]
    rcases List.mem_cons.mp hq with rfl | hq
    · have hql : q ∉ l := (List.nodup_cons.mp hnd).1
      rw [mnFold_notmem g1 p2 l _ q hql (fun h => hp2 (List.mem_cons_of_mem _ h))]
      split
      · rename_i hcond
        simp only [hcond, iff_true]
        exact Universe.are_neighbours_addEdge_self u0 p2 q
      · rename_i hcond
        simp only [hcond, iff_false]
        rw [Universe.are_neighbours_removeEdge]
        tauto
    · exact ih _ q (List.nodup_cons.mp hnd).2 hq (fun h => hp2 (List.mem_cons_of_mem _ h))

theorem make_neighbours_width (U : Universe) (p1 p2 : Position) :
    (U.make_neighbours p1 p2).width = U.width ∧
      (U.make_neighbours p1 p2).height = U.height := by
  unfold Universe.make_neighbours
  exact mnFold_width _ p2 _ U

theorem make_neighbours_nbr_other {U : Universe} {p1 p2 x y : Position}
    (hx : x ≠ p2) (hy : y ≠ p2) :
    ((U.make_neighbours p1 p2).are_neighbours x y ↔ U.are_neighbours x y) := by
  unfold Universe.make_neighbours
  exact mnFold_other _ p2 _ U x y hx hy

theorem make_neighbours_nbr_p2 {U : Universe} (hwf : U.well_formed) (p1 : Position)
    {p2 q : Position} :
    ((U.make_neighbours p1 p2).are_neighbours p2 q ↔
      q ∈ (U.get_galaxy p1).positions ∧ p2.isAdjacentTo q ∧ U.is_inside q) := by
  unfold Universe.make_neighbours
  by_cases hmem : q ∈ U.adjacent_positions p2
  · rw [mnFold_mem _ p2 _ U q (adjacent_positions_nodup U p2) hmem
      (self_not_mem_adjacent_positions U p2)]
    have h2 := mem_adjacent_positions.mp hmem
    unfold Galaxy.contains_position
    tauto
  · rw [mnFold_notmem _ p2 _ U q (fun h => hmem h) (self_not_mem_adjacent_positions U p2)]
    constructor
    · intro h
      exfalso
      apply hmem
      rw [mem_adjacent_positions]
      rcases h with h | h
      · exact ⟨(hwf _ h).2.2, (hwf _ h).2.1⟩
      · exact ⟨Position.isAdjacentTo_comm.mp (hwf _ h).2.2, (hwf _ h).1⟩
    · intro h
      exfalso
      apply hmem
      rw [mem_adjacent_positions]
      exact ⟨h.2.1, h.2.2⟩

theorem make_neighbours_nbr_self {U : Universe} (hwf : U.well_formed)
    (p1 p2 : Position) : ¬(U.make_neighbours p1 p2).are_neighbours p2 p2 := by
  unfold Universe.make_neighbours
  rw [mnFold_notmem _ p2 _ U p2 (self_not_mem_adjacent_positions U p2)
    (self_not_mem_adjacent_positions U p2)]
  exact Universe.not_are_neighbours_self hwf p2

theorem mnFold_graph_subset (g1 : Galaxy) (p2 : Position) :
    ∀ (l : List Position) (u0 : Universe),
      ((l.foldl (fun u q =>
          if g1.contains_position q then u.addEdge p2 q else u.removeEdge p2 q)
        u0).graph) ⊆ u0.graph ∪ (l.map (fun q => (p2, q))).toFinset := by
  intro l
  induction l with
  | nil =>
    intro u0
    simp
  | cons q l ih =>
    intro u0
    rw [List.foldl_cons]
    refine Finset.Subset.trans (ih _) (Finset.union_subset ?_ ?_)
    · split
      · unfold Universe.addEdge
        split
        · exact Finset.subset_union_left
        · intro e he
          rcases Finset.mem_insert.mp he with rfl | he
          · apply Finset.mem_union_right
            simp
          · exact Finset.mem_union_left _ he
      · refine Finset.Subset.trans ?_ Finset.subset_union_left
        unfold Universe.removeEdge
        exact Finset.Subset.trans (Finset.erase_subset _ _) (Finset.erase_subset _ _)
    · intro e he
      apply Finset.mem_union_right
      simp only [List.mem_toFinset, List.mem_map] at he ⊢
      obtain ⟨q', hq', rfl⟩ := he
      exact ⟨q', List.mem_cons_of_mem _ hq', rfl⟩

theorem make_neighbours_well_formed {U : Universe} (hwf : U.well_formed)
    (p1 : Position) {p2 : Position} (hp2 : U.is_inside p2) :
    (U.make_neighbours p1 p2).well_formed := by
  intro e he
  have hsub := mnFold_graph_subset (U.get_galaxy p1) p2 (U.adjacent_positions p2) U
  have hdim := make_neighbours_width U p1 p2
  unfold Universe.make_neighbours at he
  have := hsub he
  unfold Universe.is_inside
  rw [hdim.1, hdim.2]
  rcases Finset.mem_union.mp this with h | h
  · exact hwf e h
  · simp only [List.mem_toFinset, List.mem_map] at h
    obtain ⟨q, hq, rfl⟩ := h
    have hq2 := mem_adjacent_positions.mp hq
    exact ⟨hp2, hq2.2, hq2.1⟩

/-! ## C1 — the removal loop -/

theorem foldl_ran_spec :
    ∀ (l : List Position) (u0 : Universe), u0.well_formed →
      ((l.foldl (fun u q => u.remove_all_neighbours q) u0).graph =
          u0.graph.filter (fun e => e.1 ∉ l ∧ e.2 ∉ l)) ∧
        (l.foldl (fun u q => u.remove_all_neighbours q) u0).width = u0.width ∧
        (l.foldl (fun u q => u.remove_all_neighbours q) u0).height = u0.height := by
  intro l
  induction l with
  | nil =>
    intro u0 _
    refine ⟨?_, rfl, rfl⟩
    show u0.graph = _
    refine (Finset.filter_eq_self.mpr ?_).symm
    intro e _
    simp
  | cons q l ih =>
    intro u0 hwf
    rw [List.foldl_cons]
    have hwf1 := remove_all_neighbours_well_formed hwf q
    obtain ⟨hg, hw, hh⟩ := ih (u0.remove_all_neighbours q) hwf1
    refine ⟨?_, ?_, ?_⟩
    · rw [hg, remove_all_neighbours_graph hwf q]
      ext e
      simp only [Finset.mem_filter, List.mem_cons, Ne]
      constructor
      · rintro ⟨⟨he, h1, h2⟩, h3, h4⟩
        exact ⟨he, by tauto, by tauto⟩
      · rintro ⟨he, h1, h2⟩
        exact ⟨⟨he, by tauto, by tauto⟩, by tauto, by tauto⟩
    · rw [hw, (remove_all_neighbours_width u0 q).1]
    · rw [hh, (remove_all_neighbours_width u0 q).2]

theorem removePositionsAux_spec (galaxy : Galaxy) (hsym : galaxy.is_symmetric) :
    ∀ (l : List Position) (Ucur : Universe) (g : Galaxy) (D0 : Finset Position),
      Ucur.well_formed →
      (∀ p ∈ l, p ∈ galaxy.positions) →
      g.positions = galaxy.positions \ D0 →
      D0 ⊆ galaxy.positions →
      (∀ e ∈ Ucur.graph, e.1 ∉ D0 ∧ e.2 ∉ D0) →
      g.is_empty_or_valid →
      ∃ D1 : Finset Position, D0 ⊆ D1 ∧ D1 ⊆ galaxy.positions ∧ (∀ p ∈ l, p ∈ D1) ∧
        (Universe.removePositionsAux galaxy l Ucur g).graph =
          Ucur.graph.filter (fun e => e.1 ∉ D1 ∧ e.2 ∉ D1) ∧
        (Universe.removePositionsAux galaxy l Ucur g).width = Ucur.width ∧
        (Universe.removePositionsAux galaxy l Ucur g).height = Ucur.height ∧
        (galaxy.positions \ D1 = ∅ ∨ (⟨galaxy.positions \ D1⟩ : Galaxy).is_valid) := by
  intro l
  induction l with
  | nil =>
    intro Ucur g D0 _ _ hg hD0 hclean hev
    refine ⟨D0, Finset.Subset.refl _, hD0, by simp, ?_, rfl, rfl, ?_⟩
    · show Ucur.graph = _
      exact (Finset.filter_eq_self.mpr hclean).symm
    · rcases hev with hemp | hv
      · left
        rw [← hg]
        exact hemp
      · right
        rw [← hg]
        exact hv
  | cons p rest ih =>
    intro Ucur g D0 hwf hps hg hD0 hclean _
    have hdef : Universe.removePositionsAux galaxy (p :: rest) Ucur g =
        (let U1 := Ucur.remove_all_neighbours p
         let g1 := g.remove_position p
         let st :=
           if ¬g1.is_symmetric then
             (U1.remove_all_neighbours (galaxy.mirror_position p),
               g1.remove_position (galaxy.mirror_position p))
           else (U1, g1)
         if ¬st.2.is_empty_or_valid then
           (st.2.positions.sort (fun a b => a ≤ b)).foldl
             (fun u q => u.remove_all_neighbours q) st.1
         else Universe.removePositionsAux galaxy rest st.1 st.2) := rfl
    rw [hdef]
    dsimp only
    have hpgal : p ∈ galaxy.positions := hps p (List.mem_cons_self _ _)
    have hq2gal : galaxy.mirror_position p ∈ galaxy.positions := hsym p hpgal
    have hwf1 : (Ucur.remove_all_neighbours p).well_formed :=
      remove_all_neighbours_well_formed hwf p
    by_cases hsymb : ¬(g.remove_position p).is_symmetric
    · rw [if_pos hsymb]
      dsimp only
      set q2 := galaxy.mirror_position p with hq2
      set D0' := insert q2 (insert p D0) with hD0'
      set U2 := (Ucur.remove_all_neighbours p).remove_all_neighbours q2 with hU2
      set g2 : Galaxy := (g.remove_position p).remove_position q2 with hg2def
      have hwf2 : U2.well_formed := remove_all_neighbours_well_formed hwf1 q2
      have hg2 : g2.positions = galaxy.positions \ D0' := by
        show (g.positions.erase p).erase q2 = _
        rw [hg]
        ext x
        simp only [Finset.mem_erase, Finset.mem_sdiff, Finset.mem_insert, hD0']
        tauto
      have hU2graph : U2.graph =
          Ucur.graph.filter (fun e => e.1 ∉ D0' ∧ e.2 ∉ D0') := by
        rw [hU2, remove_all_neighbours_graph hwf1 q2, remove_all_neighbours_graph hwf p]
        ext e
        simp only [Finset.mem_filter, Finset.mem_insert, hD0']
        constructor
        · rintro ⟨⟨he, h1, h2⟩, h3, h4⟩
          have := hclean e he
          exact ⟨he, by tauto, by tauto⟩
        · rintro ⟨he, h1, h2⟩
          exact ⟨⟨he, by tauto, by tauto⟩, by tauto, by tauto⟩
      have hclean2 : ∀ e ∈ U2.graph, e.1 ∉ D0' ∧ e.2 ∉ D0' := by
        intro e he
        rw [hU2graph] at he
        exact (Finset.mem_filter.mp he).2
      have hD0'sub : D0' ⊆ galaxy.positions := by
        rw [hD0']
        intro x hx
        rcases Finset.mem_insert.mp hx with rfl | hx
        · exact hq2gal
        · rcases Finset.mem_insert.mp hx with rfl | hx
          · exact hpgal
          · exact hD0 hx
      have hU2w : U2.width = Ucur.width := by
        rw [hU2, (remove_all_neighbours_width _ _).1, (remove_all_neighbours_width _ _).1]
      have hU2h : U2.height = Ucur.height := by
        rw [hU2, (remove_all_neighbours_width _ _).2, (remove_all_neighbours_width _ _).2]
      by_cases hev : ¬g2.is_empty_or_valid
      · rw [if_pos hev]
        refine ⟨galaxy.positions, ?_, Finset.Subset.refl _, ?_, ?_, ?_, ?_, ?_⟩
        · exact hD0
        · exact hps
        · obtain ⟨hgr, _, _⟩ := foldl_ran_spec (g2.positions.sort (fun a b => a ≤ b)) U2 hwf2
          rw [hgr, hU2graph]
          ext e
          simp only [Finset.mem_filter, Finset.mem_sort, hg2, Finset.mem_sdiff]
          constructor
          · rintro ⟨⟨he, h1, h2⟩, h3, h4⟩
            refine ⟨he, ?_, ?_⟩
            · intro hc
              by_cases hm : e.1 ∈ D0'
              · exact h1 hm
              · exact h3 ⟨hc, hm⟩
            · intro hc
              by_cases hm : e.2 ∈ D0'
              · exact h2 hm
              · exact h4 ⟨hc, hm⟩
          · rintro ⟨he, h1, h2⟩
            have hdd1 : e.1 ∉ D0' := fun hm => h1 (hD0'sub hm)
            have hdd2 : e.2 ∉ D0' := fun hm => h2 (hD0'sub hm)
            exact ⟨⟨he, hdd1, hdd2⟩, by tauto, by tauto⟩
        · obtain ⟨_, hw, _⟩ := foldl_ran_spec (g2.positions.sort (fun a b => a ≤ b)) U2 hwf2
          rw [hw, hU2w]
        · obtain ⟨_, _, hh⟩ := foldl_ran_spec (g2.positions.sort (fun a b => a ≤ b)) U2 hwf2
          rw [hh, hU2h]
        · left
          exact Finset.sdiff_self _
      · rw [if_neg hev]
        push_neg at hev
        obtain ⟨D1, hsub1, hsub2, hmem, hgr, hw, hh, hrem⟩ :=
          ih U2 g2 D0' hwf2
            (fun x hx => hps x (List.mem_cons_of_mem _ hx)) hg2 hD0'sub hclean2 hev
        have hD0D1 : D0 ⊆ D1 := by
          refine Finset.Subset.trans ?_ hsub1
          rw [hD0']
          exact Finset.Subset.trans (Finset.subset_insert _ _) (Finset.subset_insert _ _)
        refine ⟨D1, hD0D1, hsub2, ?_, ?_, ?_, ?_, hrem⟩
        · intro x hx
          rcases List.mem_cons.mp hx with rfl | hx
          · refine hsub1 ?_
            rw [hD0']
            exact Finset.mem_insert_of_mem (Finset.mem_insert_self _ _)
          · exact hmem x hx
        · rw [hgr, hU2graph]
          ext e
          simp only [Finset.mem_filter]
          constructor
          · rintro ⟨⟨he, _, _⟩, h3, h4⟩
            exact ⟨he, h3, h4⟩
          · rintro ⟨he, h3, h4⟩
            have h1 : e.1 ∉ D0' := fun hm => h3 (hsub1 hm)
            have h2 : e.2 ∉ D0' := fun hm => h4 (hsub1 hm)
            exact ⟨⟨he, h1, h2⟩, h3, h4⟩
        · rw [hw, hU2w]
        · rw [hh, hU2h]
    · rw [if_neg hsymb]
      dsimp only
      set D0' := insert p D0 with hD0'
      set U1 := Ucur.remove_all_neighbours p with hU1
      set g1 : Galaxy := g.remove_position p with hg1def
      have hg1 : g1.positions = galaxy.positions \ D0' := by
        show g.positions.erase p = _
        rw [hg]
        ext x
        simp only [Finset.mem_erase, Finset.mem_sdiff, Finset.mem_insert, hD0']
        tauto
      have hU1graph : U1.graph =
          Ucur.graph.filter (fun e => e.1 ∉ D0' ∧ e.2 ∉ D0') := by
        rw [hU1, remove_all_neighbours_graph hwf p]
        ext e
        simp only [Finset.mem_filter, Finset.mem_insert, hD0']
        constructor
        · rintro ⟨he, h1, h2⟩
          have := hclean e he
          exact ⟨he, by tauto, by tauto⟩
        · rintro ⟨he, h1, h2⟩
          exact ⟨he, by tauto, by tauto⟩
      have hclean1 : ∀ e ∈ U1.graph, e.1 ∉ D0' ∧ e.2 ∉ D0' := by
        intro e he
        rw [hU1graph] at he
        exact (Finset.mem_filter.mp he).2
      have hD0'sub : D0' ⊆ galaxy.positions := by
        rw [hD0']
        intro x hx
        rcases Finset.mem_insert.mp hx with rfl | hx
        · exact hpgal
        · exact hD0 hx
      have hU1w : U1.width = Ucur.width := (remove_all_neighbours_width _ _).1
      have hU1h : U1.height = Ucur.height := (remove_all_neighbours_width _ _).2
      by_cases hev : ¬g1.is_empty_or_valid
      · rw [if_pos hev]
        refine ⟨galaxy.positions, hD0, Finset.Subset.refl _, hps, ?_, ?_, ?_, ?_⟩
        · obtain ⟨hgr, _, _⟩ := foldl_ran_spec (g1.positions.sort (fun a b => a ≤ b)) U1 hwf1
          rw [hgr, hU1graph]
          ext e
          simp only [Finset.mem_filter, Finset.mem_sort, hg1, Finset.mem_sdiff]
          constructor
          · rintro ⟨⟨he, h1, h2⟩, h3, h4⟩
            refine ⟨he, ?_, ?_⟩
            · intro hc
              by_cases hm : e.1 ∈ D0'
              · exact h1 hm
              · exact h3 ⟨hc, hm⟩
            · intro hc
              by_cases hm : e.2 ∈ D0'
              · exact h2 hm
              · exact h4 ⟨hc, hm⟩
          · rintro ⟨he, h1, h2⟩
            have hdd1 : e.1 ∉ D0' := fun hm => h1 (hD0'sub hm)
            have hdd2 : e.2 ∉ D0' := fun hm => h2 (hD0'sub hm)
            exact ⟨⟨he, hdd1, hdd2⟩, by tauto, by tauto⟩
        · obtain ⟨_, hw, _⟩ := foldl_ran_spec (g1.positions.sort (fun a b => a ≤ b)) U1 hwf1
          rw [hw, hU1w]
        · obtain ⟨_, _, hh⟩ := foldl_ran_spec (g1.positions.sort (fun a b => a ≤ b)) U1 hwf1
          rw [hh, hU1h]
        · left
          exact Finset.sdiff_self _
      · rw [if_neg hev]
        push_neg at hev
        obtain ⟨D1, hsub1, hsub2, hmem, hgr, hw, hh, hrem⟩ :=
          ih U1 g1 D0' hwf1
            (fun x hx => hps x (List.mem_cons_of_mem _ hx)) hg1 hD0'sub hclean1 hev
        have hD0D1 : D0 ⊆ D1 := by
          refine Finset.Subset.trans ?_ hsub1
          rw [hD0']
          exact Finset.subset_insert _ _
        refine ⟨D1, hD0D1, hsub2, ?_, ?_, ?_, ?_, hrem⟩
        · intro x hx
          rcases List.mem_cons.mp hx with rfl | hx
          · refine hsub1 ?_
            rw [hD0']
            exact Finset.mem_insert_self _ _
          · exact hmem x hx
        · rw [hgr, hU1graph]
          ext e
          simp only [Finset.mem_filter]
          constructor
          · rintro ⟨⟨he, _, _⟩, h3, h4⟩
            exact ⟨he, h3, h4⟩
          · rintro ⟨he, h3, h4⟩
            have h1 : e.1 ∉ D0' := fun hm => h3 (hsub1 hm)
            have h2 : e.2 ∉ D0' := fun hm => h4 (hsub1 hm)
            exact ⟨⟨he, h1, h2⟩, h3, h4⟩
        · rw [hw, hU1w]
        · rw [hh, hU1h]

theorem remove_positions_spec {U : Universe} (hwf : U.well_formed) {galaxy : Galaxy}
    (hgval : galaxy.is_valid) (ps : List Position)
    (hps : ∀ p ∈ ps, p ∈ galaxy.positions) :
    ∃ D : Finset Position, D ⊆ galaxy.positions ∧ (∀ p ∈ ps, p ∈ D) ∧
      (U.remove_positions_from_galaxy galaxy ps).graph =
        U.graph.filter (fun e => e.1 ∉ D ∧ e.2 ∉ D) ∧
      (U.remove_positions_from_galaxy galaxy ps).width = U.width ∧
      (U.remove_positions_from_galaxy galaxy ps).height = U.height ∧
      (galaxy.positions \ D = ∅ ∨ (⟨galaxy.positions \ D⟩ : Galaxy).is_valid) := by
  obtain ⟨D1, _, h2, h3, h4, h5, h6, h7⟩ :=
    removePositionsAux_spec galaxy hgval.2.2.2 ps U galaxy ∅ hwf hps (by simp) (by simp)
      (by simp) (Or.inr hgval)
  exact ⟨D1, h2, h3, h4, h5, h6, h7⟩

/-! ## C1 — bounding rectangles, centers and shape lemmas -/

theorem Galaxy.bounding_rectangle_eq {g : Galaxy} {a b c d : Int}
    (hne : g.positions.Nonempty)
    (h1 : ∀ p ∈ g.positions, a ≤ p.row ∧ p.row ≤ b ∧ c ≤ p.column ∧ p.column ≤ d)
    (h2 : ∃ p ∈ g.positions, p.row = a) (h3 : ∃ p ∈ g.positions, p.row = b)
    (h4 : ∃ p ∈ g.positions, p.column = c) (h5 : ∃ p ∈ g.positions, p.column = d) :
    g.bounding_rectangle = ⟨a, b, c, d⟩ := by
  unfold Galaxy.bounding_rectangle
  rw [dif_pos hne, Rectangle.mk.injEq]
  refine ⟨?_, ?_, ?_, ?_⟩
  · apply le_antisymm
    · obtain ⟨p, hp, hpa⟩ := h2
      exact hpa ▸ Finset.min'_le _ _ (Finset.mem_image_of_mem _ hp)
    · apply Finset.le_min'
      intro y hy
      obtain ⟨p, hp, rfl⟩ := Finset.mem_image.mp hy
      exact (h1 p hp).1
  · apply le_antisymm
    · apply Finset.max'_le
      intro y hy
      obtain ⟨p, hp, rfl⟩ := Finset.mem_image.mp hy
      exact (h1 p hp).2.1
    · obtain ⟨p, hp, hpb⟩ := h3
      exact hpb ▸ Finset.le_max' _ _ (Finset.mem_image_of_mem _ hp)
  · apply le_antisymm
    · obtain ⟨p, hp, hpc⟩ := h4
      exact hpc ▸ Finset.min'_le _ _ (Finset.mem_image_of_mem _ hp)
    · apply Finset.le_min'
      intro y hy
      obtain ⟨p, hp, rfl⟩ := Finset.mem_image.mp hy
      exact (h1 p hp).2.2.1
  · apply le_antisymm
    · apply Finset.max'_le
      intro y hy
      obtain ⟨p, hp, rfl⟩ := Finset.mem_image.mp hy
      exact (h1 p hp).2.2.2
    · obtain ⟨p, hp, hpd⟩ := h5
      exact hpd ▸ Finset.le_max' _ _ (Finset.mem_image_of_mem _ hp)

theorem Galaxy.symm_about {s : Finset Position} (hne : s.Nonempty) {c : Position}
    (hsym : ∀ p ∈ s, (⟨c.row - p.row, c.column - p.column⟩ : Position) ∈ s) :
    (⟨s⟩ : Galaxy).center = c ∧ (⟨s⟩ : Galaxy).is_symmetric := by
  have hner : (s.image Position.row).Nonempty := hne.image _
  have hnec : (s.image Position.column).Nonempty := hne.image _
  have hrow : (s.image Position.row).min' hner + (s.image Position.row).max' hner =
      c.row := by
    apply le_antisymm
    · obtain ⟨p, hp, hpy⟩ := Finset.mem_image.mp
        (Finset.max'_mem (s.image Position.row) hner)
      have hm := hsym p hp
      have hmm : c.row - p.row ∈ s.image Position.row := by
        rw [Finset.mem_image]
        exact ⟨_, hm, rfl⟩
      have h1 : (s.image Position.row).min' hner ≤ c.row - p.row :=
        Finset.min'_le _ _ hmm
      omega
    · obtain ⟨p, hp, hpy⟩ := Finset.mem_image.mp
        (Finset.min'_mem (s.image Position.row) hner)
      have hm := hsym p hp
      have hmm : c.row - p.row ∈ s.image Position.row := by
        rw [Finset.mem_image]
        exact ⟨_, hm, rfl⟩
      have h1 : c.row - p.row ≤ (s.image Position.row).max' hner :=
        Finset.le_max' _ _ hmm
      omega
  have hcol : (s.image Position.column).min' hnec +
      (s.image Position.column).max' hnec = c.column := by
    apply le_antisymm
    · obtain ⟨p, hp, hpy⟩ := Finset.mem_image.mp
        (Finset.max'_mem (s.image Position.column) hnec)
      have hm := hsym p hp
      have hmm : c.column - p.column ∈ s.image Position.column := by
        rw [Finset.mem_image]
        exact ⟨_, hm, rfl⟩
      have h1 : (s.image Position.column).min' hnec ≤ c.column - p.column :=
        Finset.min'_le _ _ hmm
      omega
    · obtain ⟨p, hp, hpy⟩ := Finset.mem_image.mp
        (Finset.min'_mem (s.image Position.column) hnec)
      have hm := hsym p hp
      have hmm : c.column - p.column ∈ s.image Position.column := by
        rw [Finset.mem_image]
        exact ⟨_, hm, rfl⟩
      have h1 : c.column - p.column ≤ (s.image Position.column).max' hnec :=
        Finset.le_max' _ _ hmm
      omega
  have hcen : (⟨s⟩ : Galaxy).center = c := by
    unfold Galaxy.center Galaxy.bounding_rectangle
    rw [dif_pos hne]
    dsimp only
    rw [Position.mk.injEq]
    exact ⟨hrow, hcol⟩
  refine ⟨hcen, ?_⟩
  intro p hp
  show (⟨s⟩ : Galaxy).mirror_position p ∈ s
  unfold Galaxy.mirror_position
  rw [hcen]
  exact hsym p hp

theorem Galaxy.contains_center_of_subset {g g' : Galaxy}
    (h : g.positions ⊆ g'.positions) (hc : g'.center = g.center)
    (hcc : g.contains_center) : g'.contains_center := by
  unfold Galaxy.contains_center at hcc ⊢
  dsimp only at hcc ⊢
  rw [hc]
  intro r hr col hcol
  exact h (hcc r hr col hcol)

theorem Galaxy.contains_center_of_double {s : Finset Position} {t : Position}
    (ht : t ∈ s) (hc : (⟨s⟩ : Galaxy).center = ⟨2 * t.row, 2 * t.column⟩) :
    (⟨s⟩ : Galaxy).contains_center := by
  unfold Galaxy.contains_center
  rw [hc]
  dsimp only
  have hr : (2 * t.row).tmod 2 = 0 := Int.mul_tmod_right 2 t.row
  have hcl : (2 * t.column).tmod 2 = 0 := Int.mul_tmod_right 2 t.column
  rw [if_pos hr, if_pos hcl]
  intro r hrm col hcolm
  rw [List.mem_singleton] at hrm hcolm
  subst hrm
  subst hcolm
  have h1 : (2 * t.row).tdiv 2 = t.row := Int.mul_tdiv_cancel_left _ (by omega)
  have h2 : (2 * t.column).tdiv 2 = t.column := Int.mul_tdiv_cancel_left _ (by omega)
  rw [h1, h2]
  exact ht

theorem rect_contains_center (rlo rhi clo chi : Int) {s : Finset Position}
    (h0r : 0 ≤ rlo) (h0c : 0 ≤ clo) (hr : rlo ≤ rhi) (hc : clo ≤ chi)
    (hdesc : ∀ r c : Int, (⟨r, c⟩ : Position) ∈ s ↔
      rlo ≤ r ∧ r ≤ rhi ∧ clo ≤ c ∧ c ≤ chi) :
    (⟨s⟩ : Galaxy).contains_center := by
  have hne : s.Nonempty := ⟨⟨rlo, clo⟩, (hdesc rlo clo).mpr (by omega)⟩
  have hbr : (⟨s⟩ : Galaxy).bounding_rectangle = ⟨rlo, rhi, clo, chi⟩ := by
    refine Galaxy.bounding_rectangle_eq hne ?_ ?_ ?_ ?_ ?_
    · intro p hp
      obtain ⟨pr, pc⟩ := p
      have := (hdesc pr pc).mp hp
      exact ⟨this.1, this.2.1, this.2.2.1, this.2.2.2⟩
    · exact ⟨⟨rlo, clo⟩, (hdesc rlo clo).mpr (by omega), rfl⟩
    · exact ⟨⟨rhi, clo⟩, (hdesc rhi clo).mpr (by omega), rfl⟩
    · exact ⟨⟨rlo, clo⟩, (hdesc rlo clo).mpr (by omega), rfl⟩
    · exact ⟨⟨rlo, chi⟩, (hdesc rlo chi).mpr (by omega), rfl⟩
  unfold Galaxy.contains_center
  unfold Galaxy.center
  rw [hbr]
  dsimp only
  have hrnn : 0 ≤ rlo + rhi := by omega
  have hcnn : 0 ≤ clo + chi := by omega
  rw [Int.tmod_eq_emod hrnn (by omega), Int.tmod_eq_emod hcnn (by omega),
    Int.tdiv_eq_ediv hrnn (by omega), Int.tdiv_eq_ediv hcnn (by omega)]
  intro r hrm col hcolm
  rw [hdesc]
  constructor
  · split at hrm <;> simp only [List.mem_singleton, List.mem_cons,
      List.not_mem_nil, or_false] at hrm <;> omega
  constructor
  · split at hrm <;> simp only [List.mem_singleton, List.mem_cons,
      List.not_mem_nil, or_false] at hrm <;> omega
  constructor
  · split at hcolm <;> simp only [List.mem_singleton, List.mem_cons,
      List.not_mem_nil, or_false] at hcolm <;> omega
  · split at hcolm <;> simp only [List.mem_singleton, List.mem_cons,
      List.not_mem_nil, or_false] at hcolm <;> omega

theorem contains_center_of_boxcells (rlo rhi clo chi : Int) {s : Finset Position}
    (h0r : 0 ≤ rlo + rhi) (h0c : 0 ≤ clo + chi)
    (hbr : (⟨s⟩ : Galaxy).bounding_rectangle = ⟨rlo, rhi, clo, chi⟩)
    (hcell : ∀ r c : Int,
      (2 * r = rlo + rhi ∨ 2 * r = rlo + rhi - 1 ∨ 2 * r = rlo + rhi + 1) →
      (2 * c = clo + chi ∨ 2 * c = clo + chi - 1 ∨ 2 * c = clo + chi + 1) →
      (⟨r, c⟩ : Position) ∈ s) :
    (⟨s⟩ : Galaxy).contains_center := by
  unfold Galaxy.contains_center
  unfold Galaxy.center
  rw [hbr]
  dsimp only
  rw [Int.tmod_eq_emod h0r (by omega), Int.tmod_eq_emod h0c (by omega),
    Int.tdiv_eq_ediv h0r (by omega), Int.tdiv_eq_ediv h0c (by omega)]
  intro r hrm c hcm
  apply hcell
  · split at hrm <;> simp only [List.mem_singleton, List.mem_cons,
      List.not_mem_nil, or_false] at hrm <;> omega
  · split at hcm <;> simp only [List.mem_singleton, List.mem_cons,
      List.not_mem_nil, or_false] at hcm <;> omega

/-! ## C1 — connectivity and validity transfer -/

theorem Galaxy.mem_reachIn {s : Finset Position} {p q : Position} (hp : p ∈ s) :
    q ∈ Galaxy.reachIn s p ↔
      Relation.ReflTransGen (fun a b => b ∈ Galaxy.adjNbrsIn s a) p q := by
  unfold Galaxy.reachIn
  refine @mem_closureIter_iff (Galaxy.adjNbrsIn s) s (fun _ => Finset.filter_subset _ _)
    p q (s.card + 1) ?_
  have h1 : ({p} ∪ s) = s := by
    rw [← Finset.insert_eq, Finset.insert_eq_self]
    exact hp
  rw [h1]
  omega

theorem adjReach_mem {s : Finset Position} {a b : Position} (ha : a ∈ s)
    (h : Relation.ReflTransGen (fun x y => y ∈ Galaxy.adjNbrsIn s x) a b) : b ∈ s := by
  induction h with
  | refl => exact ha
  | tail h1 h2 _ => exact (Finset.mem_filter.mp h2).1

theorem adjIn_symm {s : Finset Position} {x y : Position} (hx : x ∈ s)
    (h : y ∈ Galaxy.adjNbrsIn s x) : x ∈ Galaxy.adjNbrsIn s y := by
  unfold Galaxy.adjNbrsIn at h ⊢
  rw [Finset.mem_filter] at h ⊢
  refine ⟨hx, ?_⟩
  rw [← Position.isAdjacentTo_iff_mem_adjacent] at h ⊢
  exact Position.isAdjacentTo_comm.mp h.2

theorem adjReach_symm {s : Finset Position} {a b : Position} (ha : a ∈ s)
    (h : Relation.ReflTransGen (fun x y => y ∈ Galaxy.adjNbrsIn s x) a b) :
    Relation.ReflTransGen (fun x y => y ∈ Galaxy.adjNbrsIn s x) b a := by
  induction h with
  | refl => exact Relation.ReflTransGen.refl
  | tail h1 h2 ih =>
    have hbmem := adjReach_mem ha h1
    exact Relation.ReflTransGen.head (adjIn_symm hbmem h2) ih

theorem Galaxy.is_connected_of_base {s : Finset Position} {p : Position} (hp : p ∈ s)
    (h : ∀ x ∈ s, Relation.ReflTransGen (fun a b => b ∈ Galaxy.adjNbrsIn s a) p x) :
    (⟨s⟩ : Galaxy).is_connected := by
  unfold Galaxy.is_connected
  dsimp only
  have hne : s.Nonempty := ⟨p, hp⟩
  rw [dif_pos hne]
  intro q hq
  rw [Galaxy.mem_reachIn (Finset.min'_mem s hne)]
  have h1 := h (s.min' hne) (Finset.min'_mem s hne)
  have h2 := adjReach_symm hp h1
  exact Relation.ReflTransGen.trans h2 (h q hq)

theorem Galaxy.is_connected_reach {g : Galaxy} (hconn : g.is_connected) {x y : Position}
    (hx : x ∈ g.positions) (hy : y ∈ g.positions) :
    Relation.ReflTransGen (fun a b => b ∈ Galaxy.adjNbrsIn g.positions a) x y := by
  unfold Galaxy.is_connected at hconn
  rw [dif_pos ⟨x, hx⟩] at hconn
  have hmin := Finset.min'_mem g.positions ⟨x, hx⟩
  have hmx := (Galaxy.mem_reachIn hmin).mp (hconn hx)
  have hmy := (Galaxy.mem_reachIn hmin).mp (hconn hy)
  exact Relation.ReflTransGen.trans (adjReach_symm hmin hmx) hmy

theorem Galaxy.singleton_valid (p : Position) : (⟨{p}⟩ : Galaxy).is_valid := by
  have hne : ({p} : Finset Position).Nonempty := ⟨p, Finset.mem_singleton_self p⟩
  have hbr : (⟨{p}⟩ : Galaxy).bounding_rectangle =
      ⟨p.row, p.row, p.column, p.column⟩ := by
    refine Galaxy.bounding_rectangle_eq hne ?_ ?_ ?_ ?_ ?_
    · intro q hq
      rw [Finset.mem_singleton] at hq
      subst hq
      omega
    · exact ⟨p, Finset.mem_singleton_self p, rfl⟩
    · exact ⟨p, Finset.mem_singleton_self p, rfl⟩
    · exact ⟨p, Finset.mem_singleton_self p, rfl⟩
    · exact ⟨p, Finset.mem_singleton_self p, rfl⟩
  have hcen : (⟨{p}⟩ : Galaxy).center = ⟨2 * p.row, 2 * p.column⟩ := by
    unfold Galaxy.center
    rw [hbr]
    dsimp only
    rw [Position.mk.injEq]
    omega
  refine ⟨?_, ?_, ?_, ?_⟩
  · unfold Galaxy.is_empty
    dsimp only
    simp
  · exact Galaxy.contains_center_of_double (Finset.mem_singleton_self p) hcen
  · refine Galaxy.is_connected_of_base (Finset.mem_singleton_self p) ?_
    intro x hx
    rw [Finset.mem_singleton] at hx
    subst hx
    exact Relation.ReflTransGen.refl
  · intro q hq
    rw [Finset.mem_singleton] at hq
    subst hq
    show (⟨{q}⟩ : Galaxy).mirror_position q ∈ ({q} : Finset Position)
    unfold Galaxy.mirror_position
    rw [hcen, Finset.mem_singleton]
    dsimp only
    rw [Position.mk.injEq]
    omega

theorem Universe.is_valid_of_galaxies {V : Universe} (hwf : V.edges_in_grid)
    (h : ∀ p ∈ gridFinset V.width V.height, (V.get_galaxy p).is_valid) : V.is_valid := by
  intro g hg
  have hspec := V.getGalaxiesAux_spec (gridFinset V.width V.height).card
    (gridFinset V.width V.height) (fun _ hp => Universe.get_galaxy_subset_grid hwf hp)
  obtain ⟨hne, hsub⟩ := hspec.1 g hg
  obtain ⟨x, hx⟩ := hne
  have hgeq := (V.get_galaxies_cover hwf).2 g hg x hx
  rw [← hgeq]
  exact h x (hsub hx)

theorem Universe.get_galaxy_positions_eq {V : Universe} {p : Position}
    {S : Finset Position} (hmem : p ∈ S)
    (hclosed : ∀ x ∈ S, ∀ y : Position, V.are_neighbours x y → y ∈ S)
    (hconn : ∀ x ∈ S, Relation.ReflTransGen V.are_neighbours p x) :
    (V.get_galaxy p).positions = S := by
  apply Finset.Subset.antisymm
  · intro q hq
    rw [Universe.mem_get_galaxy] at hq
    induction hq with
    | refl => exact hmem
    | tail h1 h2 ih => exact hclosed _ ih _ h2
  · intro q hq
    rw [Universe.mem_get_galaxy]
    exact hconn q hq

theorem Universe.saturated_adj_iff {U : Universe} (hsat : U.saturated) {p q : Position}
    (hadj : p.isAdjacentTo q) :
    U.are_neighbours p q ↔ q ∈ (U.get_galaxy p).positions := by
  constructor
  · intro h
    rw [Universe.mem_get_galaxy]
    exact Relation.ReflTransGen.single h
  · intro h
    exact hsat p q hadj h

theorem Universe.random_position_inside {U : Universe} (hw : 0 < U.width)
    (hh : 0 < U.height) (rng : Rng) : U.is_inside (U.random_position rng).1 := by
  unfold Universe.random_position Rng.next
  dsimp only
  unfold Universe.is_inside
  dsimp only
  refine ⟨by omega, ?_, by omega, ?_⟩
  · have := Nat.mod_lt (rng.gen rng.idx) hh
    omega
  · have := Nat.mod_lt (rng.gen (rng.idx + 1)) hw
    omega

theorem mem_adjacent_non_neighbours {U : Universe} {p q : Position} :
    q ∈ U.adjacent_non_neighbours p ↔
      p.isAdjacentTo q ∧ U.is_inside q ∧ ¬U.are_neighbours p q := by
  unfold Universe.adjacent_non_neighbours
  rw [List.mem_filter, mem_adjacent_positions, decide_eq_true_eq]
  tauto

theorem chooseFrom_some_mem {l : List Position} {rng : Rng} {p : Position}
    (h : (Universe.chooseFrom l rng).1 = some p) : p ∈ l := by
  unfold Universe.chooseFrom at h
  split at h
  · simp at h
  · dsimp only at h
    exact List.get?_mem h

theorem adjReach_mono {S S' : Finset Position} (hsub : S ⊆ S') {a b : Position}
    (h : Relation.ReflTransGen (fun x y => y ∈ Galaxy.adjNbrsIn S x) a b) :
    Relation.ReflTransGen (fun x y => y ∈ Galaxy.adjNbrsIn S' x) a b := by
  induction h with
  | refl => exact Relation.ReflTransGen.refl
  | tail h1 h2 ih =>
    refine Relation.ReflTransGen.tail ih ?_
    unfold Galaxy.adjNbrsIn at h2 ⊢
    rw [Finset.mem_filter] at h2 ⊢
    exact ⟨hsub h2.1, h2.2⟩

theorem Galaxy.is_connected_insert {S : Finset Position}
    (hconn : (⟨S⟩ : Galaxy).is_connected) {t s0 : Position} (hs0 : s0 ∈ S)
    (hadj : s0.isAdjacentTo t) : (⟨insert t S⟩ : Galaxy).is_connected := by
  refine Galaxy.is_connected_of_base (Finset.mem_insert_of_mem hs0) ?_
  intro x hx
  rcases Finset.mem_insert.mp hx with h | h
  · subst h
    refine Relation.ReflTransGen.single ?_
    unfold Galaxy.adjNbrsIn
    rw [Finset.mem_filter]
    exact ⟨Finset.mem_insert_self _ _, Position.isAdjacentTo_iff_mem_adjacent.mp hadj⟩
  · exact adjReach_mono (Finset.subset_insert _ _)
      (Galaxy.is_connected_reach hconn hs0 h)

theorem mirror_completion {g : Galaxy} (hval : g.is_valid) (t : Position) :
    (⟨insert (g.mirror_position t) (insert t g.positions)⟩ : Galaxy).center = g.center ∧
    (⟨insert (g.mirror_position t) (insert t g.positions)⟩ : Galaxy).is_symmetric ∧
    (⟨insert (g.mirror_position t) (insert t g.positions)⟩ : Galaxy).contains_center := by
  obtain ⟨hne0, hcc0, hconn0, hsymS⟩ := hval
  have hsym : ∀ p ∈ insert (g.mirror_position t) (insert t g.positions),
      (⟨g.center.row - p.row, g.center.column - p.column⟩ : Position) ∈
        insert (g.mirror_position t) (insert t g.positions) := by
    intro p hp
    rcases Finset.mem_insert.mp hp with h | h
    · subst h
      have heq : (⟨g.center.row - (g.mirror_position t).row,
          g.center.column - (g.mirror_position t).column⟩ : Position) =
          (⟨t.row, t.column⟩ : Position) := by
        unfold Galaxy.mirror_position
        dsimp only
        rw [Position.mk.injEq]
        omega
      rw [heq]
      exact Finset.mem_insert_of_mem (Finset.mem_insert_self _ _)
    · rcases Finset.mem_insert.mp h with h2 | h2
      · subst h2
        exact Finset.mem_insert_self _ _
      · have h3 := hsymS p h2
        unfold Galaxy.mirror_position at h3
        dsimp only at h3
        exact Finset.mem_insert_of_mem (Finset.mem_insert_of_mem h3)
  have hne : (insert (g.mirror_position t) (insert t g.positions)).Nonempty :=
    Finset.insert_nonempty _ _
  obtain ⟨hcen, hsym'⟩ := Galaxy.symm_about hne hsym
  refine ⟨hcen, hsym', ?_⟩
  refine Galaxy.contains_center_of_subset ?_ hcen hcc0
  intro p hp
  exact Finset.mem_insert_of_mem (Finset.mem_insert_of_mem hp)

/-! ## C1 — translation chains inside symmetric sets -/

theorem mem_of_coords {S : Finset Position} {a b a' b' : Int} (h1 : a = a')
    (h2 : b = b') (h : (⟨a, b⟩ : Position) ∈ S) : (⟨a', b'⟩ : Position) ∈ S := by
  subst h1
  subst h2
  exact h

theorem exists_exit {S : Finset Position} {xr xc dr dc : Int}
    (hx : (⟨xr, xc⟩ : Position) ∈ S) (hd : ¬(dr = 0 ∧ dc = 0)) :
    ∃ j : Nat, (⟨xr + ((j : Int) + 1) * dr, xc + ((j : Int) + 1) * dc⟩ : Position) ∉ S ∧
      ∀ i : Nat, i ≤ j → (⟨xr + (i : Int) * dr, xc + (i : Int) * dc⟩ : Position) ∈ S := by
  have hEx : ∃ m : Nat, (⟨xr + (m : Int) * dr, xc + (m : Int) * dc⟩ : Position) ∉ S := by
    by_contra hcon
    push_neg at hcon
    have hinj : ∀ m1 m2 : Nat,
        (⟨xr + (m1 : Int) * dr, xc + (m1 : Int) * dc⟩ : Position) =
          (⟨xr + (m2 : Int) * dr, xc + (m2 : Int) * dc⟩ : Position) → m1 = m2 := by
      intro m1 m2 heq
      rw [Position.mk.injEq] at heq
      rcases (by omega : dr ≠ 0 ∨ dc ≠ 0) with h | h
      · have h1 : (m1 : Int) * dr = (m2 : Int) * dr := by
          have := heq.1
          linarith
        have h2 := mul_right_cancel₀ h h1
        exact_mod_cast h2
      · have h1 : (m1 : Int) * dc = (m2 : Int) * dc := by
          have := heq.2
          linarith
        have h2 := mul_right_cancel₀ h h1
        exact_mod_cast h2
    have hcard : (Finset.range (S.card + 1)).card ≤ S.card :=
      Finset.card_le_card_of_injOn
        (fun m : Nat => (⟨xr + (m : Int) * dr, xc + (m : Int) * dc⟩ : Position))
        (fun m _ => hcon m)
        (fun m1 _ m2 _ h => hinj m1 m2 h)
    rw [Finset.card_range] at hcard
    omega
  have hj0 := Nat.find_spec hEx
  have hmin : ∀ i, i < Nat.find hEx →
      (⟨xr + (i : Int) * dr, xc + (i : Int) * dc⟩ : Position) ∈ S := by
    intro i hi
    have := Nat.find_min hEx hi
    exact Decidable.not_not.mp this
  have hj00 : Nat.find hEx ≠ 0 := by
    intro h0
    apply hj0
    have heq : (⟨xr + ((Nat.find hEx : Nat) : Int) * dr,
        xc + ((Nat.find hEx : Nat) : Int) * dc⟩ : Position) = ⟨xr, xc⟩ := by
      rw [Position.mk.injEq, h0]
      constructor <;> (push_cast; ring)
    rw [heq]
    exact hx
  refine ⟨Nat.find hEx - 1, ?_, ?_⟩
  · have heq : (⟨xr + (((Nat.find hEx - 1 : Nat) : Int) + 1) * dr,
        xc + (((Nat.find hEx - 1 : Nat) : Int) + 1) * dc⟩ : Position) =
        ⟨xr + ((Nat.find hEx : Nat) : Int) * dr,
          xc + ((Nat.find hEx : Nat) : Int) * dc⟩ := by
      rw [Position.mk.injEq]
      have hc : (((Nat.find hEx - 1 : Nat) : Int) + 1) = ((Nat.find hEx : Nat) : Int) := by
        omega
      rw [hc]
      exact ⟨rfl, rfl⟩
    rw [heq]
    exact hj0
  · intro i hi
    exact hmin i (by omega)

theorem chain_decomp {S : Finset Position} {dr dc t1r t1c t2r t2c : Int}
    (hd : ¬(dr = 0 ∧ dc = 0))
    (htrans : ∀ p ∈ S, (⟨p.row + dr, p.column + dc⟩ : Position) ∈ S ∨
      (p.row + dr = t1r ∧ p.column + dc = t1c) ∨
      (p.row + dr = t2r ∧ p.column + dc = t2c)) :
    ∀ x ∈ S, ∃ k : Nat,
      (x.row = t1r - ((k : Int) + 1) * dr ∧ x.column = t1c - ((k : Int) + 1) * dc) ∨
      (x.row = t2r - ((k : Int) + 1) * dr ∧ x.column = t2c - ((k : Int) + 1) * dc) := by
  intro x hx
  obtain ⟨xr, xc⟩ := x
  obtain ⟨j, hout, hin⟩ := exists_exit hx hd
  have hj := hin j (le_refl j)
  rcases htrans _ hj with hS | hcase
  · exfalso
    apply hout
    have heq : (⟨(⟨xr + (j : Int) * dr, xc + (j : Int) * dc⟩ : Position).row + dr,
        (⟨xr + (j : Int) * dr, xc + (j : Int) * dc⟩ : Position).column + dc⟩ : Position) =
        ⟨xr + ((j : Int) + 1) * dr, xc + ((j : Int) + 1) * dc⟩ := by
      rw [Position.mk.injEq]
      dsimp only
      constructor <;> ring
    rw [heq] at hS
    exact hS
  · dsimp only at hcase
    rcases hcase with ⟨h1, h2⟩ | ⟨h1, h2⟩
    · refine ⟨j, Or.inl ⟨?_, ?_⟩⟩
      · dsimp only
        linarith [h1]
      · dsimp only
        linarith [h2]
    · refine ⟨j, Or.inr ⟨?_, ?_⟩⟩
      · dsimp only
        linarith [h1]
      · dsimp only
        linarith [h2]

theorem CC_A {S : Finset Position} {tr tc : Int}
    (hsymS : (⟨S⟩ : Galaxy).is_symmetric)
    (ht : (⟨tr, tc⟩ : Position) ∉ S)
    (hadjS : ∃ s0 ∈ S, s0.isAdjacentTo ⟨tr, tc⟩)
    (hnn : ∀ p ∈ insert (⟨tr, tc⟩ : Position) S, 0 ≤ p.row ∧ 0 ≤ p.column)
    (hsymm : (⟨insert (⟨tr, tc⟩ : Position) S⟩ : Galaxy).is_symmetric) :
    (⟨insert (⟨tr, tc⟩ : Position) S⟩ : Galaxy).contains_center := by
  rcases hc : (⟨S⟩ : Galaxy).center with ⟨cr, cc⟩
  rcases hc' : (⟨insert (⟨tr, tc⟩ : Position) S⟩ : Galaxy).center with ⟨cr', cc'⟩
  have hσ : ∀ pr pc : Int, (⟨pr, pc⟩ : Position) ∈ S →
      (⟨cr - pr, cc - pc⟩ : Position) ∈ S := by
    intro pr pc hp
    have h1 := hsymS ⟨pr, pc⟩ hp
    unfold Galaxy.mirror_position at h1
    dsimp only at h1
    rw [hc] at h1
    dsimp only at h1
    exact h1
  have hσ' : ∀ pr pc : Int, (⟨pr, pc⟩ : Position) ∈ insert (⟨tr, tc⟩ : Position) S →
      (⟨cr' - pr, cc' - pc⟩ : Position) ∈ insert (⟨tr, tc⟩ : Position) S := by
    intro pr pc hp
    have h1 := hsymm ⟨pr, pc⟩ hp
    unfold Galaxy.mirror_position at h1
    dsimp only at h1
    rw [hc'] at h1
    dsimp only at h1
    exact h1
  by_cases hfix : (⟨cr' - tr, cc' - tc⟩ : Position) = ⟨tr, tc⟩
  · rw [Position.mk.injEq] at hfix
    have hcen : (⟨insert (⟨tr, tc⟩ : Position) S⟩ : Galaxy).center = ⟨2 * tr, 2 * tc⟩ := by
      rw [hc', Position.mk.injEq]
      omega
    exact Galaxy.contains_center_of_double (Finset.mem_insert_self _ _) hcen
  · have hs1 : (⟨cr' - tr, cc' - tc⟩ : Position) ∈ S := by
      have h1 := hσ' tr tc (Finset.mem_insert_self _ _)
      rcases Finset.mem_insert.mp h1 with h | h
      · exact absurd h hfix
      · exact h
    obtain ⟨dr, hdr⟩ : ∃ dr : Int, dr = cr' - cr := ⟨_, rfl⟩
    obtain ⟨dc, hdc⟩ : ∃ d : Int, d = cc' - cc := ⟨_, rfl⟩
    have ha : (⟨tr - dr, tc - dc⟩ : Position) ∈ S := by
      have h1 := hσ _ _ hs1
      exact mem_of_coords (by omega) (by omega) h1
    have hd0 : ¬(dr = 0 ∧ dc = 0) := by
      rintro ⟨h1, h2⟩
      exact ht (mem_of_coords (by omega) (by omega) ha)
    have htrans2 : ∀ p ∈ S, (⟨p.row + dr, p.column + dc⟩ : Position) ∈ S ∨
        (p.row + dr = tr ∧ p.column + dc = tc) ∨
        (p.row + dr = tr ∧ p.column + dc = tc) := by
      intro p hp
      obtain ⟨pr, pc⟩ := p
      have h1 := hσ pr pc hp
      have h2 := hσ' (cr - pr) (cc - pc) (Finset.mem_insert_of_mem h1)
      dsimp only
      rcases Finset.mem_insert.mp h2 with h | h
      · rw [Position.mk.injEq] at h
        exact Or.inr (Or.inl ⟨by omega, by omega⟩)
      · exact Or.inl (mem_of_coords (by omega) (by omega) h)
    have htrans1 : ∀ p ∈ S, (⟨p.row + dr, p.column + dc⟩ : Position) ∈ S ∨
        (p.row + dr = tr ∧ p.column + dc = tc) := by
      intro p hp
      rcases htrans2 p hp with h | h | h
      · exact Or.inl h
      · exact Or.inr h
      · exact Or.inr h
    have hchain := chain_decomp hd0 htrans2
    obtain ⟨s0, hs0, hadj0⟩ := hadjS
    obtain ⟨k0, hk0⟩ := hchain s0 hs0
    have hk0' : s0.row = tr - ((k0 : Int) + 1) * dr ∧
        s0.column = tc - ((k0 : Int) + 1) * dc := by
      rcases hk0 with h' | h' <;> exact h'
    have hd1 : dr.natAbs + dc.natAbs = 1 := by
      unfold Position.isAdjacentTo at hadj0
      dsimp only at hadj0
      have h1 : s0.row - tr = -(((k0 : Int) + 1) * dr) := by
        have := hk0'.1
        linarith
      have h2 : s0.column - tc = -(((k0 : Int) + 1) * dc) := by
        have := hk0'.2
        linarith
      rw [h1, h2, Int.natAbs_neg, Int.natAbs_neg, Int.natAbs_mul, Int.natAbs_mul]
        at hadj0
      have hm : ((k0 : Int) + 1).natAbs = k0 + 1 := by omega
      rw [hm] at hadj0
      have hmul : (k0 + 1) * (dr.natAbs + dc.natAbs) = 1 := by
        rw [Nat.mul_add]
        exact hadj0
      by_contra hne1
      rcases Nat.lt_or_ge (dr.natAbs + dc.natAbs) 2 with hlt | hge
      · have h0 : dr.natAbs + dc.natAbs = 0 := by omega
        rw [h0, Nat.mul_zero] at hmul
        omega
      · have h4 := Nat.mul_le_mul (le_refl (k0 + 1)) hge
        linarith [hmul, h4]
    have hstep_down : ∀ m : Nat, 1 ≤ m →
        (⟨tr - ((m : Int) + 1) * dr, tc - ((m : Int) + 1) * dc⟩ : Position) ∈ S →
        (⟨tr - (m : Int) * dr, tc - (m : Int) * dc⟩ : Position) ∈ S := by
      intro m hm hmem
      rcases htrans1 _ hmem with h | h
      · dsimp only at h
        refine mem_of_coords ?_ ?_ h <;> ring
      · exfalso
        dsimp only at h
        have hexp : ((m : Int) + 1) * dr = (m : Int) * dr + dr := by ring
        have hexp2 : ((m : Int) + 1) * dc = (m : Int) * dc + dc := by ring
        have h1 : (m : Int) * dr = 0 := by linarith [h.1, hexp]
        have h2 : (m : Int) * dc = 0 := by linarith [h.2, hexp2]
        have hm0 : (m : Int) ≠ 0 := by exact_mod_cast Nat.one_le_iff_ne_zero.mp hm
        have hdr0 : dr = 0 := by
          rcases mul_eq_zero.mp h1 with h' | h'
          · exact absurd h' hm0
          · exact h'
        have hdc0 : dc = 0 := by
          rcases mul_eq_zero.mp h2 with h' | h'
          · exact absurd h' hm0
          · exact h'
        exact hd0 ⟨hdr0, hdc0⟩
    have hdown_all : ∀ diff m : Nat, 1 ≤ m →
        (⟨tr - (((m : Int) + (diff : Int)) + 1) * dr,
          tc - (((m : Int) + (diff : Int)) + 1) * dc⟩ : Position) ∈ S →
        (⟨tr - (m : Int) * dr, tc - (m : Int) * dc⟩ : Position) ∈ S := by
      intro diff
      induction diff with
      | zero =>
        intro m hm h
        refine hstep_down m hm (mem_of_coords ?_ ?_ h) <;> push_cast <;> ring
      | succ df ih =>
        intro m hm h
        have h2 := ih (m + 1) (by omega)
          (mem_of_coords (by push_cast; ring) (by push_cast; ring) h)
        exact hstep_down m hm
          (mem_of_coords (by push_cast; ring) (by push_cast; ring) h2)
    have hdneg : ¬(-dr = 0 ∧ -dc = 0) := by omega
    obtain ⟨n, hout, hin⟩ := exists_exit ha hdneg
    have hSdesc : ∀ rr cc3 : Int, (⟨rr, cc3⟩ : Position) ∈ S ↔
        ∃ m : Nat, m ≤ n ∧ rr = tr - ((m : Int) + 1) * dr ∧
          cc3 = tc - ((m : Int) + 1) * dc := by
      intro rr cc3
      constructor
      · intro h
        obtain ⟨k, hk⟩ := hchain _ h
        have hk' : rr = tr - ((k : Int) + 1) * dr ∧
            cc3 = tc - ((k : Int) + 1) * dc := by
          rcases hk with h' | h' <;> (dsimp only at h'; exact h')
        by_cases hkn : k ≤ n
        · exact ⟨k, hkn, hk'.1, hk'.2⟩
        · exfalso
          push_neg at hkn
          apply hout
          by_cases hk1 : k = n + 1
          · subst hk1
            refine mem_of_coords ?_ ?_ h
            · rw [hk'.1]
              push_cast
              ring
            · rw [hk'.2]
              push_cast
              ring
          · have hk2 : n + 2 ≤ k := by omega
            have hcell : (⟨tr - ((k : Int) + 1) * dr,
                tc - ((k : Int) + 1) * dc⟩ : Position) ∈ S :=
              mem_of_coords hk'.1 hk'.2 h
            have h2 := hdown_all (k - (n + 2)) (n + 2) (by omega)
              (mem_of_coords (by push_cast [Nat.cast_sub hk2]; ring)
                (by push_cast [Nat.cast_sub hk2]; ring) hcell)
            exact mem_of_coords (by push_cast; ring) (by push_cast; ring) h2
      · rintro ⟨m, hm, rfl, rfl⟩
        have h1 := hin m hm
        exact mem_of_coords (by ring) (by ring) h1
    have hS' : ∀ rr cc3 : Int,
        (⟨rr, cc3⟩ : Position) ∈ insert (⟨tr, tc⟩ : Position) S ↔
        ∃ m : Nat, m ≤ n + 1 ∧ rr = tr - (m : Int) * dr ∧
          cc3 = tc - (m : Int) * dc := by
      intro rr cc3
      rw [Finset.mem_insert, hSdesc]
      constructor
      · rintro (h | ⟨m, hm, h1, h2⟩)
        · rw [Position.mk.injEq] at h
          exact ⟨0, by omega, by push_cast; omega, by push_cast; omega⟩
        · exact ⟨m + 1, by omega, by push_cast; linarith [h1],
            by push_cast; linarith [h2]⟩
      · rintro ⟨m, hm, h1, h2⟩
        cases m with
        | zero =>
          left
          rw [Position.mk.injEq]
          constructor
          · rw [h1]; push_cast; ring
          · rw [h2]; push_cast; ring
        | succ m2 =>
          right
          refine ⟨m2, by omega, ?_, ?_⟩
          · rw [h1]; push_cast; ring
          · rw [h2]; push_cast; ring
    have htnn := hnn _ (Finset.mem_insert_self (⟨tr, tc⟩ : Position) S)
    dsimp only at htnn
    have hbot : (⟨tr - ((n : Int) + 1) * dr, tc - ((n : Int) + 1) * dc⟩ : Position) ∈
        insert (⟨tr, tc⟩ : Position) S := by
      rw [hS']
      exact ⟨n + 1, le_refl _, by push_cast; ring, by push_cast; ring⟩
    have hbnn := hnn _ hbot
    dsimp only at hbnn
    have hcases : (dr = 0 ∧ (dc = 1 ∨ dc = -1)) ∨ (dc = 0 ∧ (dr = 1 ∨ dr = -1)) := by
      omega
    rcases hcases with ⟨hdr0, hdc1 | hdc1⟩ | ⟨hdc0, hdr1 | hdr1⟩
    · apply rect_contains_center tr tr (tc - ((n : Int) + 1)) tc
      · exact htnn.1
      · rw [hdc1] at hbnn
        linarith [hbnn.2]
      · exact le_refl _
      · omega
      · intro r c3
        rw [hS', hdr0, hdc1]
        constructor
        · rintro ⟨m, hm, rfl, rfl⟩
          omega
        · rintro ⟨h1, h2, h3, h4⟩
          refine ⟨(tc - c3).toNat, by omega, by omega, by omega⟩
    · apply rect_contains_center tr tr tc (tc + ((n : Int) + 1))
      · exact htnn.1
      · exact htnn.2
      · exact le_refl _
      · omega
      · intro r c3
        rw [hS', hdr0, hdc1]
        constructor
        · rintro ⟨m, hm, rfl, rfl⟩
          omega
        · rintro ⟨h1, h2, h3, h4⟩
          refine ⟨(c3 - tc).toNat, by omega, by omega, by omega⟩
    · apply rect_contains_center (tr - ((n : Int) + 1)) tr tc tc
      · rw [hdr1] at hbnn
        linarith [hbnn.1]
      · exact htnn.2
      · omega
      · exact le_refl _
      · intro r c3
        rw [hS', hdc0, hdr1]
        constructor
        · rintro ⟨m, hm, rfl, rfl⟩
          omega
        · rintro ⟨h1, h2, h3, h4⟩
          refine ⟨(tr - r).toNat, by omega, by omega, by omega⟩
    · apply rect_contains_center tr (tr + ((n : Int) + 1)) tc tc
      · exact htnn.1
      · exact htnn.2
      · omega
      · exact le_refl _
      · intro r c3
        rw [hS', hdc0, hdr1]
        constructor
        · rintro ⟨m, hm, rfl, rfl⟩
          omega
        · rintro ⟨h1, h2, h3, h4⟩
          refine ⟨(r - tr).toNat, by omega, by omega, by omega⟩

theorem two_chain_box_center {A : Finset Position}
    {t1r t1c t2r t2c cr cc dr dc : Int} {n1 n2 : Nat}
    (hd1 : dr.natAbs + dc.natAbs = 1)
    (he1 : (t1r - t2r).natAbs + (t1c - t2c).natAbs = 1)
    (henpd : ¬(t1r - t2r = dr ∧ t1c - t2c = dc))
    (hennd : ¬(t1r - t2r = -dr ∧ t1c - t2c = -dc))
    (hb1 : (t1r - ((n1 : Int) + 1) * dr = cr - t1r + dr ∧
        t1c - ((n1 : Int) + 1) * dc = cc - t1c + dc) ∨
      (t1r - ((n1 : Int) + 1) * dr = cr - t2r + dr ∧
        t1c - ((n1 : Int) + 1) * dc = cc - t2c + dc))
    (hb2 : (t2r - ((n2 : Int) + 1) * dr = cr - t1r + dr ∧
        t2c - ((n2 : Int) + 1) * dc = cc - t1c + dc) ∨
      (t2r - ((n2 : Int) + 1) * dr = cr - t2r + dr ∧
        t2c - ((n2 : Int) + 1) * dc = cc - t2c + dc))
    (hdesc : ∀ rr cc3 : Int, (⟨rr, cc3⟩ : Position) ∈ A ↔
      ∃ m : Nat, (m ≤ n1 + 1 ∧ rr = t1r - (m : Int) * dr ∧ cc3 = t1c - (m : Int) * dc) ∨
        (m ≤ n2 + 1 ∧ rr = t2r - (m : Int) * dr ∧ cc3 = t2c - (m : Int) * dc))
    (hnn : ∀ p ∈ A, 0 ≤ p.row ∧ 0 ≤ p.column) :
    (⟨A⟩ : Galaxy).contains_center := by
  have hd4 : (dr = 0 ∧ (dc = 1 ∨ dc = -1)) ∨ (dc = 0 ∧ (dr = 1 ∨ dr = -1)) := by
    clear hb1 hb2 he1 henpd hennd hdesc hnn
    omega
  rcases hd4 with ⟨h1, h2 | h2⟩ | ⟨h1, h2 | h2⟩
  · subst h1
    subst h2
    have hn : n1 = n2 := by
      clear hdesc hnn
      rcases hb1 with hb1 | hb1 <;> rcases hb2 with hb2 | hb2 <;> omega
    have hec : t1c = t2c := by
      clear hb1 hb2 hdesc hnn
      omega
    have her2 : t1r = t2r + 1 ∨ t1r = t2r - 1 := by
      clear hb1 hb2 hdesc hnn
      omega
    clear hb1 hb2 he1 henpd hennd hd1
    have ht1A : (⟨t1r, t1c⟩ : Position) ∈ A :=
      (hdesc t1r t1c).mpr ⟨0, Or.inl ⟨by omega, by omega, by omega⟩⟩
    have ht2A : (⟨t2r, t2c⟩ : Position) ∈ A :=
      (hdesc t2r t2c).mpr ⟨0, Or.inr ⟨by omega, by omega, by omega⟩⟩
    have hnn2 := hnn _ ht2A
    dsimp only at hnn2
    have hbotA : (⟨t1r, t1c - ((n1 : Int) + 1)⟩ : Position) ∈ A :=
      (hdesc _ _).mpr ⟨n1 + 1, Or.inl ⟨le_refl _, by omega, by omega⟩⟩
    have hnn1 := hnn _ ht1A
    have hnnb := hnn _ hbotA
    dsimp only at hnn1 hnnb
    refine contains_center_of_boxcells (min t1r t2r) (max t1r t2r)
        (t1c - ((n1 : Int) + 1)) t1c ?_ ?_ ?_ ?_
    · omega
    · omega
    · refine Galaxy.bounding_rectangle_eq ⟨_, ht1A⟩ ?_ ?_ ?_ ?_ ?_
      · intro p hp
        obtain ⟨pr, pc⟩ := p
        dsimp only
        obtain ⟨m, hm⟩ := (hdesc pr pc).mp hp
        rcases hm with ⟨hm1, hm2, hm3⟩ | ⟨hm1, hm2, hm3⟩ <;> omega
      · exact ⟨⟨min t1r t2r, t1c⟩, (hdesc _ _).mpr ⟨0, by omega⟩, rfl⟩
      · exact ⟨⟨max t1r t2r, t1c⟩, (hdesc _ _).mpr ⟨0, by omega⟩, rfl⟩
      · exact ⟨⟨t1r, t1c - ((n1 : Int) + 1)⟩, hbotA, rfl⟩
      · exact ⟨⟨t1r, t1c⟩, ht1A, rfl⟩
    · intro r c3 h1' h2'
      refine (hdesc r c3).mpr ⟨(t1c - c3).toNat, ?_⟩
      omega
  · subst h1
    subst h2
    have hn : n1 = n2 := by
      clear hdesc hnn
      rcases hb1 with hb1 | hb1 <;> rcases hb2 with hb2 | hb2 <;> omega
    have hec : t1c = t2c := by
      clear hb1 hb2 hdesc hnn
      omega
    have her2 : t1r = t2r + 1 ∨ t1r = t2r - 1 := by
      clear hb1 hb2 hdesc hnn
      omega
    clear hb1 hb2 he1 henpd hennd hd1
    have ht1A : (⟨t1r, t1c⟩ : Position) ∈ A :=
      (hdesc t1r t1c).mpr ⟨0, Or.inl ⟨by omega, by omega, by omega⟩⟩
    have ht2A : (⟨t2r, t2c⟩ : Position) ∈ A :=
      (hdesc t2r t2c).mpr ⟨0, Or.inr ⟨by omega, by omega, by omega⟩⟩
    have hnn2 := hnn _ ht2A
    dsimp only at hnn2
    have htopA : (⟨t1r, t1c + ((n1 : Int) + 1)⟩ : Position) ∈ A :=
      (hdesc _ _).mpr ⟨n1 + 1, Or.inl ⟨le_refl _, by omega, by omega⟩⟩
    have hnn1 := hnn _ ht1A
    dsimp only at hnn1
    refine contains_center_of_boxcells (min t1r t2r) (max t1r t2r)
        t1c (t1c + ((n1 : Int) + 1)) ?_ ?_ ?_ ?_
    · omega
    · omega
    · refine Galaxy.bounding_rectangle_eq ⟨_, ht1A⟩ ?_ ?_ ?_ ?_ ?_
      · intro p hp
        obtain ⟨pr, pc⟩ := p
        dsimp only
        obtain ⟨m, hm⟩ := (hdesc pr pc).mp hp
        rcases hm with ⟨hm1, hm2, hm3⟩ | ⟨hm1, hm2, hm3⟩ <;> omega
      · exact ⟨⟨min t1r t2r, t1c⟩, (hdesc _ _).mpr ⟨0, by omega⟩, rfl⟩
      · exact ⟨⟨max t1r t2r, t1c⟩, (hdesc _ _).mpr ⟨0, by omega⟩, rfl⟩
      · exact ⟨⟨t1r, t1c⟩, ht1A, rfl⟩
      · exact ⟨⟨t1r, t1c + ((n1 : Int) + 1)⟩, htopA, rfl⟩
    · intro r c3 h1' h2'
      refine (hdesc r c3).mpr ⟨(c3 - t1c).toNat, ?_⟩
      omega
  · subst h1
    subst h2
    have hn : n1 = n2 := by
      clear hdesc hnn
      rcases hb1 with hb1 | hb1 <;> rcases hb2 with hb2 | hb2 <;> omega
    have hre : t1r = t2r := by
      clear hb1 hb2 hdesc hnn
      omega
    have hce2 : t1c = t2c + 1 ∨ t1c = t2c - 1 := by
      clear hb1 hb2 hdesc hnn
      omega
    clear hb1 hb2 he1 henpd hennd hd1
    have ht1A : (⟨t1r, t1c⟩ : Position) ∈ A :=
      (hdesc t1r t1c).mpr ⟨0, Or.inl ⟨by omega, by omega, by omega⟩⟩
    have ht2A : (⟨t2r, t2c⟩ : Position) ∈ A :=
      (hdesc t2r t2c).mpr ⟨0, Or.inr ⟨by omega, by omega, by omega⟩⟩
    have hnn2 := hnn _ ht2A
    dsimp only at hnn2
    have hbotA : (⟨t1r - ((n1 : Int) + 1), t1c⟩ : Position) ∈ A :=
      (hdesc _ _).mpr ⟨n1 + 1, Or.inl ⟨le_refl _, by omega, by omega⟩⟩
    have hnn1 := hnn _ ht1A
    have hnnb := hnn _ hbotA
    dsimp only at hnn1 hnnb
    refine contains_center_of_boxcells (t1r - ((n1 : Int) + 1)) t1r
        (min t1c t2c) (max t1c t2c) ?_ ?_ ?_ ?_
    · omega
    · omega
    · refine Galaxy.bounding_rectangle_eq ⟨_, ht1A⟩ ?_ ?_ ?_ ?_ ?_
      · intro p hp
        obtain ⟨pr, pc⟩ := p
        dsimp only
        obtain ⟨m, hm⟩ := (hdesc pr pc).mp hp
        rcases hm with ⟨hm1, hm2, hm3⟩ | ⟨hm1, hm2, hm3⟩ <;> omega
      · exact ⟨⟨t1r - ((n1 : Int) + 1), t1c⟩, hbotA, rfl⟩
      · exact ⟨⟨t1r, t1c⟩, ht1A, rfl⟩
      · exact ⟨⟨t1r, min t1c t2c⟩, (hdesc _ _).mpr ⟨0, by omega⟩, rfl⟩
      · exact ⟨⟨t1r, max t1c t2c⟩, (hdesc _ _).mpr ⟨0, by omega⟩, rfl⟩
    · intro r c3 h1' h2'
      refine (hdesc r c3).mpr ⟨(t1r - r).toNat, ?_⟩
      omega
  · subst h1
    subst h2
    have hn : n1 = n2 := by
      clear hdesc hnn
      rcases hb1 with hb1 | hb1 <;> rcases hb2 with hb2 | hb2 <;> omega
    have hre : t1r = t2r := by
      clear hb1 hb2 hdesc hnn
      omega
    have hce2 : t1c = t2c + 1 ∨ t1c = t2c - 1 := by
      clear hb1 hb2 hdesc hnn
      omega
    clear hb1 hb2 he1 henpd hennd hd1
    have ht1A : (⟨t1r, t1c⟩ : Position) ∈ A :=
      (hdesc t1r t1c).mpr ⟨0, Or.inl ⟨by omega, by omega, by omega⟩⟩
    have ht2A : (⟨t2r, t2c⟩ : Position) ∈ A :=
      (hdesc t2r t2c).mpr ⟨0, Or.inr ⟨by omega, by omega, by omega⟩⟩
    have hnn2 := hnn _ ht2A
    dsimp only at hnn2
    have htopA : (⟨t1r + ((n1 : Int) + 1), t1c⟩ : Position) ∈ A :=
      (hdesc _ _).mpr ⟨n1 + 1, Or.inl ⟨le_refl _, by omega, by omega⟩⟩
    have hnn1 := hnn _ ht1A
    dsimp only at hnn1
    refine contains_center_of_boxcells t1r (t1r + ((n1 : Int) + 1))
        (min t1c t2c) (max t1c t2c) ?_ ?_ ?_ ?_
    · omega
    · omega
    · refine Galaxy.bounding_rectangle_eq ⟨_, ht1A⟩ ?_ ?_ ?_ ?_ ?_
      · intro p hp
        obtain ⟨pr, pc⟩ := p
        dsimp only
        obtain ⟨m, hm⟩ := (hdesc pr pc).mp hp
        rcases hm with ⟨hm1, hm2, hm3⟩ | ⟨hm1, hm2, hm3⟩ <;> omega
      · exact ⟨⟨t1r, t1c⟩, ht1A, rfl⟩
      · exact ⟨⟨t1r + ((n1 : Int) + 1), t1c⟩, htopA, rfl⟩
      · exact ⟨⟨t1r, min t1c t2c⟩, (hdesc _ _).mpr ⟨0, by omega⟩, rfl⟩
      · exact ⟨⟨t1r, max t1c t2c⟩, (hdesc _ _).mpr ⟨0, by omega⟩, rfl⟩
    · intro r c3 h1' h2'
      refine (hdesc r c3).mpr ⟨(r - t1r).toNat, ?_⟩
      omega

theorem two_chain_segment_center {A : Finset Position}
    {t1r t1c t2r t2c cr cc dr dc : Int} {n1 n2 : Nat}
    (hax : (dr = 0 ∧ (dc = 2 ∨ dc = -2)) ∨ (dc = 0 ∧ (dr = 2 ∨ dr = -2)))
    (he1 : (t1r - t2r).natAbs + (t1c - t2c).natAbs = 1)
    (he_d : (t1r - t2r + dr).natAbs + (t1c - t2c + dc).natAbs = 1)
    (hb1 : (t1r - ((n1 : Int) + 1) * dr = cr - t1r + dr ∧
        t1c - ((n1 : Int) + 1) * dc = cc - t1c + dc) ∨
      (t1r - ((n1 : Int) + 1) * dr = cr - t2r + dr ∧
        t1c - ((n1 : Int) + 1) * dc = cc - t2c + dc))
    (hb2 : (t2r - ((n2 : Int) + 1) * dr = cr - t1r + dr ∧
        t2c - ((n2 : Int) + 1) * dc = cc - t1c + dc) ∨
      (t2r - ((n2 : Int) + 1) * dr = cr - t2r + dr ∧
        t2c - ((n2 : Int) + 1) * dc = cc - t2c + dc))
    (hdesc : ∀ rr cc3 : Int, (⟨rr, cc3⟩ : Position) ∈ A ↔
      ∃ m : Nat, (m ≤ n1 + 1 ∧ rr = t1r - (m : Int) * dr ∧ cc3 = t1c - (m : Int) * dc) ∨
        (m ≤ n2 + 1 ∧ rr = t2r - (m : Int) * dr ∧ cc3 = t2c - (m : Int) * dc))
    (hnn : ∀ p ∈ A, 0 ≤ p.row ∧ 0 ≤ p.column) :
    (⟨A⟩ : Galaxy).contains_center := by
  rcases hax with ⟨h1, h2 | h2⟩ | ⟨h1, h2 | h2⟩
  · subst h1
    subst h2
    have hre : t1r = t2r := by
      clear hb1 hb2 hdesc hnn
      omega
    have hce : t1c = t2c - 1 := by
      clear hb1 hb2 hdesc hnn
      omega
    have hn12 : n1 = n2 ∨ n2 = n1 + 1 := by
      clear hdesc hnn
      rcases hb1 with hb1 | hb1 <;> rcases hb2 with hb2 | hb2 <;> omega
    clear hb1 hb2 he1 he_d
    have ht1A : (⟨t1r, t1c⟩ : Position) ∈ A :=
      (hdesc t1r t1c).mpr ⟨0, Or.inl ⟨by omega, by omega, by omega⟩⟩
    have ht2A : (⟨t2r, t2c⟩ : Position) ∈ A :=
      (hdesc t2r t2c).mpr ⟨0, Or.inr ⟨by omega, by omega, by omega⟩⟩
    have hbot1 : (⟨t1r, t1c - 2 * ((n1 : Int) + 1)⟩ : Position) ∈ A :=
      (hdesc _ _).mpr ⟨n1 + 1, Or.inl ⟨le_refl _, by omega, by omega⟩⟩
    have hbot2 : (⟨t1r, t2c - 2 * ((n2 : Int) + 1)⟩ : Position) ∈ A :=
      (hdesc _ _).mpr ⟨n2 + 1, Or.inr ⟨le_refl _, by omega, by omega⟩⟩
    have hLA : (⟨t1r, min (t1c - 2 * ((n1 : Int) + 1)) (t2c - 2 * ((n2 : Int) + 1))⟩ :
        Position) ∈ A :=
      (hdesc _ _).mpr
        ⟨(t2c - min (t1c - 2 * ((n1 : Int) + 1)) (t2c - 2 * ((n2 : Int) + 1))).toNat / 2,
          by omega⟩
    have hnn1 := hnn _ ht1A
    have hnn2 := hnn _ ht2A
    have hnnb1 := hnn _ hbot1
    have hnnb2 := hnn _ hbot2
    dsimp only at hnn1 hnn2 hnnb1 hnnb2
    refine contains_center_of_boxcells t1r t1r
        (min (t1c - 2 * ((n1 : Int) + 1)) (t2c - 2 * ((n2 : Int) + 1))) t2c ?_ ?_ ?_ ?_
    · omega
    · omega
    · refine Galaxy.bounding_rectangle_eq ⟨_, ht1A⟩ ?_ ?_ ?_ ?_ ?_
      · intro p hp
        obtain ⟨pr, pc⟩ := p
        dsimp only
        obtain ⟨m, hm⟩ := (hdesc pr pc).mp hp
        rcases hm with ⟨hm1, hm2, hm3⟩ | ⟨hm1, hm2, hm3⟩ <;> omega
      · exact ⟨⟨t1r, t1c⟩, ht1A, rfl⟩
      · exact ⟨⟨t1r, t1c⟩, ht1A, rfl⟩
      · exact ⟨⟨t1r, min (t1c - 2 * ((n1 : Int) + 1)) (t2c - 2 * ((n2 : Int) + 1))⟩,
          hLA, rfl⟩
      · exact ⟨⟨t2r, t2c⟩, ht2A, rfl⟩
    · intro r c3 h1' h2'
      refine (hdesc r c3).mpr ⟨(t2c - c3).toNat / 2, ?_⟩
      omega
  · subst h1
    subst h2
    have hre : t1r = t2r := by
      clear hb1 hb2 hdesc hnn
      omega
    have hce : t1c = t2c + 1 := by
      clear hb1 hb2 hdesc hnn
      omega
    have hn12 : n1 = n2 ∨ n2 = n1 + 1 := by
      clear hdesc hnn
      rcases hb1 with hb1 | hb1 <;> rcases hb2 with hb2 | hb2 <;> omega
    clear hb1 hb2 he1 he_d
    have ht1A : (⟨t1r, t1c⟩ : Position) ∈ A :=
      (hdesc t1r t1c).mpr ⟨0, Or.inl ⟨by omega, by omega, by omega⟩⟩
    have ht2A : (⟨t2r, t2c⟩ : Position) ∈ A :=
      (hdesc t2r t2c).mpr ⟨0, Or.inr ⟨by omega, by omega, by omega⟩⟩
    have hbot1 : (⟨t1r, t1c + 2 * ((n1 : Int) + 1)⟩ : Position) ∈ A :=
      (hdesc _ _).mpr ⟨n1 + 1, Or.inl ⟨le_refl _, by omega, by omega⟩⟩
    have hbot2 : (⟨t1r, t2c + 2 * ((n2 : Int) + 1)⟩ : Position) ∈ A :=
      (hdesc _ _).mpr ⟨n2 + 1, Or.inr ⟨le_refl _, by omega, by omega⟩⟩
    have hHA : (⟨t1r, max (t1c + 2 * ((n1 : Int) + 1)) (t2c + 2 * ((n2 : Int) + 1))⟩ :
        Position) ∈ A :=
      (hdesc _ _).mpr
        ⟨(max (t1c + 2 * ((n1 : Int) + 1)) (t2c + 2 * ((n2 : Int) + 1)) - t2c).toNat / 2,
          by omega⟩
    have hnn1 := hnn _ ht1A
    have hnn2 := hnn _ ht2A
    dsimp only at hnn1 hnn2
    refine contains_center_of_boxcells t1r t1r
        t2c (max (t1c + 2 * ((n1 : Int) + 1)) (t2c + 2 * ((n2 : Int) + 1))) ?_ ?_ ?_ ?_
    · omega
    · omega
    · refine Galaxy.bounding_rectangle_eq ⟨_, ht1A⟩ ?_ ?_ ?_ ?_ ?_
      · intro p hp
        obtain ⟨pr, pc⟩ := p
        dsimp only
        obtain ⟨m, hm⟩ := (hdesc pr pc).mp hp
        rcases hm with ⟨hm1, hm2, hm3⟩ | ⟨hm1, hm2, hm3⟩ <;> omega
      · exact ⟨⟨t1r, t1c⟩, ht1A, rfl⟩
      · exact ⟨⟨t1r, t1c⟩, ht1A, rfl⟩
      · exact ⟨⟨t2r, t2c⟩, ht2A, rfl⟩
      · exact ⟨⟨t1r, max (t1c + 2 * ((n1 : Int) + 1)) (t2c + 2 * ((n2 : Int) + 1))⟩,
          hHA, rfl⟩
    · intro r c3 h1' h2'
      refine (hdesc r c3).mpr ⟨(c3 - t2c).toNat / 2, ?_⟩
      omega
  · subst h1
    subst h2
    have hce : t1c = t2c := by
      clear hb1 hb2 hdesc hnn
      omega
    have hre : t1r = t2r - 1 := by
      clear hb1 hb2 hdesc hnn
      omega
    have hn12 : n1 = n2 ∨ n2 = n1 + 1 := by
      clear hdesc hnn
      rcases hb1 with hb1 | hb1 <;> rcases hb2 with hb2 | hb2 <;> omega
    clear hb1 hb2 he1 he_d
    have ht1A : (⟨t1r, t1c⟩ : Position) ∈ A :=
      (hdesc t1r t1c).mpr ⟨0, Or.inl ⟨by omega, by omega, by omega⟩⟩
    have ht2A : (⟨t2r, t2c⟩ : Position) ∈ A :=
      (hdesc t2r t2c).mpr ⟨0, Or.inr ⟨by omega, by omega, by omega⟩⟩
    have hbot1 : (⟨t1r - 2 * ((n1 : Int) + 1), t1c⟩ : Position) ∈ A :=
      (hdesc _ _).mpr ⟨n1 + 1, Or.inl ⟨le_refl _, by omega, by omega⟩⟩
    have hbot2 : (⟨t2r - 2 * ((n2 : Int) + 1), t1c⟩ : Position) ∈ A :=
      (hdesc _ _).mpr ⟨n2 + 1, Or.inr ⟨le_refl _, by omega, by omega⟩⟩
    have hLA : (⟨min (t1r - 2 * ((n1 : Int) + 1)) (t2r - 2 * ((n2 : Int) + 1)), t1c⟩ :
        Position) ∈ A :=
      (hdesc _ _).mpr
        ⟨(t2r - min (t1r - 2 * ((n1 : Int) + 1)) (t2r - 2 * ((n2 : Int) + 1))).toNat / 2,
          by omega⟩
    have hnn1 := hnn _ ht1A
    have hnn2 := hnn _ ht2A
    have hnnb1 := hnn _ hbot1
    have hnnb2 := hnn _ hbot2
    dsimp only at hnn1 hnn2 hnnb1 hnnb2
    refine contains_center_of_boxcells
        (min (t1r - 2 * ((n1 : Int) + 1)) (t2r - 2 * ((n2 : Int) + 1))) t2r
        t1c t1c ?_ ?_ ?_ ?_
    · omega
    · omega
    · refine Galaxy.bounding_rectangle_eq ⟨_, ht1A⟩ ?_ ?_ ?_ ?_ ?_
      · intro p hp
        obtain ⟨pr, pc⟩ := p
        dsimp only
        obtain ⟨m, hm⟩ := (hdesc pr pc).mp hp
        rcases hm with ⟨hm1, hm2, hm3⟩ | ⟨hm1, hm2, hm3⟩ <;> omega
      · exact ⟨⟨min (t1r - 2 * ((n1 : Int) + 1)) (t2r - 2 * ((n2 : Int) + 1)), t1c⟩,
          hLA, rfl⟩
      · exact ⟨⟨t2r, t2c⟩, ht2A, rfl⟩
      · exact ⟨⟨t1r, t1c⟩, ht1A, rfl⟩
      · exact ⟨⟨t1r, t1c⟩, ht1A, rfl⟩
    · intro r c3 h1' h2'
      refine (hdesc r c3).mpr ⟨(t2r - r).toNat / 2, ?_⟩
      omega
  · subst h1
    subst h2
    have hce : t1c = t2c := by
      clear hb1 hb2 hdesc hnn
      omega
    have hre : t1r = t2r + 1 := by
      clear hb1 hb2 hdesc hnn
      omega
    have hn12 : n1 = n2 ∨ n2 = n1 + 1 := by
      clear hdesc hnn
      rcases hb1 with hb1 | hb1 <;> rcases hb2 with hb2 | hb2 <;> omega
    clear hb1 hb2 he1 he_d
    have ht1A : (⟨t1r, t1c⟩ : Position) ∈ A :=
      (hdesc t1r t1c).mpr ⟨0, Or.inl ⟨by omega, by omega, by omega⟩⟩
    have ht2A : (⟨t2r, t2c⟩ : Position) ∈ A :=
      (hdesc t2r t2c).mpr ⟨0, Or.inr ⟨by omega, by omega, by omega⟩⟩
    have hbot1 : (⟨t1r + 2 * ((n1 : Int) + 1), t1c⟩ : Position) ∈ A :=
      (hdesc _ _).mpr ⟨n1 + 1, Or.inl ⟨le_refl _, by omega, by omega⟩⟩
    have hbot2 : (⟨t2r + 2 * ((n2 : Int) + 1), t1c⟩ : Position) ∈ A :=
      (hdesc _ _).mpr ⟨n2 + 1, Or.inr ⟨le_refl _, by omega, by omega⟩⟩
    have hHA : (⟨max (t1r + 2 * ((n1 : Int) + 1)) (t2r + 2 * ((n2 : Int) + 1)), t1c⟩ :
        Position) ∈ A :=
      (hdesc _ _).mpr
        ⟨(max (t1r + 2 * ((n1 : Int) + 1)) (t2r + 2 * ((n2 : Int) + 1)) - t2r).toNat / 2,
          by omega⟩
    have hnn1 := hnn _ ht1A
    have hnn2 := hnn _ ht2A
    dsimp only at hnn1 hnn2
    refine contains_center_of_boxcells
        t2r (max (t1r + 2 * ((n1 : Int) + 1)) (t2r + 2 * ((n2 : Int) + 1)))
        t1c t1c ?_ ?_ ?_ ?_
    · omega
    · omega
    · refine Galaxy.bounding_rectangle_eq ⟨_, ht1A⟩ ?_ ?_ ?_ ?_ ?_
      · intro p hp
        obtain ⟨pr, pc⟩ := p
        dsimp only
        obtain ⟨m, hm⟩ := (hdesc pr pc).mp hp
        rcases hm with ⟨hm1, hm2, hm3⟩ | ⟨hm1, hm2, hm3⟩ <;> omega
      · exact ⟨⟨t2r, t2c⟩, ht2A, rfl⟩
      · exact ⟨⟨max (t1r + 2 * ((n1 : Int) + 1)) (t2r + 2 * ((n2 : Int) + 1)), t1c⟩,
          hHA, rfl⟩
      · exact ⟨⟨t1r, t1c⟩, ht1A, rfl⟩
      · exact ⟨⟨t1r, t1c⟩, ht1A, rfl⟩
    · intro r c3 h1' h2'
      refine (hdesc r c3).mpr ⟨(r - t2r).toNat / 2, ?_⟩
      omega

theorem two_chain_staircase_center {A : Finset Position}
    {t1r t1c t2r t2c cr cc dr dc : Int} {n1 n2 : Nat}
    (hdd : (dr = 1 ∨ dr = -1) ∧ (dc = 1 ∨ dc = -1))
    (he1 : (t1r - t2r).natAbs + (t1c - t2c).natAbs = 1)
    (he_d : (t1r - t2r + dr).natAbs + (t1c - t2c + dc).natAbs = 1)
    (hb1 : (t1r - ((n1 : Int) + 1) * dr = cr - t1r + dr ∧
        t1c - ((n1 : Int) + 1) * dc = cc - t1c + dc) ∨
      (t1r - ((n1 : Int) + 1) * dr = cr - t2r + dr ∧
        t1c - ((n1 : Int) + 1) * dc = cc - t2c + dc))
    (hb2 : (t2r - ((n2 : Int) + 1) * dr = cr - t1r + dr ∧
        t2c - ((n2 : Int) + 1) * dc = cc - t1c + dc) ∨
      (t2r - ((n2 : Int) + 1) * dr = cr - t2r + dr ∧
        t2c - ((n2 : Int) + 1) * dc = cc - t2c + dc))
    (hdesc : ∀ rr cc3 : Int, (⟨rr, cc3⟩ : Position) ∈ A ↔
      ∃ m : Nat, (m ≤ n1 + 1 ∧ rr = t1r - (m : Int) * dr ∧ cc3 = t1c - (m : Int) * dc) ∨
        (m ≤ n2 + 1 ∧ rr = t2r - (m : Int) * dr ∧ cc3 = t2c - (m : Int) * dc))
    (hnn : ∀ p ∈ A, 0 ≤ p.row ∧ 0 ≤ p.column) :
    (⟨A⟩ : Galaxy).contains_center := by
  have hecase : (t1r - t2r = -dr ∧ t1c = t2c) ∨ (t1r = t2r ∧ t1c - t2c = -dc) := by
    clear hb1 hb2 hdesc hnn
    omega
  obtain ⟨hdr, hdc⟩ := hdd
  rcases hdr with hdr | hdr <;> subst hdr <;> rcases hdc with hdc | hdc <;>
      subst hdc <;> rcases hecase with ⟨her, hec⟩ | ⟨her, hec⟩
  · have hn : n1 = n2 := by
      clear hdesc hnn
      rcases hb1 with hb1 | hb1 <;> rcases hb2 with hb2 | hb2 <;> omega
    clear hb1 hb2 he1 he_d
    have ht1A : (⟨t1r, t1c⟩ : Position) ∈ A :=
      (hdesc t1r t1c).mpr ⟨0, Or.inl ⟨by omega, by omega, by omega⟩⟩
    have ht2A : (⟨t2r, t2c⟩ : Position) ∈ A :=
      (hdesc t2r t2c).mpr ⟨0, Or.inr ⟨by omega, by omega, by omega⟩⟩
    have hbot1 : (⟨t1r - ((n1 : Int) + 1), t1c - ((n1 : Int) + 1)⟩ : Position) ∈ A :=
      (hdesc _ _).mpr ⟨n1 + 1, Or.inl ⟨le_refl _, by omega, by omega⟩⟩
    have hnn1 := hnn _ ht1A
    have hnn2 := hnn _ ht2A
    have hnnb1 := hnn _ hbot1
    dsimp only at hnn1 hnn2 hnnb1
    refine contains_center_of_boxcells (t1r - ((n1 : Int) + 1)) (t2r)
        (t1c - ((n1 : Int) + 1)) (t1c) ?_ ?_ ?_ ?_
    · omega
    · omega
    · refine Galaxy.bounding_rectangle_eq ⟨_, ht1A⟩ ?_ ?_ ?_ ?_ ?_
      · intro p hp
        obtain ⟨pr, pc⟩ := p
        dsimp only
        obtain ⟨m, hm⟩ := (hdesc pr pc).mp hp
        rcases hm with ⟨hm1, hm2, hm3⟩ | ⟨hm1, hm2, hm3⟩ <;> omega
      · exact ⟨⟨t1r - ((n1 : Int) + 1), t1c - ((n1 : Int) + 1)⟩, hbot1, rfl⟩
      · exact ⟨⟨t2r, t2c⟩, ht2A, rfl⟩
      · exact ⟨⟨t1r - ((n1 : Int) + 1), t1c - ((n1 : Int) + 1)⟩, hbot1, rfl⟩
      · exact ⟨⟨t1r, t1c⟩, ht1A, rfl⟩
    · intro r c3 h1' h2'
      refine (hdesc r c3).mpr ⟨(t1c - c3).toNat, ?_⟩
      omega
  · have hn : n1 = n2 := by
      clear hdesc hnn
      rcases hb1 with hb1 | hb1 <;> rcases hb2 with hb2 | hb2 <;> omega
    clear hb1 hb2 he1 he_d
    have ht1A : (⟨t1r, t1c⟩ : Position) ∈ A :=
      (hdesc t1r t1c).mpr ⟨0, Or.inl ⟨by omega, by omega, by omega⟩⟩
    have ht2A : (⟨t2r, t2c⟩ : Position) ∈ A :=
      (hdesc t2r t2c).mpr ⟨0, Or.inr ⟨by omega, by omega, by omega⟩⟩
    have hbot1 : (⟨t1r - ((n1 : Int) + 1), t1c - ((n1 : Int) + 1)⟩ : Position) ∈ A :=
      (hdesc _ _).mpr ⟨n1 + 1, Or.inl ⟨le_refl _, by omega, by omega⟩⟩
    have hnn1 := hnn _ ht1A
    have hnn2 := hnn _ ht2A
    have hnnb1 := hnn _ hbot1
    dsimp only at hnn1 hnn2 hnnb1
    refine contains_center_of_boxcells (t1r - ((n1 : Int) + 1)) (t1r)
        (t1c - ((n1 : Int) + 1)) (t2c) ?_ ?_ ?_ ?_
    · omega
    · omega
    · refine Galaxy.bounding_rectangle_eq ⟨_, ht1A⟩ ?_ ?_ ?_ ?_ ?_
      · intro p hp
        obtain ⟨pr, pc⟩ := p
        dsimp only
        obtain ⟨m, hm⟩ := (hdesc pr pc).mp hp
        rcases hm with ⟨hm1, hm2, hm3⟩ | ⟨hm1, hm2, hm3⟩ <;> omega
      · exact ⟨⟨t1r - ((n1 : Int) + 1), t1c - ((n1 : Int) + 1)⟩, hbot1, rfl⟩
      · exact ⟨⟨t1r, t1c⟩, ht1A, rfl⟩
      · exact ⟨⟨t1r - ((n1 : Int) + 1), t1c - ((n1 : Int) + 1)⟩, hbot1, rfl⟩
      · exact ⟨⟨t2r, t2c⟩, ht2A, rfl⟩
    · intro r c3 h1' h2'
      refine (hdesc r c3).mpr ⟨(t1r - r).toNat, ?_⟩
      omega
  · have hn : n1 = n2 := by
      clear hdesc hnn
      rcases hb1 with hb1 | hb1 <;> rcases hb2 with hb2 | hb2 <;> omega
    clear hb1 hb2 he1 he_d
    have ht1A : (⟨t1r, t1c⟩ : Position) ∈ A :=
      (hdesc t1r t1c).mpr ⟨0, Or.inl ⟨by omega, by omega, by omega⟩⟩
    have ht2A : (⟨t2r, t2c⟩ : Position) ∈ A :=
      (hdesc t2r t2c).mpr ⟨0, Or.inr ⟨by omega, by omega, by omega⟩⟩
    have hbot1 : (⟨t1r - ((n1 : Int) + 1), t1c + ((n1 : Int) + 1)⟩ : Position) ∈ A :=
      (hdesc _ _).mpr ⟨n1 + 1, Or.inl ⟨le_refl _, by omega, by omega⟩⟩
    have hnn1 := hnn _ ht1A
    have hnn2 := hnn _ ht2A
    have hnnb1 := hnn _ hbot1
    dsimp only at hnn1 hnn2 hnnb1
    refine contains_center_of_boxcells (t1r - ((n1 : Int) + 1)) (t2r)
        (t1c) (t1c + ((n1 : Int) + 1)) ?_ ?_ ?_ ?_
    · omega
    · omega
    · refine Galaxy.bounding_rectangle_eq ⟨_, ht1A⟩ ?_ ?_ ?_ ?_ ?_
      · intro p hp
        obtain ⟨pr, pc⟩ := p
        dsimp only
        obtain ⟨m, hm⟩ := (hdesc pr pc).mp hp
        rcases hm with ⟨hm1, hm2, hm3⟩ | ⟨hm1, hm2, hm3⟩ <;> omega
      · exact ⟨⟨t1r - ((n1 : Int) + 1), t1c + ((n1 : Int) + 1)⟩, hbot1, rfl⟩
      · exact ⟨⟨t2r, t2c⟩, ht2A, rfl⟩
      · exact ⟨⟨t1r, t1c⟩, ht1A, rfl⟩
      · exact ⟨⟨t1r - ((n1 : Int) + 1), t1c + ((n1 : Int) + 1)⟩, hbot1, rfl⟩
    · intro r c3 h1' h2'
      refine (hdesc r c3).mpr ⟨(c3 - t1c).toNat, ?_⟩
      omega
  · have hn : n1 = n2 := by
      clear hdesc hnn
      rcases hb1 with hb1 | hb1 <;> rcases hb2 with hb2 | hb2 <;> omega
    clear hb1 hb2 he1 he_d
    have ht1A : (⟨t1r, t1c⟩ : Position) ∈ A :=
      (hdesc t1r t1c).mpr ⟨0, Or.inl ⟨by omega, by omega, by omega⟩⟩
    have ht2A : (⟨t2r, t2c⟩ : Position) ∈ A :=
      (hdesc t2r t2c).mpr ⟨0, Or.inr ⟨by omega, by omega, by omega⟩⟩
    have hbot1 : (⟨t1r - ((n1 : Int) + 1), t1c + ((n1 : Int) + 1)⟩ : Position) ∈ A :=
      (hdesc _ _).mpr ⟨n1 + 1, Or.inl ⟨le_refl _, by omega, by omega⟩⟩
    have hnn1 := hnn _ ht1A
    have hnn2 := hnn _ ht2A
    have hnnb1 := hnn _ hbot1
    dsimp only at hnn1 hnn2 hnnb1
    refine contains_center_of_boxcells (t1r - ((n1 : Int) + 1)) (t1r)
        (t2c) (t1c + ((n1 : Int) + 1)) ?_ ?_ ?_ ?_
    · omega
    · omega
    · refine Galaxy.bounding_rectangle_eq ⟨_, ht1A⟩ ?_ ?_ ?_ ?_ ?_
      · intro p hp
        obtain ⟨pr, pc⟩ := p
        dsimp only
        obtain ⟨m, hm⟩ := (hdesc pr pc).mp hp
        rcases hm with ⟨hm1, hm2, hm3⟩ | ⟨hm1, hm2, hm3⟩ <;> omega
      · exact ⟨⟨t1r - ((n1 : Int) + 1), t1c + ((n1 : Int) + 1)⟩, hbot1, rfl⟩
      · exact ⟨⟨t1r, t1c⟩, ht1A, rfl⟩
      · exact ⟨⟨t2r, t2c⟩, ht2A, rfl⟩
      · exact ⟨⟨t1r - ((n1 : Int) + 1), t1c + ((n1 : Int) + 1)⟩, hbot1, rfl⟩
    · intro r c3 h1' h2'
      refine (hdesc r c3).mpr ⟨(t1r - r).toNat, ?_⟩
      omega
  · have hn : n1 = n2 := by
      clear hdesc hnn
      rcases hb1 with hb1 | hb1 <;> rcases hb2 with hb2 | hb2 <;> omega
    clear hb1 hb2 he1 he_d
    have ht1A : (⟨t1r, t1c⟩ : Position) ∈ A :=
      (hdesc t1r t1c).mpr ⟨0, Or.inl ⟨by omega, by omega, by omega⟩⟩
    have ht2A : (⟨t2r, t2c⟩ : Position) ∈ A :=
      (hdesc t2r t2c).mpr ⟨0, Or.inr ⟨by omega, by omega, by omega⟩⟩
    have hbot1 : (⟨t1r + ((n1 : Int) + 1), t1c - ((n1 : Int) + 1)⟩ : Position) ∈ A :=
      (hdesc _ _).mpr ⟨n1 + 1, Or.inl ⟨le_refl _, by omega, by omega⟩⟩
    have hnn1 := hnn _ ht1A
    have hnn2 := hnn _ ht2A
    have hnnb1 := hnn _ hbot1
    dsimp only at hnn1 hnn2 hnnb1
    refine contains_center_of_boxcells (t2r) (t1r + ((n1 : Int) + 1))
        (t1c - ((n1 : Int) + 1)) (t1c) ?_ ?_ ?_ ?_
    · omega
    · omega
    · refine Galaxy.bounding_rectangle_eq ⟨_, ht1A⟩ ?_ ?_ ?_ ?_ ?_
      · intro p hp
        obtain ⟨pr, pc⟩ := p
        dsimp only
        obtain ⟨m, hm⟩ := (hdesc pr pc).mp hp
        rcases hm with ⟨hm1, hm2, hm3⟩ | ⟨hm1, hm2, hm3⟩ <;> omega
      · exact ⟨⟨t2r, t2c⟩, ht2A, rfl⟩
      · exact ⟨⟨t1r + ((n1 : Int) + 1), t1c - ((n1 : Int) + 1)⟩, hbot1, rfl⟩
      · exact ⟨⟨t1r + ((n1 : Int) + 1), t1c - ((n1 : Int) + 1)⟩, hbot1, rfl⟩
      · exact ⟨⟨t1r, t1c⟩, ht1A, rfl⟩
    · intro r c3 h1' h2'
      refine (hdesc r c3).mpr ⟨(t1c - c3).toNat, ?_⟩
      omega
  · have hn : n1 = n2 := by
      clear hdesc hnn
      rcases hb1 with hb1 | hb1 <;> rcases hb2 with hb2 | hb2 <;> omega
    clear hb1 hb2 he1 he_d
    have ht1A : (⟨t1r, t1c⟩ : Position) ∈ A :=
      (hdesc t1r t1c).mpr ⟨0, Or.inl ⟨by omega, by omega, by omega⟩⟩
    have ht2A : (⟨t2r, t2c⟩ : Position) ∈ A :=
      (hdesc t2r t2c).mpr ⟨0, Or.inr ⟨by omega, by omega, by omega⟩⟩
    have hbot1 : (⟨t1r + ((n1 : Int) + 1), t1c - ((n1 : Int) + 1)⟩ : Position) ∈ A :=
      (hdesc _ _).mpr ⟨n1 + 1, Or.inl ⟨le_refl _, by omega, by omega⟩⟩
    have hnn1 := hnn _ ht1A
    have hnn2 := hnn _ ht2A
    have hnnb1 := hnn _ hbot1
    dsimp only at hnn1 hnn2 hnnb1
    refine contains_center_of_boxcells (t1r) (t1r + ((n1 : Int) + 1))
        (t1c - ((n1 : Int) + 1)) (t2c) ?_ ?_ ?_ ?_
    · omega
    · omega
    · refine Galaxy.bounding_rectangle_eq ⟨_, ht1A⟩ ?_ ?_ ?_ ?_ ?_
      · intro p hp
        obtain ⟨pr, pc⟩ := p
        dsimp only
        obtain ⟨m, hm⟩ := (hdesc pr pc).mp hp
        rcases hm with ⟨hm1, hm2, hm3⟩ | ⟨hm1, hm2, hm3⟩ <;> omega
      · exact ⟨⟨t1r, t1c⟩, ht1A, rfl⟩
      · exact ⟨⟨t1r + ((n1 : Int) + 1), t1c - ((n1 : Int) + 1)⟩, hbot1, rfl⟩
      · exact ⟨⟨t1r + ((n1 : Int) + 1), t1c - ((n1 : Int) + 1)⟩, hbot1, rfl⟩
      · exact ⟨⟨t2r, t2c⟩, ht2A, rfl⟩
    · intro r c3 h1' h2'
      refine (hdesc r c3).mpr ⟨(r - t1r).toNat, ?_⟩
      omega
  · have hn : n1 = n2 := by
      clear hdesc hnn
      rcases hb1 with hb1 | hb1 <;> rcases hb2 with hb2 | hb2 <;> omega
    clear hb1 hb2 he1 he_d
    have ht1A : (⟨t1r, t1c⟩ : Position) ∈ A :=
      (hdesc t1r t1c).mpr ⟨0, Or.inl ⟨by omega, by omega, by omega⟩⟩
    have ht2A : (⟨t2r, t2c⟩ : Position) ∈ A :=
      (hdesc t2r t2c).mpr ⟨0, Or.inr ⟨by omega, by omega, by omega⟩⟩
    have hbot1 : (⟨t1r + ((n1 : Int) + 1), t1c + ((n1 : Int) + 1)⟩ : Position) ∈ A :=
      (hdesc _ _).mpr ⟨n1 + 1, Or.inl ⟨le_refl _, by omega, by omega⟩⟩
    have hnn1 := hnn _ ht1A
    have hnn2 := hnn _ ht2A
    have hnnb1 := hnn _ hbot1
    dsimp only at hnn1 hnn2 hnnb1
    refine contains_center_of_boxcells (t2r) (t1r + ((n1 : Int) + 1))
        (t1c) (t1c + ((n1 : Int) + 1)) ?_ ?_ ?_ ?_
    · omega
    · omega
    · refine Galaxy.bounding_rectangle_eq ⟨_, ht1A⟩ ?_ ?_ ?_ ?_ ?_
      · intro p hp
        obtain ⟨pr, pc⟩ := p
        dsimp only
        obtain ⟨m, hm⟩ := (hdesc pr pc).mp hp
        rcases hm with ⟨hm1, hm2, hm3⟩ | ⟨hm1, hm2, hm3⟩ <;> omega
      · exact ⟨⟨t2r, t2c⟩, ht2A, rfl⟩
      · exact ⟨⟨t1r + ((n1 : Int) + 1), t1c + ((n1 : Int) + 1)⟩, hbot1, rfl⟩
      · exact ⟨⟨t1r, t1c⟩, ht1A, rfl⟩
      · exact ⟨⟨t1r + ((n1 : Int) + 1), t1c + ((n1 : Int) + 1)⟩, hbot1, rfl⟩
    · intro r c3 h1' h2'
      refine (hdesc r c3).mpr ⟨(c3 - t1c).toNat, ?_⟩
      omega
  · have hn : n1 = n2 := by
      clear hdesc hnn
      rcases hb1 with hb1 | hb1 <;> rcases hb2 with hb2 | hb2 <;> omega
    clear hb1 hb2 he1 he_d
    have ht1A : (⟨t1r, t1c⟩ : Position) ∈ A :=
      (hdesc t1r t1c).mpr ⟨0, Or.inl ⟨by omega, by omega, by omega⟩⟩
    have ht2A : (⟨t2r, t2c⟩ : Position) ∈ A :=
      (hdesc t2r t2c).mpr ⟨0, Or.inr ⟨by omega, by omega, by omega⟩⟩
    have hbot1 : (⟨t1r + ((n1 : Int) + 1), t1c + ((n1 : Int) + 1)⟩ : Position) ∈ A :=
      (hdesc _ _).mpr ⟨n1 + 1, Or.inl ⟨le_refl _, by omega, by omega⟩⟩
    have hnn1 := hnn _ ht1A
    have hnn2 := hnn _ ht2A
    have hnnb1 := hnn _ hbot1
    dsimp only at hnn1 hnn2 hnnb1
    refine contains_center_of_boxcells (t1r) (t1r + ((n1 : Int) + 1))
        (t2c) (t1c + ((n1 : Int) + 1)) ?_ ?_ ?_ ?_
    · omega
    · omega
    · refine Galaxy.bounding_rectangle_eq ⟨_, ht1A⟩ ?_ ?_ ?_ ?_ ?_
      · intro p hp
        obtain ⟨pr, pc⟩ := p
        dsimp only
        obtain ⟨m, hm⟩ := (hdesc pr pc).mp hp
        rcases hm with ⟨hm1, hm2, hm3⟩ | ⟨hm1, hm2, hm3⟩ <;> omega
      · exact ⟨⟨t1r, t1c⟩, ht1A, rfl⟩
      · exact ⟨⟨t1r + ((n1 : Int) + 1), t1c + ((n1 : Int) + 1)⟩, hbot1, rfl⟩
      · exact ⟨⟨t2r, t2c⟩, ht2A, rfl⟩
      · exact ⟨⟨t1r + ((n1 : Int) + 1), t1c + ((n1 : Int) + 1)⟩, hbot1, rfl⟩
    · intro r c3 h1' h2'
      refine (hdesc r c3).mpr ⟨(r - t1r).toNat, ?_⟩
      omega

theorem natAbs_mul_cast (m : Nat) (a : Int) : ((m : Int) * a).natAbs = m * a.natAbs := by
  rw [Int.natAbs_mul]
  rw [(by omega : ((m : Int)).natAbs = m)]

theorem natAbs_mul_cast_succ (m : Nat) (a : Int) :
    (((m : Int) + 1) * a).natAbs = (m + 1) * a.natAbs := by
  rw [show ((m : Int) + 1) = ((m + 1 : Nat) : Int) by push_cast; ring, natAbs_mul_cast]

theorem CC_B_main {S : Finset Position} {t1r t1c t2r t2c cr cc cr' cc' : Int}
    (ht1 : (⟨t1r, t1c⟩ : Position) ∉ S)
    (ht2 : (⟨t2r, t2c⟩ : Position) ∉ S)
    (he1 : (t1r - t2r).natAbs + (t1c - t2c).natAbs = 1)
    (hadjS : ∃ s0 ∈ S, s0.isAdjacentTo ⟨t1r, t1c⟩)
    (hσ : ∀ pr pc : Int, (⟨pr, pc⟩ : Position) ∈ S →
      (⟨cr - pr, cc - pc⟩ : Position) ∈ S)
    (hσ' : ∀ pr pc : Int,
      (⟨pr, pc⟩ : Position) ∈ insert (⟨t2r, t2c⟩ : Position)
        (insert (⟨t1r, t1c⟩ : Position) S) →
      (⟨cr' - pr, cc' - pc⟩ : Position) ∈ insert (⟨t2r, t2c⟩ : Position)
        (insert (⟨t1r, t1c⟩ : Position) S))
    (hs1 : (⟨cr' - t1r, cc' - t1c⟩ : Position) ∈ S)
    (hs2 : (⟨cr' - t2r, cc' - t2c⟩ : Position) ∈ S)
    (hnn : ∀ p ∈ insert (⟨t2r, t2c⟩ : Position) (insert (⟨t1r, t1c⟩ : Position) S),
      0 ≤ p.row ∧ 0 ≤ p.column) :
    (⟨insert (⟨t2r, t2c⟩ : Position) (insert (⟨t1r, t1c⟩ : Position) S)⟩ :
      Galaxy).contains_center := by
  obtain ⟨dr, hdr⟩ : ∃ d : Int, d = cr' - cr := ⟨_, rfl⟩
  obtain ⟨dc, hdc⟩ : ∃ d : Int, d = cc' - cc := ⟨_, rfl⟩
  have ha1 : (⟨t1r - dr, t1c - dc⟩ : Position) ∈ S := by
    have h1 := hσ _ _ hs1
    exact mem_of_coords (by omega) (by omega) h1
  have ha2 : (⟨t2r - dr, t2c - dc⟩ : Position) ∈ S := by
    have h1 := hσ _ _ hs2
    exact mem_of_coords (by omega) (by omega) h1
  have hd0 : ¬(dr = 0 ∧ dc = 0) := by
    rintro ⟨h1, h2⟩
    exact ht1 (mem_of_coords (by omega) (by omega) ha1)
  have henpd : ¬(t1r - t2r = dr ∧ t1c - t2c = dc) := by
    rintro ⟨h1, h2⟩
    exact ht2 (mem_of_coords (by omega) (by omega) ha1)
  have hennd : ¬(t1r - t2r = -dr ∧ t1c - t2c = -dc) := by
    rintro ⟨h1, h2⟩
    exact ht1 (mem_of_coords (by omega) (by omega) ha2)
  have htrans2 : ∀ p ∈ S, (⟨p.row + dr, p.column + dc⟩ : Position) ∈ S ∨
      (p.row + dr = t1r ∧ p.column + dc = t1c) ∨
      (p.row + dr = t2r ∧ p.column + dc = t2c) := by
    intro p hp
    obtain ⟨pr, pc⟩ := p
    have h1 := hσ pr pc hp
    have h2 := hσ' (cr - pr) (cc - pc)
      (Finset.mem_insert_of_mem (Finset.mem_insert_of_mem h1))
    dsimp only
    rcases Finset.mem_insert.mp h2 with h | h
    · rw [Position.mk.injEq] at h
      exact Or.inr (Or.inr ⟨by omega, by omega⟩)
    · rcases Finset.mem_insert.mp h with h3 | h3
      · rw [Position.mk.injEq] at h3
        exact Or.inr (Or.inl ⟨by omega, by omega⟩)
      · exact Or.inl (mem_of_coords (by omega) (by omega) h3)
  have hchain := chain_decomp hd0 htrans2
  obtain ⟨s0, hs0, hadj0⟩ := hadjS
  obtain ⟨k0, hk0⟩ := hchain s0 hs0
  have hkey : dr.natAbs + dc.natAbs = 1 ∨
      (dr.natAbs + dc.natAbs = 2 ∧
        (t1r - t2r + dr).natAbs + (t1c - t2c + dc).natAbs = 1) := by
    clear ht1 ht2 hσ hσ' hs1 hs2 hnn ha1 ha2 henpd hennd htrans2 hchain hs0
    unfold Position.isAdjacentTo at hadj0
    dsimp only at hadj0
    rcases hk0 with ⟨hk1, hk2⟩ | ⟨hk1, hk2⟩
    · left
      have h1 : s0.row - t1r = -(((k0 : Int) + 1) * dr) := by
        have := hk1
        linarith
      have h2 : s0.column - t1c = -(((k0 : Int) + 1) * dc) := by
        have := hk2
        linarith
      rw [h1, h2, Int.natAbs_neg, Int.natAbs_neg, natAbs_mul_cast_succ k0 dr,
        natAbs_mul_cast_succ k0 dc] at hadj0
      have hmul : (k0 + 1) * (dr.natAbs + dc.natAbs) = 1 := by
        rw [Nat.mul_add]
        exact hadj0
      by_contra hne1
      rcases Nat.lt_or_ge (dr.natAbs + dc.natAbs) 2 with hlt | hge
      · have h0 : dr.natAbs + dc.natAbs = 0 := by omega
        rw [h0, Nat.mul_zero] at hmul
        omega
      · have h4 := Nat.mul_le_mul (le_refl (k0 + 1)) hge
        linarith [hmul, h4]
    · have h1 : s0.row - t1r = -((t1r - t2r) + ((k0 : Int) + 1) * dr) := by
        have := hk1
        linarith
      have h2 : s0.column - t1c = -((t1c - t2c) + ((k0 : Int) + 1) * dc) := by
        have := hk2
        linarith
      rw [h1, h2, Int.natAbs_neg, Int.natAbs_neg] at hadj0
      rcases Nat.eq_zero_or_pos k0 with hk00 | hk00
      · subst hk00
        rw [show (((0 : Nat) : Int) + 1) * dr = dr by push_cast; ring,
          show (((0 : Nat) : Int) + 1) * dc = dc by push_cast; ring] at hadj0
        omega
      · left
        have hXr := natAbs_mul_cast_succ k0 dr
        have hXc := natAbs_mul_cast_succ k0 dc
        have h2dr : 2 * dr.natAbs ≤ (k0 + 1) * dr.natAbs :=
          Nat.mul_le_mul_right _ (by omega)
        have h2dc : 2 * dc.natAbs ≤ (k0 + 1) * dc.natAbs :=
          Nat.mul_le_mul_right _ (by omega)
        clear hdr hdc hk1 hk2 h1 h2 hk00
        omega
  have hM : 1 ≤ dr.natAbs + dc.natAbs ∧ dr.natAbs + dc.natAbs ≤ 2 := by
    constructor
    · omega
    · rcases hkey with h | ⟨h, _⟩ <;> omega
  have hds : (dr = 0 ∧ (dc = 1 ∨ dc = -1 ∨ dc = 2 ∨ dc = -2)) ∨
      (dc = 0 ∧ (dr = 1 ∨ dr = -1 ∨ dr = 2 ∨ dr = -2)) ∨
      ((dr = 1 ∨ dr = -1) ∧ (dc = 1 ∨ dc = -1)) := by
    omega
  have hemd : ∀ m : Nat, 1 ≤ m →
      ¬(t1r - t2r = (m : Int) * dr ∧ t1c - t2c = (m : Int) * dc) := by
    intro m hm ⟨g1, g2⟩
    clear hkey hM hchain htrans2 hσ hσ' hs1 hs2 ha1 ha2 hnn ht1 ht2 hs0 hadj0 hd0
    rcases hds with ⟨h1, h2 | h2 | h2 | h2⟩ | ⟨h1, h2 | h2 | h2 | h2⟩ |
      ⟨h1 | h1, h2 | h2⟩ <;> subst h1 <;> subst h2 <;> omega
  have hemd2 : ∀ m : Nat, 1 ≤ m →
      ¬(t2r - t1r = (m : Int) * dr ∧ t2c - t1c = (m : Int) * dc) := by
    intro m hm ⟨g1, g2⟩
    clear hkey hM hchain htrans2 hσ hσ' hs1 hs2 ha1 ha2 hnn ht1 ht2 hs0 hadj0 hd0
    rcases hds with ⟨h1, h2 | h2 | h2 | h2⟩ | ⟨h1, h2 | h2 | h2 | h2⟩ |
      ⟨h1 | h1, h2 | h2⟩ <;> subst h1 <;> subst h2 <;> omega
  have hzero : ∀ m : Nat, 1 ≤ m → ¬((m : Int) * dr = 0 ∧ (m : Int) * dc = 0) := by
    intro m hm ⟨g1, g2⟩
    clear hkey hM hchain htrans2 hσ hσ' hs1 hs2 ha1 ha2 hnn ht1 ht2 hs0 hadj0 hd0
    rcases hds with ⟨h1, h2 | h2 | h2 | h2⟩ | ⟨h1, h2 | h2 | h2 | h2⟩ |
      ⟨h1 | h1, h2 | h2⟩ <;> subst h1 <;> subst h2 <;> omega
  clear hds hk0 hadj0
  have hstep1 : ∀ m : Nat, 1 ≤ m →
      (⟨t1r - ((m : Int) + 1) * dr, t1c - ((m : Int) + 1) * dc⟩ : Position) ∈ S →
      (⟨t1r - (m : Int) * dr, t1c - (m : Int) * dc⟩ : Position) ∈ S := by
    intro m hm hmem
    have hexp : ((m : Int) + 1) * dr = (m : Int) * dr + dr := by ring
    have hexp2 : ((m : Int) + 1) * dc = (m : Int) * dc + dc := by ring
    have ht := htrans2 _ hmem
    dsimp only at ht
    rcases ht with h | h | h
    · refine mem_of_coords ?_ ?_ h <;> ring
    · exfalso
      refine hzero m hm ⟨?_, ?_⟩ <;> linarith [h.1, h.2, hexp, hexp2]
    · exfalso
      refine hemd m hm ⟨?_, ?_⟩ <;> linarith [h.1, h.2, hexp, hexp2]
  have hstep2 : ∀ m : Nat, 1 ≤ m →
      (⟨t2r - ((m : Int) + 1) * dr, t2c - ((m : Int) + 1) * dc⟩ : Position) ∈ S →
      (⟨t2r - (m : Int) * dr, t2c - (m : Int) * dc⟩ : Position) ∈ S := by
    intro m hm hmem
    have hexp : ((m : Int) + 1) * dr = (m : Int) * dr + dr := by ring
    have hexp2 : ((m : Int) + 1) * dc = (m : Int) * dc + dc := by ring
    have ht := htrans2 _ hmem
    dsimp only at ht
    rcases ht with h | h | h
    · refine mem_of_coords ?_ ?_ h <;> ring
    · exfalso
      refine hemd2 m hm ⟨?_, ?_⟩ <;> linarith [h.1, h.2, hexp, hexp2]
    · exfalso
      refine hzero m hm ⟨?_, ?_⟩ <;> linarith [h.1, h.2, hexp, hexp2]
  have hdown1 : ∀ diff m : Nat, 1 ≤ m →
      (⟨t1r - (((m : Int) + (diff : Int)) + 1) * dr,
        t1c - (((m : Int) + (diff : Int)) + 1) * dc⟩ : Position) ∈ S →
      (⟨t1r - (m : Int) * dr, t1c - (m : Int) * dc⟩ : Position) ∈ S := by
    intro diff
    induction diff with
    | zero =>
      intro m hm h
      refine hstep1 m hm (mem_of_coords ?_ ?_ h) <;> push_cast <;> ring
    | succ df ih =>
      intro m hm h
      have h2 := ih (m + 1) (by omega)
        (mem_of_coords (by push_cast; ring) (by push_cast; ring) h)
      exact hstep1 m hm
        (mem_of_coords (by push_cast; ring) (by push_cast; ring) h2)
  have hdown2 : ∀ diff m : Nat, 1 ≤ m →
      (⟨t2r - (((m : Int) + (diff : Int)) + 1) * dr,
        t2c - (((m : Int) + (diff : Int)) + 1) * dc⟩ : Position) ∈ S →
      (⟨t2r - (m : Int) * dr, t2c - (m : Int) * dc⟩ : Position) ∈ S := by
    intro diff
    induction diff with
    | zero =>
      intro m hm h
      refine hstep2 m hm (mem_of_coords ?_ ?_ h) <;> push_cast <;> ring
    | succ df ih =>
      intro m hm h
      have h2 := ih (m + 1) (by omega)
        (mem_of_coords (by push_cast; ring) (by push_cast; ring) h)
      exact hstep2 m hm
        (mem_of_coords (by push_cast; ring) (by push_cast; ring) h2)
  have hdneg : ¬(-dr = 0 ∧ -dc = 0) := by omega
  obtain ⟨n1, hout1, hin1⟩ := exists_exit ha1 hdneg
  obtain ⟨n2, hout2, hin2⟩ := exists_exit ha2 hdneg
  have hSdesc : ∀ rr cc3 : Int, (⟨rr, cc3⟩ : Position) ∈ S ↔
      ∃ m : Nat, (m ≤ n1 ∧ rr = t1r - ((m : Int) + 1) * dr ∧
          cc3 = t1c - ((m : Int) + 1) * dc) ∨
        (m ≤ n2 ∧ rr = t2r - ((m : Int) + 1) * dr ∧
          cc3 = t2c - ((m : Int) + 1) * dc) := by
    intro rr cc3
    constructor
    · intro h
      obtain ⟨k, hk⟩ := hchain _ h
      rcases hk with ⟨hk1, hk2⟩ | ⟨hk1, hk2⟩
      · dsimp only at hk1 hk2
        by_cases hkn : k ≤ n1
        · exact ⟨k, Or.inl ⟨hkn, hk1, hk2⟩⟩
        · exfalso
          push_neg at hkn
          apply hout1
          by_cases hk1' : k = n1 + 1
          · subst hk1'
            refine mem_of_coords ?_ ?_ h
            · rw [hk1]
              push_cast
              ring
            · rw [hk2]
              push_cast
              ring
          · have hk2' : n1 + 2 ≤ k := by omega
            have hcell : (⟨t1r - ((k : Int) + 1) * dr,
                t1c - ((k : Int) + 1) * dc⟩ : Position) ∈ S :=
              mem_of_coords hk1 hk2 h
            have h2 := hdown1 (k - (n1 + 2)) (n1 + 2) (by omega)
              (mem_of_coords (by push_cast [Nat.cast_sub hk2']; ring)
                (by push_cast [Nat.cast_sub hk2']; ring) hcell)
            exact mem_of_coords (by push_cast; ring) (by push_cast; ring) h2
      · dsimp only at hk1 hk2
        by_cases hkn : k ≤ n2
        · exact ⟨k, Or.inr ⟨hkn, hk1, hk2⟩⟩
        · exfalso
          push_neg at hkn
          apply hout2
          by_cases hk1' : k = n2 + 1
          · subst hk1'
            refine mem_of_coords ?_ ?_ h
            · rw [hk1]
              push_cast
              ring
            · rw [hk2]
              push_cast
              ring
          · have hk2' : n2 + 2 ≤ k := by omega
            have hcell : (⟨t2r - ((k : Int) + 1) * dr,
                t2c - ((k : Int) + 1) * dc⟩ : Position) ∈ S :=
              mem_of_coords hk1 hk2 h
            have h2 := hdown2 (k - (n2 + 2)) (n2 + 2) (by omega)
              (mem_of_coords (by push_cast [Nat.cast_sub hk2']; ring)
                (by push_cast [Nat.cast_sub hk2']; ring) hcell)
            exact mem_of_coords (by push_cast; ring) (by push_cast; ring) h2
    · rintro ⟨m, ⟨hm, rfl, rfl⟩ | ⟨hm, rfl, rfl⟩⟩
      · exact mem_of_coords (by ring) (by ring) (hin1 m hm)
      · exact mem_of_coords (by ring) (by ring) (hin2 m hm)
  have hS'desc : ∀ rr cc3 : Int,
      (⟨rr, cc3⟩ : Position) ∈ insert (⟨t2r, t2c⟩ : Position)
        (insert (⟨t1r, t1c⟩ : Position) S) ↔
      ∃ m : Nat, (m ≤ n1 + 1 ∧ rr = t1r - (m : Int) * dr ∧
          cc3 = t1c - (m : Int) * dc) ∨
        (m ≤ n2 + 1 ∧ rr = t2r - (m : Int) * dr ∧ cc3 = t2c - (m : Int) * dc) := by
    intro rr cc3
    rw [Finset.mem_insert, Finset.mem_insert, hSdesc]
    constructor
    · rintro (h | h | ⟨m, ⟨hm, h1, h2⟩ | ⟨hm, h1, h2⟩⟩)
      · rw [Position.mk.injEq] at h
        exact ⟨0, Or.inr ⟨by omega, by omega, by omega⟩⟩
      · rw [Position.mk.injEq] at h
        exact ⟨0, Or.inl ⟨by omega, by omega, by omega⟩⟩
      · refine ⟨m + 1, Or.inl ⟨by omega, ?_, ?_⟩⟩
        · rw [h1]
          push_cast
          ring
        · rw [h2]
          push_cast
          ring
      · refine ⟨m + 1, Or.inr ⟨by omega, ?_, ?_⟩⟩
        · rw [h1]
          push_cast
          ring
        · rw [h2]
          push_cast
          ring
    · rintro ⟨m, ⟨hm, h1, h2⟩ | ⟨hm, h1, h2⟩⟩
      · cases m with
        | zero =>
          right
          left
          rw [Position.mk.injEq]
          exact ⟨by omega, by omega⟩
        | succ m2 =>
          right
          right
          refine ⟨m2, Or.inl ⟨by omega, ?_, ?_⟩⟩
          · rw [h1]
            push_cast
            ring
          · rw [h2]
            push_cast
            ring
      · cases m with
        | zero =>
          left
          rw [Position.mk.injEq]
          exact ⟨by omega, by omega⟩
        | succ m2 =>
          right
          right
          refine ⟨m2, Or.inr ⟨by omega, ?_, ?_⟩⟩
          · rw [h1]
            push_cast
            ring
          · rw [h2]
            push_cast
            ring
  have hbots : ∀ xr xc : Int, (⟨xr, xc⟩ : Position) ∈ S →
      (⟨xr - dr, xc - dc⟩ : Position) ∉ S →
      (xr = cr - t1r + dr ∧ xc = cc - t1c + dc) ∨
        (xr = cr - t2r + dr ∧ xc = cc - t2c + dc) := by
    intro xr xc hx hnd
    have hsx := hσ xr xc hx
    have ht := htrans2 _ hsx
    dsimp only at ht
    rcases ht with h | h | h
    · exfalso
      apply hnd
      have h2 := hσ _ _ h
      exact mem_of_coords (by ring) (by ring) h2
    · exact Or.inl ⟨by omega, by omega⟩
    · exact Or.inr ⟨by omega, by omega⟩
  have hb1mem : (⟨t1r - ((n1 : Int) + 1) * dr, t1c - ((n1 : Int) + 1) * dc⟩ :
      Position) ∈ S :=
    mem_of_coords (by ring) (by ring) (hin1 n1 (le_refl n1))
  have hb2mem : (⟨t2r - ((n2 : Int) + 1) * dr, t2c - ((n2 : Int) + 1) * dc⟩ :
      Position) ∈ S :=
    mem_of_coords (by ring) (by ring) (hin2 n2 (le_refl n2))
  have hb1out : (⟨t1r - ((n1 : Int) + 1) * dr - dr, t1c - ((n1 : Int) + 1) * dc - dc⟩ :
      Position) ∉ S := by
    intro hmem
    exact hout1 (mem_of_coords (by ring) (by ring) hmem)
  have hb2out : (⟨t2r - ((n2 : Int) + 1) * dr - dr, t2c - ((n2 : Int) + 1) * dc - dc⟩ :
      Position) ∉ S := by
    intro hmem
    exact hout2 (mem_of_coords (by ring) (by ring) hmem)
  have hb1 := hbots _ _ hb1mem hb1out
  have hb2 := hbots _ _ hb2mem hb2out
  rcases hkey with hd1 | ⟨hM2, he_d⟩
  · exact two_chain_box_center hd1 he1 henpd hennd hb1 hb2 hS'desc hnn
  · have hsplit : (dr = 0 ∧ (dc = 2 ∨ dc = -2)) ∨ (dc = 0 ∧ (dr = 2 ∨ dr = -2)) ∨
        ((dr = 1 ∨ dr = -1) ∧ (dc = 1 ∨ dc = -1)) := by
      clear hb1 hb2 he1 he_d henpd hennd hd0
      omega
    rcases hsplit with hax | hax | hdd
    · exact two_chain_segment_center (Or.inl hax) he1 he_d hb1 hb2 hS'desc hnn
    · exact two_chain_segment_center (Or.inr hax) he1 he_d hb1 hb2 hS'desc hnn
    · exact two_chain_staircase_center hdd he1 he_d hb1 hb2 hS'desc hnn

theorem CC_B {S : Finset Position} {t1r t1c t2r t2c : Int}
    (hccS : (⟨S⟩ : Galaxy).contains_center)
    (hsymS : (⟨S⟩ : Galaxy).is_symmetric)
    (ht1 : (⟨t1r, t1c⟩ : Position) ∉ S)
    (ht2 : (⟨t2r, t2c⟩ : Position) ∉ S)
    (hadj12 : (⟨t1r, t1c⟩ : Position).isAdjacentTo ⟨t2r, t2c⟩)
    (hadjS : ∃ s0 ∈ S, s0.isAdjacentTo ⟨t1r, t1c⟩)
    (hnn : ∀ p ∈ insert (⟨t2r, t2c⟩ : Position) (insert (⟨t1r, t1c⟩ : Position) S),
      0 ≤ p.row ∧ 0 ≤ p.column)
    (hsymm : (⟨insert (⟨t2r, t2c⟩ : Position)
        (insert (⟨t1r, t1c⟩ : Position) S)⟩ : Galaxy).is_symmetric) :
    (⟨insert (⟨t2r, t2c⟩ : Position)
        (insert (⟨t1r, t1c⟩ : Position) S)⟩ : Galaxy).contains_center := by
  rcases hc : (⟨S⟩ : Galaxy).center with ⟨cr, cc⟩
  rcases hc' : (⟨insert (⟨t2r, t2c⟩ : Position)
      (insert (⟨t1r, t1c⟩ : Position) S)⟩ : Galaxy).center with ⟨cr', cc'⟩
  have hσ : ∀ pr pc : Int, (⟨pr, pc⟩ : Position) ∈ S →
      (⟨cr - pr, cc - pc⟩ : Position) ∈ S := by
    intro pr pc hp
    have h1 := hsymS ⟨pr, pc⟩ hp
    unfold Galaxy.mirror_position at h1
    dsimp only at h1
    rw [hc] at h1
    dsimp only at h1
    exact h1
  have hσ' : ∀ pr pc : Int, (⟨pr, pc⟩ : Position) ∈ insert (⟨t2r, t2c⟩ : Position)
      (insert (⟨t1r, t1c⟩ : Position) S) →
      (⟨cr' - pr, cc' - pc⟩ : Position) ∈ insert (⟨t2r, t2c⟩ : Position)
        (insert (⟨t1r, t1c⟩ : Position) S) := by
    intro pr pc hp
    have h1 := hsymm ⟨pr, pc⟩ hp
    unfold Galaxy.mirror_position at h1
    dsimp only at h1
    rw [hc'] at h1
    dsimp only at h1
    exact h1
  have he1 : (t1r - t2r).natAbs + (t1c - t2c).natAbs = 1 := by
    unfold Position.isAdjacentTo at hadj12
    dsimp only at hadj12
    exact hadj12
  by_cases hfix1 : (⟨cr' - t1r, cc' - t1c⟩ : Position) = ⟨t1r, t1c⟩
  · rw [Position.mk.injEq] at hfix1
    have hcen : (⟨insert (⟨t2r, t2c⟩ : Position)
        (insert (⟨t1r, t1c⟩ : Position) S)⟩ : Galaxy).center = ⟨2 * t1r, 2 * t1c⟩ := by
      rw [hc', Position.mk.injEq]
      omega
    exact Galaxy.contains_center_of_double
      (Finset.mem_insert_of_mem (Finset.mem_insert_self _ _)) hcen
  · by_cases hfix2 : (⟨cr' - t2r, cc' - t2c⟩ : Position) = ⟨t2r, t2c⟩
    · rw [Position.mk.injEq] at hfix2
      have hcen : (⟨insert (⟨t2r, t2c⟩ : Position)
          (insert (⟨t1r, t1c⟩ : Position) S)⟩ : Galaxy).center =
          ⟨2 * t2r, 2 * t2c⟩ := by
        rw [hc', Position.mk.injEq]
        omega
      exact Galaxy.contains_center_of_double (Finset.mem_insert_self _ _) hcen
    · by_cases hswap : (⟨cr' - t1r, cc' - t1c⟩ : Position) = ⟨t2r, t2c⟩
      · rw [Position.mk.injEq] at hswap
        have hσS : ∀ pr pc : Int, (⟨pr, pc⟩ : Position) ∈ S →
            (⟨cr' - pr, cc' - pc⟩ : Position) ∈ S := by
          intro pr pc hp
          have h2 := hσ' pr pc
            (Finset.mem_insert_of_mem (Finset.mem_insert_of_mem hp))
          rcases Finset.mem_insert.mp h2 with h | h
          · exfalso
            rw [Position.mk.injEq] at h
            exact ht1 (mem_of_coords (by omega) (by omega) hp)
          · rcases Finset.mem_insert.mp h with h3 | h3
            · exfalso
              rw [Position.mk.injEq] at h3
              exact ht2 (mem_of_coords (by omega) (by omega) hp)
            · exact h3
        obtain ⟨s0, hs0, _⟩ := hadjS
        have hsym2 : ∀ p ∈ S, (⟨(⟨cr', cc'⟩ : Position).row - p.row,
            (⟨cr', cc'⟩ : Position).column - p.column⟩ : Position) ∈ S :=
          fun p hp => hσS p.row p.column hp
        have hsa := Galaxy.symm_about ⟨s0, hs0⟩ hsym2
        have hcen := hsa.1
        rw [hc, Position.mk.injEq] at hcen
        refine Galaxy.contains_center_of_subset ?_ ?_ hccS
        · intro p hp
          exact Finset.mem_insert_of_mem (Finset.mem_insert_of_mem hp)
        · rw [hc', hc, Position.mk.injEq]
          omega
      · have hs1 : (⟨cr' - t1r, cc' - t1c⟩ : Position) ∈ S := by
          have h1 := hσ' t1r t1c
            (Finset.mem_insert_of_mem (Finset.mem_insert_self _ _))
          rcases Finset.mem_insert.mp h1 with h | h
          · exact absurd h hswap
          · rcases Finset.mem_insert.mp h with h3 | h3
            · exact absurd h3 hfix1
            · exact h3
        have hs2 : (⟨cr' - t2r, cc' - t2c⟩ : Position) ∈ S := by
          have h1 := hσ' t2r t2c (Finset.mem_insert_self _ _)
          rcases Finset.mem_insert.mp h1 with h | h
          · exact absurd h hfix2
          · rcases Finset.mem_insert.mp h with h3 | h3
            · exfalso
              apply hswap
              rw [Position.mk.injEq] at h3 ⊢
              omega
            · exact h3
        exact CC_B_main ht1 ht2 he1 hadjS hσ hσ' hs1 hs2 hnn

/-! ## C1 — assembly helpers: component classes of the mutated universe -/

theorem rtg_nbr_symm (V : Universe) {a b : Position}
    (h : Relation.ReflTransGen V.are_neighbours a b) :
    Relation.ReflTransGen V.are_neighbours b a := by
  induction h with
  | refl => exact Relation.ReflTransGen.refl
  | tail h1 h2 ih =>
    exact Relation.ReflTransGen.head (Universe.are_neighbours_comm.mp h2) ih

theorem nbr_of_graph_filter {V U : Universe} {D : Finset Position}
    (h : V.graph = U.graph.filter (fun e => e.1 ∉ D ∧ e.2 ∉ D)) (x y : Position) :
    V.are_neighbours x y ↔ U.are_neighbours x y ∧ x ∉ D ∧ y ∉ D := by
  unfold Universe.are_neighbours
  rw [h]
  simp only [Finset.mem_filter]
  constructor
  · rintro (⟨he, h1, h2⟩ | ⟨he, h1, h2⟩)
    · exact ⟨Or.inl he, h1, h2⟩
    · exact ⟨Or.inr he, h2, h1⟩
  · rintro ⟨(he | he), h1, h2⟩
    · exact Or.inl ⟨he, h1, h2⟩
    · exact Or.inr ⟨he, h2, h1⟩

theorem Universe.get_galaxy_disjoint {U : Universe} {p q x : Position}
    (h : q ∉ (U.get_galaxy p).positions) (hx : x ∈ (U.get_galaxy p).positions) :
    x ∉ (U.get_galaxy q).positions := by
  intro hq
  apply h
  have h1 := Universe.mem_get_galaxy_symm hq
  rw [Universe.get_galaxy_eq_of_mem hx] at h1
  exact h1

theorem gal_valid_of_positions {g : Galaxy} {T : Finset Position}
    (h : g.positions = T) (hv : (⟨T⟩ : Galaxy).is_valid) : g.is_valid := by
  cases g
  cases h
  exact hv

theorem Universe.class_valid_all {V : Universe} (C : Finset Position)
    (hclosed : ∀ x ∈ C, ∀ y : Position, V.are_neighbours x y → y ∈ C)
    (hconn0 : ∃ b ∈ C, ∀ x ∈ C, Relation.ReflTransGen V.are_neighbours b x)
    (hvalC : (⟨C⟩ : Galaxy).is_valid) :
    ∀ q ∈ C, (V.get_galaxy q).is_valid := by
  intro q hq
  obtain ⟨b, hb, hconnb⟩ := hconn0
  have hconnq : ∀ x ∈ C, Relation.ReflTransGen V.are_neighbours q x := fun x hx =>
    Relation.ReflTransGen.trans (rtg_nbr_symm V (hconnb q hq)) (hconnb x hx)
  exact gal_valid_of_positions
    (Universe.get_galaxy_positions_eq hq hclosed hconnq) hvalC

theorem rtg_transfer {U V : Universe} {p : Position}
    (h : ∀ x y : Position, x ∈ (U.get_galaxy p).positions → U.are_neighbours x y →
      V.are_neighbours x y) :
    ∀ x, Relation.ReflTransGen U.are_neighbours p x →
      Relation.ReflTransGen V.are_neighbours p x := by
  intro x hx
  induction hx with
  | refl => exact Relation.ReflTransGen.refl
  | tail h1 h2 ih =>
    exact Relation.ReflTransGen.tail ih (h _ _ (Universe.mem_get_galaxy.mpr h1) h2)

theorem rtg_of_adj_conn {V : Universe} {C : Finset Position} {b : Position}
    (hb : b ∈ C) (hconn : (⟨C⟩ : Galaxy).is_connected)
    (h : ∀ a ∈ C, ∀ c ∈ C, a.isAdjacentTo c → V.are_neighbours a c) :
    ∀ x ∈ C, Relation.ReflTransGen V.are_neighbours b x := by
  intro x hx
  have h1 := Galaxy.is_connected_reach hconn hb hx
  clear hx
  induction h1 with
  | refl => exact Relation.ReflTransGen.refl
  | tail h1 h2 ih =>
    have ha := adjReach_mem hb h1
    have hc := (Finset.mem_filter.mp h2).1
    exact Relation.ReflTransGen.tail ih
      (h _ ha _ hc (Position.isAdjacentTo_iff_mem_adjacent.mpr
        (Finset.mem_filter.mp h2).2))

theorem center_cell_mem {g : Galaxy} (hcc : g.contains_center) {a b : Int}
    (hcen : g.center = ⟨2 * a, 2 * b⟩) : (⟨a, b⟩ : Position) ∈ g.positions := by
  unfold Galaxy.contains_center at hcc
  rw [hcen] at hcc
  dsimp only at hcc
  have hr : (2 * a).tmod 2 = 0 := Int.mul_tmod_right 2 a
  have hcl : (2 * b).tmod 2 = 0 := Int.mul_tmod_right 2 b
  rw [if_pos hr, if_pos hcl] at hcc
  have h1 : (2 * a).tdiv 2 = a := Int.mul_tdiv_cancel_left _ (by omega)
  have h2 : (2 * b).tdiv 2 = b := Int.mul_tdiv_cancel_left _ (by omega)
  have := hcc ((2 * a).tdiv 2) (List.mem_singleton_self _) ((2 * b).tdiv 2)
    (List.mem_singleton_self _)
  rw [h1, h2] at this
  exact this

theorem generate_step_B_valid {U : Universe} (hwf : U.well_formed) (hsat : U.saturated)
    (hval : U.is_valid) {p1 p2 : Position}
    (hp1g : p1 ∈ gridFinset U.width U.height)
    (hp2mem : p2 ∈ U.adjacent_non_neighbours p1)
    (hsymb : ((U.get_galaxy p1).with_position p2).is_symmetric) :
    ((U.remove_positions_from_galaxy (U.get_galaxy p2) [p2]).make_neighbours p1
      p2).is_valid := by
  have hwfg : U.edges_in_grid := fun e he => ⟨(hwf e he).1, (hwf e he).2.1⟩
  obtain ⟨hadj12, hp2in, hp2nb⟩ := mem_adjacent_non_neighbours.mp hp2mem
  have hp1in : U.is_inside p1 := Universe.is_inside_iff_mem_grid.mpr hp1g
  have hp2g : p2 ∈ gridFinset U.width U.height :=
    Universe.is_inside_iff_mem_grid.mp hp2in
  have hgal_valid : ∀ p ∈ gridFinset U.width U.height, (U.get_galaxy p).is_valid :=
    fun p hp => hval _ ((U.get_galaxies_cover hwfg).1 p hp)
  have hg1val := hgal_valid p1 hp1g
  have hg2val := hgal_valid p2 hp2g
  have hp2ng1 : p2 ∉ (U.get_galaxy p1).positions := by
    intro hmem
    exact hp2nb (hsat p1 p2 hadj12 hmem)
  obtain ⟨D, hDsub, hDmem, hgraph, hw1, hh1, hrem⟩ :=
    remove_positions_spec hwf hg2val [p2] (by
      intro p hp
      rw [List.mem_singleton] at hp
      rw [hp]
      exact U.self_mem_get_galaxy p2)
  have hp2D : p2 ∈ D := hDmem p2 (List.mem_singleton_self p2)
  set U1 := U.remove_positions_from_galaxy (U.get_galaxy p2) [p2] with hU1def
  have hU1wf : U1.well_formed :=
    Universe.well_formed_mono hw1 hh1
      (by rw [hgraph]; exact Finset.filter_subset _ _) hwf
  have hU1nbr : ∀ x y : Position, U1.are_neighbours x y ↔
      (U.are_neighbours x y ∧ x ∉ D ∧ y ∉ D) := nbr_of_graph_filter hgraph
  have hdisj12 : ∀ x ∈ (U.get_galaxy p1).positions,
      x ∉ (U.get_galaxy p2).positions :=
    fun x hx => Universe.get_galaxy_disjoint hp2ng1 hx
  have hg1D : ∀ x ∈ (U.get_galaxy p1).positions, x ∉ D :=
    fun x hx hxD => hdisj12 x hx (hDsub hxD)
  set U2 := U1.make_neighbours p1 p2 with hU2def
  have hU2w : U2.width = U.width := by
    rw [hU2def, (make_neighbours_width U1 p1 p2).1, hw1]
  have hU2h : U2.height = U.height := by
    rw [hU2def, (make_neighbours_width U1 p1 p2).2, hh1]
  have hU1p2in : U1.is_inside p2 := by
    unfold Universe.is_inside at hp2in ⊢
    rw [hw1, hh1]
    exact hp2in
  have hU2wf : U2.well_formed := make_neighbours_well_formed hU1wf p1 hU1p2in
  have hU2nbr_other : ∀ x y : Position, x ≠ p2 → y ≠ p2 →
      (U2.are_neighbours x y ↔ (U.are_neighbours x y ∧ x ∉ D ∧ y ∉ D)) := by
    intro x y hx hy
    rw [hU2def, make_neighbours_nbr_other hx hy]
    exact hU1nbr x y
  have hg1U1 : (U1.get_galaxy p1).positions = (U.get_galaxy p1).positions := by
    refine Universe.get_galaxy_positions_eq (U.self_mem_get_galaxy p1) ?_ ?_
    · intro x hx y hnbr
      rw [hU1nbr] at hnbr
      have h1 : y ∈ (U.get_galaxy x).positions :=
        Universe.mem_get_galaxy.mpr (Relation.ReflTransGen.single hnbr.1)
      rw [Universe.get_galaxy_eq_of_mem hx] at h1
      exact h1
    · intro x hx
      have hrtg := Universe.mem_get_galaxy.mp hx
      refine rtg_transfer ?_ x hrtg
      intro a b ha hab
      rw [hU1nbr]
      have hb : b ∈ (U.get_galaxy p1).positions := by
        have h1 : b ∈ (U.get_galaxy a).positions :=
          Universe.mem_get_galaxy.mpr (Relation.ReflTransGen.single hab)
        rw [Universe.get_galaxy_eq_of_mem ha] at h1
        exact h1
      exact ⟨hab, hg1D a ha, hg1D b hb⟩
  have hU2p2nbr : ∀ q : Position, U2.are_neighbours p2 q ↔
      (q ∈ (U.get_galaxy p1).positions ∧ p2.isAdjacentTo q ∧ U.is_inside q) := by
    intro q
    rw [hU2def, make_neighbours_nbr_p2 hU1wf p1, hg1U1]
    constructor
    · rintro ⟨h1, h2, h3⟩
      refine ⟨h1, h2, ?_⟩
      unfold Universe.is_inside at h3 ⊢
      rw [hw1, hh1] at h3
      exact h3
    · rintro ⟨h1, h2, h3⟩
      refine ⟨h1, h2, ?_⟩
      unfold Universe.is_inside at h3 ⊢
      rw [hw1, hh1]
      exact h3
  set Sa := insert p2 (U.get_galaxy p1).positions with hSa
  have hSaclosed : ∀ x ∈ Sa, ∀ y : Position, U2.are_neighbours x y → y ∈ Sa := by
    intro x hx y hnbr
    by_cases hxp2 : x = p2
    · subst hxp2
      rw [hU2p2nbr] at hnbr
      exact Finset.mem_insert_of_mem hnbr.1
    · by_cases hyp2 : y = p2
      · subst hyp2
        exact Finset.mem_insert_self _ _
      · rw [hU2nbr_other x y hxp2 hyp2] at hnbr
        have hxg1 : x ∈ (U.get_galaxy p1).positions := by
          rcases Finset.mem_insert.mp hx with h | h
          · exact absurd h hxp2
          · exact h
        have hy : y ∈ (U.get_galaxy x).positions :=
          Universe.mem_get_galaxy.mpr (Relation.ReflTransGen.single hnbr.1)
        rw [Universe.get_galaxy_eq_of_mem hxg1] at hy
        exact Finset.mem_insert_of_mem hy
  have hSaconn : ∀ x ∈ Sa, Relation.ReflTransGen U2.are_neighbours p1 x := by
    intro x hx
    rcases Finset.mem_insert.mp hx with h | h
    · subst h
      refine Relation.ReflTransGen.single ?_
      rw [Universe.are_neighbours_comm, hU2p2nbr]
      exact ⟨U.self_mem_get_galaxy p1, Position.isAdjacentTo_comm.mp hadj12, hp1in⟩
    · have hrtg := Universe.mem_get_galaxy.mp h
      refine rtg_transfer ?_ x hrtg
      intro a b ha hab
      have hb : b ∈ (U.get_galaxy p1).positions := by
        have h1 : b ∈ (U.get_galaxy a).positions :=
          Universe.mem_get_galaxy.mpr (Relation.ReflTransGen.single hab)
        rw [Universe.get_galaxy_eq_of_mem ha] at h1
        exact h1
      have hap2 : a ≠ p2 := fun he => hp2ng1 (he ▸ ha)
      have hbp2 : b ≠ p2 := fun he => hp2ng1 (he ▸ hb)
      rw [hU2nbr_other a b hap2 hbp2]
      exact ⟨hab, hg1D a ha, hg1D b hb⟩
  have hnnSa : ∀ p ∈ Sa, 0 ≤ p.row ∧ 0 ≤ p.column := by
    intro p hp
    rcases Finset.mem_insert.mp hp with h | h
    · subst h
      exact ⟨hp2in.1, hp2in.2.2.1⟩
    · have hg := Universe.get_galaxy_subset_grid hwfg hp1g h
      rw [mem_gridFinset] at hg
      exact ⟨hg.1, hg.2.2.1⟩
  have hSavalid : (⟨Sa⟩ : Galaxy).is_valid := by
    obtain ⟨hg1ne, hg1cc, hg1conn, hg1sym⟩ := hg1val
    refine ⟨?_, ?_, ?_, ?_⟩
    · unfold Galaxy.is_empty
      dsimp only
      exact Finset.insert_ne_empty _ _
    · exact CC_A hg1sym hp2ng1 ⟨p1, U.self_mem_get_galaxy p1, hadj12⟩ hnnSa hsymb
    · exact Galaxy.is_connected_insert hg1conn (U.self_mem_get_galaxy p1) hadj12
    · exact hsymb
  refine Universe.is_valid_of_galaxies
    (fun e he => ⟨(hU2wf e he).1, (hU2wf e he).2.1⟩) ?_
  intro q hq
  rw [hU2w, hU2h] at hq
  by_cases hqa : q ∈ Sa
  · exact Universe.class_valid_all Sa hSaclosed
      ⟨p1, Finset.mem_insert_of_mem (U.self_mem_get_galaxy p1), hSaconn⟩ hSavalid q hqa
  · by_cases hqD : q ∈ D
    · have hqp2 : q ≠ p2 := fun he => hqa (he ▸ Finset.mem_insert_self _ _)
      refine Universe.class_valid_all {q} ?_
        ⟨q, Finset.mem_singleton_self q, ?_⟩ (Galaxy.singleton_valid q) q
        (Finset.mem_singleton_self q)
      · intro x hx y hnbr
        rw [Finset.mem_singleton] at hx
        subst hx
        exfalso
        by_cases hyp2 : y = p2
        · subst hyp2
          rw [Universe.are_neighbours_comm, hU2p2nbr] at hnbr
          exact hqa (Finset.mem_insert_of_mem hnbr.1)
        · rw [hU2nbr_other x y hqp2 hyp2] at hnbr
          exact hnbr.2.1 hqD
      · intro x hx
        rw [Finset.mem_singleton] at hx
        subst hx
        exact Relation.ReflTransGen.refl
    · by_cases hqg2 : q ∈ (U.get_galaxy p2).positions
      · have hRne : q ∈ (U.get_galaxy p2).positions \ D :=
          Finset.mem_sdiff.mpr ⟨hqg2, hqD⟩
        have hRvalid : (⟨(U.get_galaxy p2).positions \ D⟩ : Galaxy).is_valid := by
          rcases hrem with h | h
          · rw [h] at hRne
            exact absurd hRne (Finset.not_mem_empty q)
          · exact h
        set R := (U.get_galaxy p2).positions \ D with hR
        have hg2Dg1 : ∀ x ∈ (U.get_galaxy p2).positions,
            x ∉ (U.get_galaxy p1).positions := fun x hx hg1 => hdisj12 x hg1 hx
        have hRclosed : ∀ x ∈ R, ∀ y : Position, U2.are_neighbours x y → y ∈ R := by
          intro x hx y hnbr
          have hxg2 := (Finset.mem_sdiff.mp hx).1
          have hxD := (Finset.mem_sdiff.mp hx).2
          have hxp2 : x ≠ p2 := fun he => hxD (he ▸ hp2D)
          by_cases hyp2 : y = p2
          · subst hyp2
            rw [Universe.are_neighbours_comm, hU2p2nbr] at hnbr
            exact absurd hnbr.1 (hg2Dg1 x hxg2)
          · rw [hU2nbr_other x y hxp2 hyp2] at hnbr
            have hy : y ∈ (U.get_galaxy p2).positions := by
              have h1 : y ∈ (U.get_galaxy x).positions :=
                Universe.mem_get_galaxy.mpr (Relation.ReflTransGen.single hnbr.1)
              rw [Universe.get_galaxy_eq_of_mem hxg2] at h1
              exact h1
            exact Finset.mem_sdiff.mpr ⟨hy, hnbr.2.2⟩
        have hRadj : ∀ a ∈ R, ∀ c ∈ R, a.isAdjacentTo c → U2.are_neighbours a c := by
          intro a ha c hc hadj
          have hag2 := (Finset.mem_sdiff.mp ha).1
          have hcg2 := (Finset.mem_sdiff.mp hc).1
          have haD := (Finset.mem_sdiff.mp ha).2
          have hcD := (Finset.mem_sdiff.mp hc).2
          have hap2 : a ≠ p2 := fun he => haD (he ▸ hp2D)
          have hcp2 : c ≠ p2 := fun he => hcD (he ▸ hp2D)
          rw [hU2nbr_other a c hap2 hcp2]
          refine ⟨?_, haD, hcD⟩
          have hcga : c ∈ (U.get_galaxy a).positions := by
            rw [Universe.get_galaxy_eq_of_mem hag2]
            exact hcg2
          exact hsat a c hadj hcga
        exact Universe.class_valid_all R hRclosed
          ⟨q, hRne, rtg_of_adj_conn hRne hRvalid.2.2.1 hRadj⟩ hRvalid q hRne
      · have hqg1 : q ∉ (U.get_galaxy p1).positions :=
          fun h => hqa (Finset.mem_insert_of_mem h)
        set Cq := (U.get_galaxy q).positions with hCq
        have hCqg1 : ∀ x ∈ Cq, x ∉ (U.get_galaxy p1).positions := by
          intro x hx hxg1
          apply hqg1
          have h1 := Universe.mem_get_galaxy_symm hx
          rw [Universe.get_galaxy_eq_of_mem hxg1] at h1
          exact h1
        have hCqg2 : ∀ x ∈ Cq, x ∉ (U.get_galaxy p2).positions := by
          intro x hx hxg2
          apply hqg2
          have h1 := Universe.mem_get_galaxy_symm hx
          rw [Universe.get_galaxy_eq_of_mem hxg2] at h1
          exact h1
        have hCqD : ∀ x ∈ Cq, x ∉ D := fun x hx hxD => hCqg2 x hx (hDsub hxD)
        have hCqclosed : ∀ x ∈ Cq, ∀ y : Position, U2.are_neighbours x y → y ∈ Cq := by
          intro x hx y hnbr
          have hxp2 : x ≠ p2 := fun he => hCqD x hx (he ▸ hp2D)
          by_cases hyp2 : y = p2
          · subst hyp2
            rw [Universe.are_neighbours_comm, hU2p2nbr] at hnbr
            exact absurd hnbr.1 (hCqg1 x hx)
          · rw [hU2nbr_other x y hxp2 hyp2] at hnbr
            have hy : y ∈ (U.get_galaxy x).positions :=
              Universe.mem_get_galaxy.mpr (Relation.ReflTransGen.single hnbr.1)
            rw [Universe.get_galaxy_eq_of_mem hx] at hy
            exact hy
        have hCqconn : ∀ x ∈ Cq, Relation.ReflTransGen U2.are_neighbours q x := by
          intro x hx
          have hrtg := Universe.mem_get_galaxy.mp hx
          refine rtg_transfer ?_ x hrtg
          intro a b ha hab
          have hb : b ∈ Cq := by
            have h1 : b ∈ (U.get_galaxy a).positions :=
              Universe.mem_get_galaxy.mpr (Relation.ReflTransGen.single hab)
            rw [Universe.get_galaxy_eq_of_mem ha] at h1
            exact h1
          have hap2 : a ≠ p2 := fun he => hCqD a ha (he ▸ hp2D)
          have hbp2 : b ≠ p2 := fun he => hCqD b hb (he ▸ hp2D)
          rw [hU2nbr_other a b hap2 hbp2]
          exact ⟨hab, hCqD a ha, hCqD b hb⟩
        exact Universe.class_valid_all Cq hCqclosed
          ⟨q, U.self_mem_get_galaxy q, hCqconn⟩ (hgal_valid q hq) q
          (U.self_mem_get_galaxy q)

/-- Claim C2 (witness): the round-trip theorem applied to the unit universe,
whose single galaxy is the valid singleton at the origin. -/
theorem C2_witness :
    ∃ e : BoardError,
      (boardOfUniverse (Universe.new 1 1)).compute_error
          (Objective.generate (Universe.new 1 1)) = some e ∧
        e.dangling_borders = ∅ ∧ e.cut_centers = ∅ ∧ e.asymmetric_centers = ∅ ∧
        e.incorrect_galaxy_sizes = ∅ ∧ e.centerless_cells = ∅ :=
  C2_round_trip (Universe.new 1 1) (by decide) (by decide)

end Vintergatan
